import Mathlib

/-!
# cagi: a C client library for the Asterisk Gateway Interface

A shallow embedding of `cagi-internals.c` and `cagi.c`.

Conventions of the embedding.

* A C string (`char *`) is the list of its characters before the terminating NUL;
  a `const char *` argument therefore never contains a NUL character.
* `stdin` is the list of bytes still to be delivered on the stream; `fgets` takes
  them from its front.  Everything the program does to the outside world is
  appended to an event trace, in order.
* A function of the program maps a `World` to a `Result`: it returns a value,
  or it calls `exit`, or it leaves the defined fragment of C (a NULL pointer is
  dereferenced, bytes past the end of a string are read, an array is written
  outside its bounds).
* `malloc` and `fopen` are taken to succeed; `fflush` has no effect on the model.
-/

namespace Cagi

/-! ## Constants of `cagi.h` -/

/-- Size of every text buffer of the library (cagi.h). -/
def _BUFF_SIZE : Nat := 500

/-- Maximal number of script arguments (cagi.h). -/
def _MAX_ARGS : Nat := 127

/-- Number of elements of a command result (cagi.h). -/
def _RETURN_ELEMENTS : Nat := 3

/-- Timeout sent when the caller gives none (cagi.h). -/
def _DEFAULT_TIMEOUT : List Char := "2000".toList

/-! ## The outside world -/

/-- One observable action of the program. -/
inductive Event where
  /-- Text written to standard output, the command channel. -/
  | stdout_write (text : List Char)
  /-- One `fgets` on standard input and the bytes it delivered (none at end of input). -/
  | stdin_read (bytes : List Char)
  /-- Text written to standard error, the diagnostics sink. -/
  | stderr_write (text : List Char)
  /-- A file created or truncated by `fopen(path, "w")`. -/
  | file_open (path : List Char)
  /-- Text written to a file opened by the program. -/
  | file_write (path : List Char) (text : List Char)
  deriving DecidableEq, Repr

/-- The unread bytes of standard input and the trace of actions so far. -/
structure World where
  stdin : List Char
  events : List Event
  deriving DecidableEq, Repr

/-- Append one action to the trace. -/
def World.emit (w : World) (e : Event) : World :=
  { w with events := w.events ++ [e] }

/-- Outcome of running a function of the program. -/
inductive Result (α : Type) where
  /-- The function returned `val`, leaving the world `w`. -/
  | ret (val : α) (w : World)
  /-- The function called `exit(status)`, leaving the world `w`. -/
  | exit (status : Int) (w : World)
  /-- The execution left the defined fragment of C. -/
  | undefined
  deriving DecidableEq, Repr

/-! ## Library functions of C -/

/-- The NUL character, terminator of C strings. -/
def NUL : Char := Char.ofNat 0

/-- The C string held by a byte buffer: the bytes before the first NUL. -/
def cstr (bytes : List Char) : List Char :=
  bytes.takeWhile (fun c => c ≠ NUL)

/-- Bytes taken by `fgets` with room for `room` characters: up to and including the
first newline, at most `room` of them.  Returns the bytes taken and the bytes left. -/
def fgets_take : Nat → List Char → List Char × List Char
  | 0, s => ([], s)
  | _ + 1, [] => ([], [])
  | room + 1, c :: s =>
    if c = '\n' then ([c], s)
    else ((c :: (fgets_take room s).1), (fgets_take room s).2)

/-- Model of `fgets(buff, size, stdin)`: `none` is the NULL returned at end of input
(the buffer is then not written), otherwise the bytes stored and the bytes left. -/
def fgets (size : Nat) (stdin : List Char) : Option (List Char × List Char) :=
  match stdin with
  | [] => none
  | _ :: _ => some (fgets_take (size - 1) stdin)

/-- Model of `strchr(s, c)` for `c` other than NUL: `none` is NULL, otherwise the text
before the first `c` and the text from that `c` on (the returned pointer). -/
def strchr : List Char → Char → Option (List Char × List Char)
  | [], _ => none
  | x :: s, c =>
    if x = c then some ([], x :: s)
    else
      match strchr s c with
      | none => none
      | some (before, found) => some (x :: before, found)

/-- Model of `strrchr(s, c)` for `c` other than NUL: `none` is NULL, otherwise the text
before the last `c` and the text from that `c` on (the returned pointer). -/
def strrchr : List Char → Char → Option (List Char × List Char)
  | [], _ => none
  | x :: s, c =>
    match strrchr s c with
    | some (before, found) => some (x :: before, found)
    | none => if x = c then some ([], x :: s) else none

/-- Model of `strncpy(dst, src, n)` into a fresh buffer: the string then held by `dst`.
When `src` has `n` or more characters no terminator is written and `dst` holds no
string (`none`). -/
def strncpy (src : List Char) (n : Nat) : Option (List Char) :=
  if src.length < n then some src else none

/-- Model of `isspace` in the C locale. -/
def isspace (c : Char) : Bool :=
  c = ' ' || c = '\t' || c = '\n' || c = Char.ofNat 11 || c = Char.ofNat 12 || c = '\r'

/-- Value of the leading decimal digits of a string, continuing from `acc`. -/
def atoi_digits : List Char → Nat → Nat
  | [], acc => acc
  | c :: s, acc =>
    if c.isDigit then atoi_digits s (acc * 10 + (c.toNat - '0'.toNat)) else acc

/-- Model of `atoi`: leading white space, an optional sign, decimal digits.  `none`
when the number does not fit an `int` of 32 bits, for which C defines no result. -/
def atoi (s : List Char) : Option Int :=
  let s1 := s.dropWhile isspace
  let v : Int :=
    match s1 with
    | '-' :: t => - (atoi_digits t 0 : Int)
    | '+' :: t => (atoi_digits t 0 : Int)
    | _ => (atoi_digits s1 0 : Int)
  if -2147483648 ≤ v ∧ v ≤ 2147483647 then some v else none

/-! ## cagi-internals.c -/

/-- Embedding of `print_debug`: the message and a newline go to standard error. -/
def print_debug (debugmsg : List Char) (w : World) : World :=
  w.emit (Event.stderr_write (debugmsg ++ ['\n']))

/-- The array of three strings returned by `evaluate` and `create_dummy`:
`data[0]`, `data[1]` and `data[2]`. -/
structure ReturnElements where
  code : List Char
  result : List Char
  data : List Char
  deriving DecidableEq, Repr

/-- Embedding of `evaluate`: send the command, read one line, split it. -/
def evaluate (command : List Char) (w : World) : Result ReturnElements :=
  -- fprintf(stdout, "%s", command)
  let w1 := w.emit (Event.stdout_write command)
  match fgets _BUFF_SIZE w1.stdin with
  -- end of input: `buff` is parsed without having been written
  | none => Result.undefined
  | some (bytes, rest) =>
    let w2 : World := { stdin := rest, events := w1.events ++ [Event.stdin_read bytes] }
    let buff := cstr bytes
    match strchr buff ' ' with
    | none => Result.exit 1 (print_debug "ERROR! Problem parsing input.".toList w2)
    | some (begin0, end0) =>
      match strncpy begin0 (_BUFF_SIZE - 1) with
      | none => Result.undefined
      | some data0 =>
        match strchr end0.tail '=' with
        | none => Result.exit 1 (print_debug "ERROR! Problem parsing input.".toList w2)
        | some (_, begin1) =>
          match strchr begin1.tail ' ' with
          | none =>
            match strrchr begin1.tail '\n' with
            | none => Result.exit 1 (print_debug "ERROR! Problem parsing input.".toList w2)
            | some (result, _) =>
              match strncpy result (_BUFF_SIZE - 1) with
              | none => Result.undefined
              | some data1 => Result.ret ⟨data0, data1, []⟩ w2
          | some (result, end1) =>
            match strncpy result (_BUFF_SIZE - 1) with
            | none => Result.undefined
            | some data1 =>
              match strrchr end1.tail '\n' with
              | none => Result.exit 1 (print_debug "ERROR! Problem parsing input.".toList w2)
              | some (data, _) =>
                match strncpy data (_BUFF_SIZE - 1) with
                | none => Result.undefined
                | some data2 => Result.ret ⟨data0, data1, data2⟩ w2

/-- Embedding of `free_2d_array`: memory is not modelled, nothing is observable. -/
def free_2d_array (_data : ReturnElements) (w : World) : World := w

/-- First loop of `format_str`: the lengths of the next `n` variadic arguments added
to `len`.  `none` when `va_arg` runs past the arguments passed. -/
def format_str_len : Nat → Nat → List (List Char) → Option Nat
  | 0, len, _ => some len
  | _ + 1, _, [] => none
  | n + 1, len, arg :: args => format_str_len n (len + arg.length) args

/-- Second loop of `format_str`: the next `n` variadic arguments written at `ptr`, the
end of `str`; an empty argument is skipped.  `none` when `va_arg` runs past the
arguments passed. -/
def format_str_copy : Nat → List Char → List (List Char) → Option (List Char)
  | 0, str, _ => some str
  | _ + 1, _, [] => none
  | n + 1, str, tmp :: args =>
    if tmp ≠ [] then format_str_copy n (str ++ tmp) args
    else format_str_copy n str args

/-- Embedding of `format_str(count, str1, ...)`, the variadic arguments given as a
list.  `none` when fewer than `count - 1` of them were passed, when the text written
does not fit the `len` bytes allocated, or when every string is empty: `sprintf` is
then never called and the buffer returned by `malloc` holds no terminated string. -/
def format_str (count : Nat) (str1 : List Char) (args : List (List Char)) :
    Option (List Char) :=
  match format_str_len (count - 1) str1.length args with
  | none => none
  | some len0 =>
    let len := len0 + 1
    match format_str_copy (count - 1) (if str1 = [] then [] else str1) args with
    | none => none
    | some str =>
      -- nothing has been written at `str`
      if str = [] then none
      else if str.length + 1 ≤ len then some str else none

/-- Embedding of `create_dummy`: the three strings are copied into fresh buffers of
`_BUFF_SIZE` bytes by `strcpy`; a string that does not fit overruns its buffer. -/
def create_dummy (code result data : List Char) (w : World) : Result ReturnElements :=
  if code.length < _BUFF_SIZE ∧ result.length < _BUFF_SIZE ∧ data.length < _BUFF_SIZE then
    Result.ret ⟨code, result, data⟩ w
  else Result.undefined

/-- Embedding of `struct asterisk_vars` (cagi.h).  A field that has not been written
since `malloc` holds no defined string (`none`); `agi_args` lists its `_MAX_ARGS`
slots. -/
structure asterisk_vars where
  agi_request : Option (List Char)
  agi_channel : Option (List Char)
  agi_language : Option (List Char)
  agi_type : Option (List Char)
  agi_uniqueid : Option (List Char)
  agi_version : Option (List Char)
  agi_callerid : Option (List Char)
  agi_calleridname : Option (List Char)
  agi_callingpres : Option (List Char)
  agi_callingani2 : Option (List Char)
  agi_callington : Option (List Char)
  agi_callingtns : Option (List Char)
  agi_dnid : Option (List Char)
  agi_rdnis : Option (List Char)
  agi_context : Option (List Char)
  agi_extension : Option (List Char)
  agi_priority : Option (List Char)
  agi_enhanced : Option (List Char)
  agi_accountcode : Option (List Char)
  agi_threadid : Option (List Char)
  agi_args : List (Option (List Char))
  deriving DecidableEq, Repr

/-- The structure as `safe_malloc` delivers it: nothing written yet. -/
def asterisk_vars.fresh : asterisk_vars :=
  { agi_request := none,
    agi_channel := none,
    agi_language := none,
    agi_type := none,
    agi_uniqueid := none,
    agi_version := none,
    agi_callerid := none,
    agi_calleridname := none,
    agi_callingpres := none,
    agi_callingani2 := none,
    agi_callington := none,
    agi_callingtns := none,
    agi_dnid := none,
    agi_rdnis := none,
    agi_context := none,
    agi_extension := none,
    agi_priority := none,
    agi_enhanced := none,
    agi_accountcode := none,
    agi_threadid := none,
    agi_args := List.replicate _MAX_ARGS none }

/-- The twenty named fields in the order of their declaration. -/
def asterisk_vars.named (vars : asterisk_vars) : List (Option (List Char)) :=
  [vars.agi_request,
    vars.agi_channel,
    vars.agi_language,
    vars.agi_type,
    vars.agi_uniqueid,
    vars.agi_version,
    vars.agi_callerid,
    vars.agi_calleridname,
    vars.agi_callingpres,
    vars.agi_callingani2,
    vars.agi_callington,
    vars.agi_callingtns,
    vars.agi_dnid,
    vars.agi_rdnis,
    vars.agi_context,
    vars.agi_extension,
    vars.agi_priority,
    vars.agi_enhanced,
    vars.agi_accountcode,
    vars.agi_threadid]

/-- The `switch (i)` of `readvars`: `value` is copied into the field of position `i`,
or into `agi_args[j]` with `j` incremented.  Returns the structure and the new `j`;
`none` when the copy is left unterminated or `agi_args[j]` lies outside the array. -/
def readvars_store (i j : Nat) (value : List Char) (vars : asterisk_vars) :
    Option (asterisk_vars × Nat) :=
  match i with
  | 0 => (strncpy value (_BUFF_SIZE - 1)).map fun v => ({ vars with agi_request := some v }, j)
  | 1 => (strncpy value (_BUFF_SIZE - 1)).map fun v => ({ vars with agi_channel := some v }, j)
  | 2 => (strncpy value (_BUFF_SIZE - 1)).map fun v => ({ vars with agi_language := some v }, j)
  | 3 => (strncpy value (_BUFF_SIZE - 1)).map fun v => ({ vars with agi_type := some v }, j)
  | 4 => (strncpy value (_BUFF_SIZE - 1)).map fun v => ({ vars with agi_uniqueid := some v }, j)
  | 5 => (strncpy value (_BUFF_SIZE - 1)).map fun v => ({ vars with agi_version := some v }, j)
  | 6 => (strncpy value (_BUFF_SIZE - 1)).map fun v => ({ vars with agi_callerid := some v }, j)
  | 7 => (strncpy value (_BUFF_SIZE - 1)).map fun v => ({ vars with agi_calleridname := some v }, j)
  | 8 => (strncpy value (_BUFF_SIZE - 1)).map fun v => ({ vars with agi_callingpres := some v }, j)
  | 9 => (strncpy value (_BUFF_SIZE - 1)).map fun v => ({ vars with agi_callingani2 := some v }, j)
  | 10 => (strncpy value (_BUFF_SIZE - 1)).map fun v => ({ vars with agi_callington := some v }, j)
  | 11 => (strncpy value (_BUFF_SIZE - 1)).map fun v => ({ vars with agi_callingtns := some v }, j)
  | 12 => (strncpy value (_BUFF_SIZE - 1)).map fun v => ({ vars with agi_dnid := some v }, j)
  | 13 => (strncpy value (_BUFF_SIZE - 1)).map fun v => ({ vars with agi_rdnis := some v }, j)
  | 14 => (strncpy value (_BUFF_SIZE - 1)).map fun v => ({ vars with agi_context := some v }, j)
  | 15 => (strncpy value (_BUFF_SIZE - 1)).map fun v => ({ vars with agi_extension := some v }, j)
  | 16 => (strncpy value (_BUFF_SIZE - 1)).map fun v => ({ vars with agi_priority := some v }, j)
  | 17 => (strncpy value (_BUFF_SIZE - 1)).map fun v => ({ vars with agi_enhanced := some v }, j)
  | 18 => (strncpy value (_BUFF_SIZE - 1)).map fun v => ({ vars with agi_accountcode := some v }, j)
  | 19 => (strncpy value (_BUFF_SIZE - 1)).map fun v => ({ vars with agi_threadid := some v }, j)
  | _ =>
    if j < _MAX_ARGS then
      (strncpy value _BUFF_SIZE).map fun v =>
        ({ vars with agi_args := vars.agi_args.set j (some v) }, j + 1)
    else none

/-- The loop of `readvars`, entered with the line held by `buff`; `fuel` bounds the
number of iterations, which never exceeds `20 + _MAX_ARGS + 1` since every iteration
fills a new field or slot. -/
def readvars_loop : Nat → Nat → Nat → List Char → asterisk_vars → World →
    Result asterisk_vars
  | 0, _, _, _, _, _ => Result.undefined
  | fuel + 1, i, j, buff, vars, w =>
    if buff.head? = some '\n' then Result.ret vars w
    else
      match strchr buff ':' with
      | none => Result.exit 1 (print_debug "ERROR! Problem reading variables.".toList w)
      | some (name, colon) =>
        match colon with
        -- value += 2
        | _ :: sep :: value =>
          -- the value kept and the string left in `buff`
          let stored : Option (List Char × List Char) :=
            if value.head? = some '\n' then some (" ".toList, buff)
            else
              match strchr value '\n' with
              -- the test is on `value`, not on `ptr`: `*ptr` is a NULL dereference
              | none => none
              | some (text, _) => some (text, name ++ ':' :: sep :: text)
          match stored with
          | none => Result.undefined
          | some (value1, buff1) =>
            match readvars_store i j value1 vars with
            | none => Result.undefined
            | some (vars1, j1) =>
              match fgets _BUFF_SIZE w.stdin with
              -- the result of `fgets` is not tested: `buff` keeps what it held
              | none =>
                readvars_loop fuel (i + 1) j1 buff1 vars1 (w.emit (Event.stdin_read []))
              | some (bytes, rest) =>
                readvars_loop fuel (i + 1) j1 (cstr bytes) vars1
                  { stdin := rest, events := w.events ++ [Event.stdin_read bytes] }
        -- `value` points past the terminator of the string
        | _ => Result.undefined

/-- Embedding of `readvars`. -/
def readvars (w : World) : Result asterisk_vars :=
  match fgets _BUFF_SIZE w.stdin with
  -- end of input: `buff[0]` is read without having been written
  | none => Result.undefined
  | some (bytes, rest) =>
    readvars_loop (20 + _MAX_ARGS + 1) 0 0 (cstr bytes) asterisk_vars.fresh
      { stdin := rest, events := w.events ++ [Event.stdin_read bytes] }

/-! ## cagi.c -/

/-- Sequencing of two steps of the program. -/
def Result.bind {α β : Type} (r : Result α) (f : α → World → Result β) : Result β :=
  match r with
  | Result.ret v w => f v w
  | Result.exit status w => Result.exit status w
  | Result.undefined => Result.undefined

/-- The statement `data = evaluate(cmd)` for a `cmd` built by `format_str`. -/
def evaluate_cmd (cmd : Option (List Char)) (w : World) : Result ReturnElements :=
  match cmd with
  | none => Result.undefined
  | some command => evaluate command w

/-- Embedding of `answer`. -/
def answer (w : World) : Result Int :=
  (evaluate "ANSWER\n".toList w).bind fun data w1 =>
    Result.ret (if data.result = "-1".toList then -1 else 0) (free_2d_array data w1)

/-- Embedding of `channel_status`. -/
def channel_status (channel_name : List Char) (w : World) : Result Int :=
  (if channel_name = [] then evaluate "CHANNEL STATUS\n".toList w
   else evaluate_cmd (format_str 3 "CHANNEL STATUS ".toList [channel_name, "\n".toList]) w).bind
  fun data w1 =>
    Result.ret
      (if data.result = "0".toList then 0
       else if data.result = "1".toList then 1
       else if data.result = "2".toList then 2
       else if data.result = "3".toList then 3
       else if data.result = "4".toList then 4
       else if data.result = "5".toList then 5
       else if data.result = "6".toList then 6
       else if data.result = "7".toList then 7
       else -1)
      (free_2d_array data w1)

/-- Embedding of `database_del`. -/
def database_del (family key : List Char) (w : World) : Result Int :=
  if family = [] then
    Result.ret 0 (print_debug "ERROR! <family> must not be empty.".toList w)
  else if key = [] then
    Result.ret 0 (print_debug "ERROR! <key> must not be empty.".toList w)
  else
    (evaluate_cmd (format_str 5 "DATABASE DEL ".toList
      [family, " ".toList, key, "\n".toList]) w).bind fun data w1 =>
    Result.ret (if data.result = "1".toList then 1 else 0) (free_2d_array data w1)

/-- Embedding of `database_deltree`. -/
def database_deltree (family keytree : List Char) (w : World) : Result Int :=
  if family = [] then
    Result.ret 0 (print_debug "ERROR! <family> must not be empty.".toList w)
  else
    (evaluate_cmd
      (if keytree = [] then format_str 3 "DATABASE DELTREE ".toList [family, "\n".toList]
       else format_str 5 "DATABASE DELTREE ".toList
        [family, " ".toList, keytree, "\n".toList]) w).bind fun data w1 =>
    Result.ret (if data.result = "1".toList then 1 else 0) (free_2d_array data w1)

/-- Embedding of `database_get`. -/
def database_get (family key : List Char) (w : World) : Result (List Char) :=
  if family = [] then
    Result.ret [] (print_debug "ERROR! <family> must not be empty.".toList w)
  else if key = [] then
    Result.ret [] (print_debug "ERROR! <key> must not be empty.".toList w)
  else
    (evaluate_cmd (format_str 5 "DATABASE GET ".toList
      [family, " ".toList, key, "\n".toList]) w).bind fun data w1 =>
    Result.ret (if data.result = "1".toList then data.data else []) (free_2d_array data w1)

/-- Embedding of `database_put`. -/
def database_put (family key value : List Char) (w : World) : Result Int :=
  if family = [] then
    Result.ret 0 (print_debug "ERROR! <family> must not be empty.".toList w)
  else if key = [] then
    Result.ret 0 (print_debug "ERROR! <key> must not be empty.".toList w)
  else if value = [] then
    Result.ret 0 (print_debug "ERROR! <value> must not be empty.".toList w)
  else
    (evaluate_cmd (format_str 7 "DATABASE PUT ".toList
      [family, " ".toList, key, " ".toList, value, "\n".toList]) w).bind fun data w1 =>
    Result.ret (if data.result = "1".toList then 1 else 0) (free_2d_array data w1)

/-- First loop of `exec`: `escopt` after scanning `options`. -/
def exec_escopt : List Char → Nat → Nat
  | [], escopt => escopt
  | c :: options, escopt =>
    if c = ' ' then exec_escopt options (escopt + 1) else exec_escopt options escopt

/-- Second loop of `exec` over the characters of `options` still to copy: `j` is the
next index of `buff`, whose bytes `0 .. j-1` are listed in `buff`.  Returns the final
`j` and the bytes written. -/
def exec_escape : List Char → Nat → List Char → Nat × List Char
  | [], j, buff => (j, buff)
  | c :: options, j, buff =>
    if c = ' ' then exec_escape options (j + 1 + 1) (buff ++ ['\\'] ++ [' '])
    else exec_escape options (j + 1) (buff ++ [c])

/-- Embedding of `exec`. -/
def exec (application options : List Char) (w : World) : Result ReturnElements :=
  if application = [] then
    create_dummy "200".toList "-2".toList []
      (print_debug "ERROR! <application> must not be empty.".toList w)
  else if options = [] then
    evaluate_cmd (format_str 3 "EXEC ".toList [application, "\n".toList]) w
  else
    let escopt := exec_escopt options 0
    if escopt ≠ 0 then
      let size := options.length + escopt + 1
      let w1 := (w.emit (Event.file_open "/tmp/shit".toList)).emit
        (Event.file_write "/tmp/shit".toList
          ((Nat.repr size).toList ++ " is the size of buff".toList))
      let (j, buff) := exec_escape options 0 []
      if j < size then
        evaluate_cmd (format_str 5 "EXEC ".toList
          [application, " ".toList, buff, "\n".toList]) w1
      else Result.undefined
    else
      evaluate_cmd (format_str 5 "EXEC ".toList
        [application, " ".toList, options, "\n".toList]) w

/-- Embedding of `get_data`. -/
def get_data (file timeout maxdigits : List Char) (w : World) : Result ReturnElements :=
  if file = [] then
    create_dummy "200".toList "-1".toList []
      (print_debug "ERROR! <file> must not be empty.".toList w)
  else
    let given : Bool := if timeout = [] then true else false
    if maxdigits = [] then
      evaluate_cmd (format_str 5 "GET DATA ".toList
        [file, " ".toList, (if given then timeout else _DEFAULT_TIMEOUT), "\n".toList]) w
    else
      evaluate_cmd (format_str 7 "GET DATA ".toList
        [file, " ".toList, (if given then timeout else _DEFAULT_TIMEOUT), " ".toList,
          maxdigits, "\n".toList]) w

/-- Embedding of `get_full_variable`. -/
def get_full_variable (variablename channel : List Char) (w : World) :
    Result (List Char) :=
  if variablename = [] then
    Result.ret [] (print_debug "ERROR! <variablename> cannot be empty.".toList w)
  else
    (evaluate_cmd
      (if channel = [] then
        format_str 3 "GET FULL VARIABLE ".toList [variablename, "\n".toList]
       else format_str 5 "GET FULL VARIABLE ".toList
        [variablename, " ".toList, channel, "\n".toList]) w).bind fun data w1 =>
    Result.ret (if data.result = "1".toList then data.data else []) (free_2d_array data w1)

/-- Embedding of `get_option`. -/
def get_option (file escapedigits timeout : List Char) (w : World) :
    Result ReturnElements :=
  if file = [] then
    create_dummy "200".toList "-1".toList "endpos=0".toList
      (print_debug "ERROR! <file> must not be empty.".toList w)
  else if escapedigits = [] then
    create_dummy "200".toList "-1".toList "endpos=0".toList
      (print_debug "ERROR! <escapedigits> must not be empty.".toList w)
  else if timeout = [] then
    evaluate_cmd (format_str 5 "GET OPTION ".toList
      [file, " ".toList, escapedigits, "\n".toList]) w
  else
    evaluate_cmd (format_str 7 "GET OPTION ".toList
      [file, " ".toList, escapedigits, " ".toList, timeout, "\n".toList]) w

/-- Embedding of `get_variable`. -/
def get_variable (variablename : List Char) (w : World) : Result (List Char) :=
  if variablename = [] then
    Result.ret [] (print_debug "ERROR! <variablename> cannot be empty.".toList w)
  else
    (evaluate_cmd (format_str 3 "GET VARIABLE ".toList
      [variablename, "\n".toList]) w).bind fun data w1 =>
    Result.ret (if data.result = "1".toList then data.data else []) (free_2d_array data w1)

/-- Embedding of `hangup`. -/
def hangup (channel_name : List Char) (w : World) : Result Int :=
  (if channel_name = [] then evaluate "HANGUP\n".toList w
   else evaluate_cmd (format_str 3 "HANGUP ".toList [channel_name, "\n".toList]) w).bind
  fun data w1 =>
    Result.ret (if data.result = "1".toList then 1 else -1) (free_2d_array data w1)

/-- Embedding of `noop`. -/
def noop (str : List Char) (w : World) : Result Int :=
  (if str = [] then evaluate "NOOP\n".toList w
   else evaluate_cmd (format_str 3 "NOOP ".toList [str, "\n".toList]) w).bind
  fun data w1 => Result.ret 0 (free_2d_array data w1)

/-- Embedding of `receive_char`. -/
def receive_char (timeout : List Char) (w : World) : Result ReturnElements :=
  let w0 := w.emit (Event.file_open "/tmp/wtf".toList)
  (evaluate_cmd
    (if timeout = [] then format_str 3 "RECEIVE CHAR ".toList [_DEFAULT_TIMEOUT, "\n".toList]
     else format_str 3 "RECEIVE CHAR ".toList [timeout, "\n".toList]) w0).bind fun data w1 =>
  let w2 := w1.emit (Event.file_write "/tmp/wtf".toList "---\n".toList)
  let w3 := w2.emit (Event.file_write "/tmp/wtf".toList
    ("data[0]=".toList ++ data.code ++ "\n".toList))
  let w4 := w3.emit (Event.file_write "/tmp/wtf".toList
    ("data[1]=".toList ++ data.result ++ "\n".toList))
  let w5 := w4.emit (Event.file_write "/tmp/wtf".toList
    ("data[2]=".toList ++ data.data ++ "\n".toList))
  let w6 := w5.emit (Event.file_write "/tmp/wtf".toList "---\n".toList)
  Result.ret data w6

/-- Embedding of `receive_text`. -/
def receive_text (timeout : List Char) (w : World) : Result (List Char) :=
  (evaluate_cmd
    (if timeout = [] then format_str 3 "RECEIVE TEXT ".toList [_DEFAULT_TIMEOUT, "\n".toList]
     else format_str 3 "RECEIVE TEXT ".toList [timeout, "\n".toList]) w).bind fun data w1 =>
  Result.ret (if data.result ≠ "-1".toList then data.result else []) (free_2d_array data w1)

/-- Embedding of `record_file`. -/
def record_file (file format escape_digits timeout offset_samples beep silence : List Char)
    (w : World) : Result ReturnElements :=
  if file = [] then
    create_dummy "200".toList "-1".toList "(randomerror) endpos=0".toList
      (print_debug "ERROR! <file> must not be empty.".toList w)
  else if format = [] then
    create_dummy "200".toList "-1".toList "(randomerror) endpos=0".toList
      (print_debug "ERROR! <format> must not be empty.".toList w)
  else if escape_digits = [] then
    create_dummy "200".toList "-1".toList "(randomerror) endpos=0".toList
      (print_debug "ERROR! <escape_digits> must not be empty.".toList w)
  else if timeout = [] then
    create_dummy "200".toList "-1".toList "(randomerror) endpos=0".toList
      (print_debug "ERROR! <timeout> must not be empty.".toList w)
  else if offset_samples = [] then
    evaluate_cmd (format_str 9 "RECORD FILE ".toList
      [file, " ".toList, format, " ".toList, escape_digits, " ".toList, timeout,
        "\n".toList]) w
  else if beep = [] then
    evaluate_cmd (format_str 11 "RECORD FILE ".toList
      [file, " ".toList, format, " ".toList, escape_digits, " ".toList, timeout,
        " ".toList, offset_samples, "\n".toList]) w
  else if silence = [] then
    evaluate_cmd (format_str 13 "RECORD FILE ".toList
      [file, " ".toList, format, " ".toList, escape_digits, " ".toList, timeout,
        " ".toList, offset_samples, " ".toList, beep, "\n".toList]) w
  else
    evaluate_cmd (format_str 15 "RECORD FILE ".toList
      [file, " ".toList, format, " ".toList, escape_digits, " ".toList, timeout,
        " ".toList, offset_samples, " ".toList, beep, " ".toList, silence, "\n".toList]) w

/-- Embedding of `say_alpha`. -/
def say_alpha (letters escape_digits : List Char) (w : World) : Result (List Char) :=
  if letters = [] then
    Result.ret "-1".toList (print_debug "ERROR! <letter> must not be empty.".toList w)
  else if escape_digits = [] then
    Result.ret "-1".toList (print_debug "ERROR! <escape_digits> must not be empty.".toList w)
  else
    (evaluate_cmd (format_str 5 "SAY ALPHA ".toList
      [letters, " ".toList, escape_digits, "\n".toList]) w).bind fun data w1 =>
    Result.ret
      (if data.result = "-1".toList then []
       else if data.result = "0".toList then data.result
       else data.result)
      (free_2d_array data w1)

/-- Embedding of `say_digits`. -/
def say_digits (numbers escape_digits : List Char) (w : World) : Result (List Char) :=
  if numbers = [] then
    Result.ret "-1".toList (print_debug "ERROR! <numbers> must not be empty.".toList w)
  else if escape_digits = [] then
    Result.ret "-1".toList (print_debug "ERROR! <escape_digits> must not be empty.".toList w)
  else
    (evaluate_cmd (format_str 5 "SAY DIGITS ".toList
      [numbers, " ".toList, escape_digits, "\n".toList]) w).bind fun data w1 =>
    Result.ret
      (if data.result = "-1".toList then []
       else if data.result = "0".toList then data.result
       else data.result)
      (free_2d_array data w1)

/-- Embedding of `say_number`. -/
def say_number (number escape_digits gender : List Char) (w : World) : Result (List Char) :=
  if number = [] then
    Result.ret "-1".toList (print_debug "ERROR! <number> must not be empty.".toList w)
  else if escape_digits = [] then
    Result.ret "-1".toList (print_debug "ERROR! <escape_digits> must not be empty.".toList w)
  else
    (evaluate_cmd
      (if gender = [] then
        format_str 5 "SAY NUMBER ".toList [number, " ".toList, escape_digits, "\n".toList]
       else format_str 7 "SAY NUMBER ".toList
        [number, " ".toList, escape_digits, " ".toList, gender, "\n".toList]) w).bind
    fun data w1 =>
    Result.ret
      (if data.result = "-1".toList then []
       else if data.result = "0".toList then data.result
       else data.result)
      (free_2d_array data w1)

/-- Embedding of `say_phonetic`. -/
def say_phonetic (string escape_digits : List Char) (w : World) : Result (List Char) :=
  if string = [] then
    Result.ret "-1".toList (print_debug "ERROR! <string> must not be empty.".toList w)
  else if escape_digits = [] then
    Result.ret "-1".toList (print_debug "ERROR! <escape_digits> must not be empty.".toList w)
  else
    (evaluate_cmd (format_str 5 "SAY PHONETIC ".toList
      [string, " ".toList, escape_digits, "\n".toList]) w).bind fun data w1 =>
    Result.ret
      (if data.result = "-1".toList then []
       else if data.result = "0".toList then data.result
       else data.result)
      (free_2d_array data w1)

/-- Embedding of `say_date`. -/
def say_date (date escape_digits : List Char) (w : World) : Result (List Char) :=
  if date = [] then
    Result.ret "-1".toList (print_debug "ERROR! <date> must not be empty.".toList w)
  else if escape_digits = [] then
    Result.ret "-1".toList (print_debug "ERROR! <escape_digits> must not be empty.".toList w)
  else
    (evaluate_cmd (format_str 5 "SAY DATE ".toList
      [date, " ".toList, escape_digits, "\n".toList]) w).bind fun data w1 =>
    Result.ret
      (if data.result = "-1".toList then []
       else if data.result = "0".toList then data.result
       else data.result)
      (free_2d_array data w1)

/-- Embedding of `say_time`. -/
def say_time (time escape_digits : List Char) (w : World) : Result (List Char) :=
  if time = [] then
    Result.ret "-1".toList (print_debug "ERROR! <time> must not be empty.".toList w)
  else if escape_digits = [] then
    Result.ret "-1".toList (print_debug "ERROR! <escape_digits> must not be empty.".toList w)
  else
    (evaluate_cmd (format_str 5 "SAY TIME ".toList
      [time, " ".toList, escape_digits, "\n".toList]) w).bind fun data w1 =>
    Result.ret
      (if data.result = "-1".toList then []
       else if data.result = "0".toList then data.result
       else data.result)
      (free_2d_array data w1)

/-- Embedding of `say_datetime`. -/
def say_datetime (time escape_digits format timezone : List Char) (w : World) :
    Result (List Char) :=
  if time = [] then
    Result.ret "-1".toList (print_debug "ERROR! <time> must not be empty.".toList w)
  else if escape_digits = [] then
    Result.ret "-1".toList (print_debug "ERROR! <escape_digits> must not be empty.".toList w)
  else
    (evaluate_cmd
      (if format = [] then
        format_str 5 "SAY DATETIME ".toList [time, " ".toList, escape_digits, "\n".toList]
       else if timezone = [] then
        format_str 7 "SAY DATETIME ".toList
          [time, " ".toList, escape_digits, " ".toList, format, "\n".toList]
       else format_str 9 "SAY DATETIME ".toList
        [time, " ".toList, escape_digits, " ".toList, format, " ".toList, timezone,
          "\n".toList]) w).bind
    fun data w1 =>
    Result.ret
      (if data.result = "-1".toList then []
       else if data.result = "0".toList then data.result
       else data.result)
      (free_2d_array data w1)

/-- Embedding of `send_image`. -/
def send_image (image : List Char) (w : World) : Result Int :=
  if image = [] then
    Result.ret (-1) (print_debug "ERROR! <image> must not be empty.".toList w)
  else
    (evaluate_cmd (format_str 3 "SEND IMAGE ".toList [image, "\n".toList]) w).bind
    fun data w1 =>
    Result.ret (if data.result = "0".toList then 0 else -1) (free_2d_array data w1)

/-- Embedding of `send_text`. -/
def send_text (text : List Char) (w : World) : Result Int :=
  if text = [] then
    Result.ret (-1) (print_debug "ERROR! <text> must not be empty.".toList w)
  else
    (evaluate_cmd (format_str 3 "SEND TEXT \"".toList [text, "\"\n".toList]) w).bind
    fun data w1 =>
    Result.ret (if data.result = "0".toList then 0 else -1) (free_2d_array data w1)

/-- Embedding of `set_autohangup`. -/
def set_autohangup (time : List Char) (w : World) : Result Int :=
  if time = [] then
    Result.ret 0 (print_debug "ERROR! <time> must not be empty.".toList w)
  else
    (evaluate_cmd (format_str 3 "SET AUTOHANGUP ".toList [time, "\n".toList]) w).bind fun data w1 =>
    Result.ret 0 (free_2d_array data w1)

/-- Embedding of `set_callerid`. -/
def set_callerid (number : List Char) (w : World) : Result Int :=
  if number = [] then
    Result.ret 1 (print_debug "ERROR! <number> must not be empty.".toList w)
  else
    (evaluate_cmd (format_str 3 "SET CALLERID ".toList [number, "\n".toList]) w).bind fun data w1 =>
    Result.ret 1 (free_2d_array data w1)

/-- Embedding of `set_context`. -/
def set_context (context : List Char) (w : World) : Result Int :=
  if context = [] then
    Result.ret 0 (print_debug "ERROR! <context> must not be emnpty.".toList w)
  else
    (evaluate_cmd (format_str 3 "SET CONTEXT ".toList [context, "\n".toList]) w).bind fun data w1 =>
    Result.ret 0 (free_2d_array data w1)

/-- Embedding of `set_extension`. -/
def set_extension (extension : List Char) (w : World) : Result Int :=
  if extension = [] then
    Result.ret 0 (print_debug "ERROR! <extension> must not be empty.".toList w)
  else
    (evaluate_cmd (format_str 3 "SET EXTENSION ".toList [extension, "\n".toList]) w).bind fun data w1 =>
    Result.ret 0 (free_2d_array data w1)

/-- Embedding of `set_music`. -/
def set_music (onoff mclass : List Char) (w : World) : Result Int :=
  if onoff = [] then
    Result.ret 0 (print_debug "ERROR! <onoff> must not be empty.".toList w)
  else
    (evaluate_cmd
      (if mclass = [] then format_str 3 "SET MUSIC ".toList [onoff, "\n".toList]
       else format_str 5 "SET MUSIC ".toList
        [onoff, " ".toList, mclass, "\n".toList]) w).bind
    fun data w1 => Result.ret 0 (free_2d_array data w1)

/-- Embedding of `set_priority`. -/
def set_priority (priority : List Char) (w : World) : Result Int :=
  if priority = [] then
    Result.ret 0 (print_debug "ERROR! <priority> must not be empty.".toList w)
  else
    (evaluate_cmd (format_str 3 "SET PRIORITY ".toList [priority, "\n".toList]) w).bind fun data w1 =>
    Result.ret 0 (free_2d_array data w1)

/-- Embedding of `set_variable`. -/
def set_variable (variablename value : List Char) (w : World) : Result Int :=
  if variablename = [] then
    Result.ret 1 (print_debug "ERROR! <variablename> must not be empty.".toList w)
  else if value = [] then
    Result.ret 1 (print_debug "ERROR! <value> must not be empty.".toList w)
  else
    (evaluate_cmd (format_str 5 "SET VARIABLE ".toList
      [variablename, " ".toList, value, "\n".toList]) w).bind
    fun data w1 => Result.ret 1 (free_2d_array data w1)

/-- Embedding of `stream_file`. -/
def stream_file (file escape_digits sample_offset : List Char) (w : World) :
    Result ReturnElements :=
  if file = [] then
    create_dummy "200".toList "0".toList "endpos=0".toList
      (print_debug "ERROR! <file> must not be empty.".toList w)
  else if sample_offset = [] then
    if escape_digits = [] then
      evaluate_cmd (format_str 3 "STREAM FILE ".toList [file, " \"\"\n".toList]) w
    else
      evaluate_cmd (format_str 5 "STREAM FILE ".toList
        [file, " ".toList, escape_digits, "\n".toList]) w
  else
    if escape_digits = [] then
      evaluate_cmd (format_str 5 "STREAM FILE ".toList
        [file, " \"\" ".toList, sample_offset, "\n".toList]) w
    else
      evaluate_cmd (format_str 5 "STREAM FILE ".toList
        [file, " ".toList, escape_digits, "\n".toList]) w

/-- Embedding of `control_stream_file`. -/
def control_stream_file (file escape_digits skipms ffchar rewchr pausechr : List Char)
    (w : World) : Result ReturnElements :=
  if file = [] then
    create_dummy "200".toList "0".toList "endpos=0".toList
      (print_debug "ERROR! <file> must not be empty.".toList w)
  else
    let given : Bool := if escape_digits ≠ [] then true else false
    let digits := if given then escape_digits else "\"\"".toList
    if skipms = [] then
      evaluate_cmd (format_str 5 "CONTROL STREAM FILE ".toList
        [file, " ".toList, digits, "\n".toList]) w
    else if ffchar = [] then
      evaluate_cmd (format_str 7 "CONTROL STREAM FILE ".toList
        [file, " ".toList, digits, " ".toList, skipms, "\n".toList]) w
    else if rewchr = [] then
      evaluate_cmd (format_str 9 "CONTROL STREAM FILE ".toList
        [file, " ".toList, digits, " ".toList, skipms, " ".toList, ffchar, "\n".toList]) w
    else if pausechr = [] then
      evaluate_cmd (format_str 11 "CONTROL STREAM FILE ".toList
        [file, " ".toList, digits, " ".toList, skipms, " ".toList, ffchar, " ".toList,
          rewchr, "\n".toList]) w
    else
      evaluate_cmd (format_str 13 "CONTROL STREAM FILE ".toList
        [file, " ".toList, digits, " ".toList, skipms, " ".toList, ffchar, " ".toList,
          rewchr, " ".toList, pausechr, "\n".toList]) w

/-- Embedding of `tdd_mode`. -/
def tdd_mode (toggle : List Char) (w : World) : Result Int :=
  if toggle = [] then
    Result.ret (-1) (print_debug "ERROR! <toggle> must not be empty.".toList w)
  else
    (evaluate_cmd (format_str 3 "TDD MODE ".toList [toggle, "\n".toList]) w).bind
    fun data w1 =>
    Result.ret
      (if data.result = "1".toList then 1
       else if data.result = "0".toList then 0
       else -1)
      (free_2d_array data w1)

/-- Embedding of `verbose`. -/
def verbose (message level : List Char) (w : World) : Result Int :=
  if message = [] then
    Result.ret 1 (print_debug "ERROR! <message> must not be empty.".toList w)
  else
    (evaluate_cmd
      (if level = [] then format_str 3 "VERBOSE \"".toList [message, "\"\n".toList]
       else format_str 5 "VERBOSE \"".toList
        [message, "\" ".toList, level, "\n".toList]) w).bind
    fun data w1 => Result.ret 1 (free_2d_array data w1)

/-- Embedding of `wait_for_digit`. -/
def wait_for_digit (timeout : List Char) (w : World) : Result Int :=
  if timeout = [] then
    Result.ret (-1) (print_debug "ERROR! <timeout> must not be empty.".toList w)
  else
    (evaluate_cmd (format_str 3 "WAIT FOR DIGIT ".toList [timeout, "\n".toList]) w).bind
    fun data w1 =>
    if data.result = "0".toList then Result.ret 0 (free_2d_array data w1)
    else if data.result = "-1".toList then Result.ret (-1) (free_2d_array data w1)
    else
      match atoi data.result with
      | none => Result.undefined
      | some status => Result.ret status (free_2d_array data w1)

/-- Embedding of `speech_create`. -/
def speech_create (engine : List Char) (w : World) : Result Int :=
  if engine = [] then
    Result.ret (-1) (print_debug "ERROR! <engine> must not be empty.".toList w)
  else
    (evaluate_cmd (format_str 3 "SPEECH CREATE ".toList [engine, "\n".toList]) w).bind fun data w1 =>
    match atoi data.result with
    | none => Result.undefined
    | some status => Result.ret status (free_2d_array data w1)

/-- Embedding of `speech_set`. -/
def speech_set (name value : List Char) (w : World) : Result Int :=
  if name = [] then
    Result.ret (-1) (print_debug "ERROR! <name> must not be empty.".toList w)
  else if value = [] then
    Result.ret (-1) (print_debug "ERROR! <value> must not be empty.".toList w)
  else
    (evaluate_cmd (format_str 5 "SPEECH SET ".toList
      [name, " ".toList, value, "\n".toList]) w).bind fun data w1 =>
    match atoi data.result with
    | none => Result.undefined
    | some status => Result.ret status (free_2d_array data w1)

/-- Embedding of `speech_destroy`. -/
def speech_destroy (w : World) : Result Int :=
  (evaluate "SPEECH DESTROY\n".toList w).bind fun data w1 =>
    match atoi data.result with
    | none => Result.undefined
    | some status => Result.ret status (free_2d_array data w1)

/-- Embedding of `speech_load_grammar`. -/
def speech_load_grammar (name path : List Char) (w : World) : Result Int :=
  if name = [] then
    Result.ret (-1) (print_debug "ERROR! <name> must not be empty.".toList w)
  else if path = [] then
    Result.ret (-1) (print_debug "ERROR! <path> must not be empty.".toList w)
  else
    (evaluate_cmd (format_str 5 "SPEECH LOAD GRAMMAR ".toList
      [name, " ".toList, path, "\n".toList]) w).bind fun data w1 =>
    match atoi data.result with
    | none => Result.undefined
    | some status => Result.ret status (free_2d_array data w1)

/-- Embedding of `speech_unload_grammar`. -/
def speech_unload_grammar (name : List Char) (w : World) : Result Int :=
  if name = [] then
    Result.ret (-1) (print_debug "ERROR! <name> must not be empty.".toList w)
  else
    (evaluate_cmd (format_str 3 "SPEECH UNLOAD GRAMMAR ".toList [name, "\n".toList]) w).bind fun data w1 =>
    match atoi data.result with
    | none => Result.undefined
    | some status => Result.ret status (free_2d_array data w1)

/-- Embedding of `speech_activate_grammar`. -/
def speech_activate_grammar (name : List Char) (w : World) : Result Int :=
  if name = [] then
    Result.ret (-1) (print_debug "ERROR! <name> must not be empty.".toList w)
  else
    (evaluate_cmd (format_str 3 "SPEECH ACTIVATE GRAMMAR ".toList [name, "\n".toList]) w).bind fun data w1 =>
    match atoi data.result with
    | none => Result.undefined
    | some status => Result.ret status (free_2d_array data w1)

/-- Embedding of `speech_deactivate_grammar`. -/
def speech_deactivate_grammar (name : List Char) (w : World) : Result Int :=
  if name = [] then
    Result.ret (-1) (print_debug "ERROR! <name> must not be empty.".toList w)
  else
    (evaluate_cmd (format_str 3 "SPEECH DEACTIVATE GRAMMAR ".toList [name, "\n".toList]) w).bind fun data w1 =>
    match atoi data.result with
    | none => Result.undefined
    | some status => Result.ret status (free_2d_array data w1)

/-- Embedding of `speech_recognize`. -/
def speech_recognize (prompt timeout offset : List Char) (w : World) :
    Result ReturnElements :=
  if prompt = [] then
    create_dummy "200".toList "-1".toList []
      (print_debug "ERROR! <prompt> must be specified.".toList w)
  else
    let given : Bool := if timeout ≠ [] then true else false
    if offset = [] then
      evaluate_cmd (format_str 5 "SPEECH RECOGNIZE ".toList
        [prompt, " ".toList, (if given then timeout else _DEFAULT_TIMEOUT), "\n".toList]) w
    else
      evaluate_cmd (format_str 7 "SPEECH RECOGNIZE ".toList
        [prompt, " ".toList, (if given then timeout else _DEFAULT_TIMEOUT), " ".toList,
          offset, "\n".toList]) w

/-- Embedding of `gosub`. -/
def gosub (context extension priority arguments : List Char) (w : World) : Result Int :=
  if context = [] then
    Result.ret (-1) (print_debug "ERROR! <context> must not be empty.".toList w)
  else if extension = [] then
    Result.ret (-1) (print_debug "ERROR! <extension> must not be empty.".toList w)
  else if priority = [] then
    Result.ret (-1) (print_debug "ERROR! <priority> must not be empty.".toList w)
  else
    (evaluate_cmd
      (if arguments = [] then
        format_str 7 "GOSUB ".toList
          [context, " ".toList, extension, " ".toList, priority, "\n".toList]
       else format_str 9 "GOSUB ".toList
        [context, " ".toList, extension, " ".toList, priority, " \"".toList, arguments,
          "\n".toList]) w).bind
    fun data w1 =>
    match atoi data.result with
    | none => Result.undefined
    | some status => Result.ret status (free_2d_array data w1)

/-! ## The command catalog -/

/-- A value returned by a command: an `int`, a string or an array of three strings. -/
inductive Value where
  | int (n : Int)
  | str (s : List Char)
  | data (d : ReturnElements)
  deriving DecidableEq, Repr

/-- Change of the type of the returned value. -/
def Result.map {α β : Type} (f : α → β) (r : Result α) : Result β :=
  match r with
  | Result.ret v w => Result.ret (f v) w
  | Result.exit status w => Result.exit status w
  | Result.undefined => Result.undefined

/-- A call of one of the functions declared in cagi.h, with its arguments. -/
inductive Command where
  | answer
  | channel_status (channel_name : List Char)
  | database_del (family key : List Char)
  | database_deltree (family keytree : List Char)
  | database_get (family key : List Char)
  | database_put (family key value : List Char)
  | exec (application options : List Char)
  | get_data (file timeout maxdigits : List Char)
  | get_full_variable (variablename channel : List Char)
  | get_option (file escapedigits timeout : List Char)
  | get_variable (variablename : List Char)
  | hangup (channel_name : List Char)
  | noop (str : List Char)
  | receive_char (timeout : List Char)
  | receive_text (timeout : List Char)
  | record_file (file format escape_digits timeout offset_samples beep silence : List Char)
  | say_alpha (letters escape_digits : List Char)
  | say_digits (numbers escape_digits : List Char)
  | say_number (number escape_digits gender : List Char)
  | say_phonetic (string escape_digits : List Char)
  | say_date (date escape_digits : List Char)
  | say_time (time escape_digits : List Char)
  | say_datetime (time escape_digits format timezone : List Char)
  | send_image (image : List Char)
  | send_text (text : List Char)
  | set_autohangup (time : List Char)
  | set_callerid (number : List Char)
  | set_context (context : List Char)
  | set_extension (extension : List Char)
  | set_music (onoff mclass : List Char)
  | set_priority (priority : List Char)
  | set_variable (variablename value : List Char)
  | stream_file (file escape_digits sample_offset : List Char)
  | control_stream_file (file escape_digits skipms ffchar rewchr pausechr : List Char)
  | tdd_mode (toggle : List Char)
  | verbose (message level : List Char)
  | wait_for_digit (timeout : List Char)
  | speech_create (engine : List Char)
  | speech_set (name value : List Char)
  | speech_destroy
  | speech_load_grammar (name path : List Char)
  | speech_unload_grammar (name : List Char)
  | speech_activate_grammar (name : List Char)
  | speech_deactivate_grammar (name : List Char)
  | speech_recognize (prompt timeout offset : List Char)
  | gosub (context extension priority arguments : List Char)
  deriving DecidableEq, Repr

/-- Run a call of the catalog. -/
def Command.run : Command → World → Result Value
  | Command.answer, w => (Cagi.answer w).map Value.int
  | Command.channel_status channel_name, w => (Cagi.channel_status channel_name w).map Value.int
  | Command.database_del family key, w => (Cagi.database_del family key w).map Value.int
  | Command.database_deltree family keytree, w => (Cagi.database_deltree family keytree w).map Value.int
  | Command.database_get family key, w => (Cagi.database_get family key w).map Value.str
  | Command.database_put family key value, w => (Cagi.database_put family key value w).map Value.int
  | Command.exec application options, w => (Cagi.exec application options w).map Value.data
  | Command.get_data file timeout maxdigits, w => (Cagi.get_data file timeout maxdigits w).map Value.data
  | Command.get_full_variable variablename channel, w => (Cagi.get_full_variable variablename channel w).map Value.str
  | Command.get_option file escapedigits timeout, w => (Cagi.get_option file escapedigits timeout w).map Value.data
  | Command.get_variable variablename, w => (Cagi.get_variable variablename w).map Value.str
  | Command.hangup channel_name, w => (Cagi.hangup channel_name w).map Value.int
  | Command.noop str, w => (Cagi.noop str w).map Value.int
  | Command.receive_char timeout, w => (Cagi.receive_char timeout w).map Value.data
  | Command.receive_text timeout, w => (Cagi.receive_text timeout w).map Value.str
  | Command.record_file file format escape_digits timeout offset_samples beep silence, w => (Cagi.record_file file format escape_digits timeout offset_samples beep silence w).map Value.data
  | Command.say_alpha letters escape_digits, w => (Cagi.say_alpha letters escape_digits w).map Value.str
  | Command.say_digits numbers escape_digits, w => (Cagi.say_digits numbers escape_digits w).map Value.str
  | Command.say_number number escape_digits gender, w => (Cagi.say_number number escape_digits gender w).map Value.str
  | Command.say_phonetic string escape_digits, w => (Cagi.say_phonetic string escape_digits w).map Value.str
  | Command.say_date date escape_digits, w => (Cagi.say_date date escape_digits w).map Value.str
  | Command.say_time time escape_digits, w => (Cagi.say_time time escape_digits w).map Value.str
  | Command.say_datetime time escape_digits format timezone, w => (Cagi.say_datetime time escape_digits format timezone w).map Value.str
  | Command.send_image image, w => (Cagi.send_image image w).map Value.int
  | Command.send_text text, w => (Cagi.send_text text w).map Value.int
  | Command.set_autohangup time, w => (Cagi.set_autohangup time w).map Value.int
  | Command.set_callerid number, w => (Cagi.set_callerid number w).map Value.int
  | Command.set_context context, w => (Cagi.set_context context w).map Value.int
  | Command.set_extension extension, w => (Cagi.set_extension extension w).map Value.int
  | Command.set_music onoff mclass, w => (Cagi.set_music onoff mclass w).map Value.int
  | Command.set_priority priority, w => (Cagi.set_priority priority w).map Value.int
  | Command.set_variable variablename value, w => (Cagi.set_variable variablename value w).map Value.int
  | Command.stream_file file escape_digits sample_offset, w => (Cagi.stream_file file escape_digits sample_offset w).map Value.data
  | Command.control_stream_file file escape_digits skipms ffchar rewchr pausechr, w => (Cagi.control_stream_file file escape_digits skipms ffchar rewchr pausechr w).map Value.data
  | Command.tdd_mode toggle, w => (Cagi.tdd_mode toggle w).map Value.int
  | Command.verbose message level, w => (Cagi.verbose message level w).map Value.int
  | Command.wait_for_digit timeout, w => (Cagi.wait_for_digit timeout w).map Value.int
  | Command.speech_create engine, w => (Cagi.speech_create engine w).map Value.int
  | Command.speech_set name value, w => (Cagi.speech_set name value w).map Value.int
  | Command.speech_destroy, w => (Cagi.speech_destroy w).map Value.int
  | Command.speech_load_grammar name path, w => (Cagi.speech_load_grammar name path w).map Value.int
  | Command.speech_unload_grammar name, w => (Cagi.speech_unload_grammar name w).map Value.int
  | Command.speech_activate_grammar name, w => (Cagi.speech_activate_grammar name w).map Value.int
  | Command.speech_deactivate_grammar name, w => (Cagi.speech_deactivate_grammar name w).map Value.int
  | Command.speech_recognize prompt timeout offset, w => (Cagi.speech_recognize prompt timeout offset w).map Value.data
  | Command.gosub context extension priority arguments, w => (Cagi.gosub context extension priority arguments w).map Value.int

/-- The arguments of a call that the comment of its function in cagi.c declares
required (written `<arg>`, against `[<arg>]` for the optional ones). -/
def Command.required : Command → List (List Char)
  | Command.answer => []
  | Command.channel_status _ => []
  | Command.database_del family key => [family, key]
  | Command.database_deltree family _ => [family]
  | Command.database_get family key => [family, key]
  | Command.database_put family key value => [family, key, value]
  | Command.exec application _ => [application]
  | Command.get_data file _ _ => [file]
  | Command.get_full_variable variablename _ => [variablename]
  | Command.get_option file escapedigits _ => [file, escapedigits]
  | Command.get_variable variablename => [variablename]
  | Command.hangup _ => []
  | Command.noop _ => []
  | Command.receive_char _ => []
  | Command.receive_text _ => []
  | Command.record_file file format escape_digits timeout _ _ _ => [file, format, escape_digits, timeout]
  | Command.say_alpha letters escape_digits => [letters, escape_digits]
  | Command.say_digits numbers escape_digits => [numbers, escape_digits]
  | Command.say_number number escape_digits _ => [number, escape_digits]
  | Command.say_phonetic string escape_digits => [string, escape_digits]
  | Command.say_date date escape_digits => [date, escape_digits]
  | Command.say_time time escape_digits => [time, escape_digits]
  | Command.say_datetime time escape_digits _ _ => [time, escape_digits]
  | Command.send_image image => [image]
  | Command.send_text text => [text]
  | Command.set_autohangup time => [time]
  | Command.set_callerid number => [number]
  | Command.set_context context => [context]
  | Command.set_extension extension => [extension]
  | Command.set_music onoff _ => [onoff]
  | Command.set_priority priority => [priority]
  | Command.set_variable variablename value => [variablename, value]
  | Command.stream_file file _ _ => [file]
  | Command.control_stream_file file _ _ _ _ _ => [file]
  | Command.tdd_mode toggle => [toggle]
  | Command.verbose message _ => [message]
  | Command.wait_for_digit timeout => [timeout]
  | Command.speech_create engine => [engine]
  | Command.speech_set name value => [name, value]
  | Command.speech_destroy => []
  | Command.speech_load_grammar name path => [name, path]
  | Command.speech_unload_grammar name => [name]
  | Command.speech_activate_grammar name => [name]
  | Command.speech_deactivate_grammar name => [name]
  | Command.speech_recognize prompt _ _ => [prompt]
  | Command.gosub context extension priority _ => [context, extension, priority]

/-! ## Vocabulary of the statements -/

/-- Text of one wire line without its terminator: it holds no newline and no NUL. -/
def WireText (body : List Char) : Prop := '\n' ∉ body ∧ NUL ∉ body

instance (body : List Char) : Decidable (WireText body) := by
  unfold WireText; infer_instance

/-- Text after the first occurrence of `c` in `s` (empty when `c` does not occur). -/
def afterFirst (c : Char) (s : List Char) : List Char :=
  (s.dropWhile (fun x => x ≠ c)).tail

/-- Structural violations of a reply line: it holds no space, or the text after its
first space holds no `=`, or the text after that `=` holds no newline. -/
def Malformed (line : List Char) : Prop :=
  ' ' ∉ line ∨ '=' ∉ afterFirst ' ' line ∨
    '\n' ∉ afterFirst '=' (afterFirst ' ' line)

instance (line : List Char) : Decidable (Malformed line) := by
  unfold Malformed; infer_instance

/-- The escaping of an option string as the specification words it: each space
becomes a backslash followed by a space, every other character is kept. -/
def esc : List Char → List Char
  | [] => []
  | c :: s => if c = ' ' then '\\' :: ' ' :: esc s else c :: esc s

/-- Reversal of the escaping: each backslash followed by a space becomes a space. -/
def unescape : List Char → List Char
  | '\\' :: ' ' :: s => ' ' :: unescape s
  | c :: s => c :: unescape s
  | [] => []

/-- The option segment of a line sent by `exec`: what follows `EXEC `, the
application and one separator, without the final newline. -/
def optionSegment (application line : List Char) : List Char :=
  (line.drop ("EXEC ".toList.length + application.length + 1)).dropLast

/-- The world after `exec` has noted the buffer size in its debug file, which it does
when `options` holds a space. -/
def exec_note (options : List Char) (w : World) : World :=
  if ' ' ∈ options then
    (w.emit (Event.file_open "/tmp/shit".toList)).emit
      (Event.file_write "/tmp/shit".toList
        ((Nat.repr (options.length + options.count ' ' + 1)).toList
          ++ " is the size of buff".toList))
  else w

/-- A reply line made of its parts: status code, label, result token, an optional data
segment after a space, and the terminating newline. -/
def replyLine (code label token : List Char) (data : Option (List Char)) : List Char :=
  code ++ ' ' :: (label ++ '=' :: (token ++
    (match data with
     | none => []
     | some d => ' ' :: d) ++ ['\n']))

/-- Well-formedness of a reply line: no space in the status code, no `=` in the label,
no space in the result token, no newline or NUL before the terminator, and the line
fits the read buffer. -/
def WellFormedReply (code label token : List Char) (data : Option (List Char)) : Prop :=
  ' ' ∉ code ∧ '=' ∉ label ∧ ' ' ∉ token ∧
    WireText (replyLine code label token data).dropLast ∧
    (replyLine code label token data).length < _BUFF_SIZE

instance (code label token : List Char) (data : Option (List Char)) :
    Decidable (WellFormedReply code label token data) := by
  unfold WellFormedReply; infer_instance

/-- A metadata line of the startup block: `name: value` and a newline. -/
def varLine (p : List Char × List Char) : List Char :=
  p.1 ++ ':' :: ' ' :: (p.2 ++ ['\n'])

/-- Well-formedness of a metadata line: no colon in the name, no newline or NUL before
the terminator, and the line fits the read buffer. -/
def WellFormedVar (p : List Char × List Char) : Prop :=
  ':' ∉ p.1 ∧ WireText (p.1 ++ ':' :: ' ' :: p.2) ∧ (varLine p).length < _BUFF_SIZE

instance (p : List Char × List Char) : Decidable (WellFormedVar p) := by
  unfold WellFormedVar; infer_instance

/-- The string kept for a value: the value itself, or one space when it is empty. -/
def storedValue (value : List Char) : List Char :=
  if value = [] then [' '] else value

/-- The text of a startup block: its metadata lines one after the other. -/
def blockText (ps : List (List Char × List Char)) : List Char :=
  (ps.map varLine).flatten

/-- The reads of a startup block, one event per line. -/
def blockReads (ps : List (List Char × List Char)) : List Event :=
  ps.map fun p => Event.stdin_read (varLine p)

/-- What the buffer holds after a metadata line has been handled: the line itself when
its value is empty, the line cut at its newline otherwise. -/
def staleLine (p : List Char × List Char) : List Char :=
  if p.2 = [] then varLine p else p.1 ++ ':' :: ' ' :: p.2

/-- The structure and `j` after the values `vs` have gone through the `switch` of
`readvars`, the first of them at position `i`. -/
def readvars_stores : Nat → Nat → List (List Char) → asterisk_vars →
    Option (asterisk_vars × Nat)
  | _, j, [], vars => some (vars, j)
  | i, j, v :: vs, vars =>
    match readvars_store i j v vars with
    | none => none
    | some (vars1, j1) => readvars_stores (i + 1) j1 vs vars1

/-- The next `fgets` of `readvars` followed by the rest of its loop; `prev` is what the
buffer holds should the read fail. -/
def readvars_next (fuel i j : Nat) (prev : List Char) (vars : asterisk_vars) (w : World) :
    Result asterisk_vars :=
  match fgets _BUFF_SIZE w.stdin with
  | none => readvars_loop fuel i j prev vars (w.emit (Event.stdin_read []))
  | some (bytes, rest) =>
    readvars_loop fuel i j (cstr bytes) vars
      { stdin := rest, events := w.events ++ [Event.stdin_read bytes] }

/-- A sample of the twenty positional lines of a startup block; the account code is
absent. -/
def sampleFields : List (List Char × List Char) :=
  [("agi_request".toList, "myscript".toList), ("agi_channel".toList, "Zap/1-1".toList),
   ("agi_language".toList, "en".toList), ("agi_type".toList, "SIP".toList),
   ("agi_uniqueid".toList, "1245040107.63".toList), ("agi_version".toList, "1.6.0.9".toList),
   ("agi_callerid".toList, "101".toList), ("agi_calleridname".toList, "Randall".toList),
   ("agi_callingpres".toList, "0".toList), ("agi_callingani2".toList, "0".toList),
   ("agi_callington".toList, "0".toList), ("agi_callingtns".toList, "0".toList),
   ("agi_dnid".toList, "102".toList), ("agi_rdnis".toList, "unknown".toList),
   ("agi_context".toList, "default".toList), ("agi_extension".toList, "102".toList),
   ("agi_priority".toList, "1".toList), ("agi_enhanced".toList, "0.0".toList),
   ("agi_accountcode".toList, []), ("agi_threadid".toList, "139973785782592".toList)]

/-- A sample of two script arguments. -/
def sampleArgs : List (List Char × List Char) :=
  [("arg1".toList, "foo".toList), ("arg2".toList, "bar".toList)]

/-- An optional trailing argument of a command line: nothing when it is empty, a
space and the argument otherwise. -/
def optArg (arg : List Char) : List Char :=
  if arg = [] then [] else ' ' :: arg

/-- The command line that a call of the catalog hands to `evaluate` when none of its
required arguments is empty, in closed form (`run_eq` shows that the functions of
cagi.c build this line). -/
def Command.line : Command → List Char
  | Command.answer => "ANSWER\n".toList
  | Command.channel_status channel_name =>
    "CHANNEL STATUS".toList ++ optArg channel_name ++ ['\n']
  | Command.database_del family key =>
    "DATABASE DEL ".toList ++ family ++ ' ' :: key ++ ['\n']
  | Command.database_deltree family keytree =>
    "DATABASE DELTREE ".toList ++ family ++ optArg keytree ++ ['\n']
  | Command.database_get family key =>
    "DATABASE GET ".toList ++ family ++ ' ' :: key ++ ['\n']
  | Command.database_put family key value =>
    "DATABASE PUT ".toList ++ family ++ ' ' :: key ++ ' ' :: value ++ ['\n']
  | Command.exec application options =>
    "EXEC ".toList ++ application ++ (if options = [] then [] else ' ' :: esc options)
      ++ ['\n']
  | Command.get_data file timeout maxdigits =>
    "GET DATA ".toList ++ file ++ ' ' :: (if timeout = [] then [] else _DEFAULT_TIMEOUT)
      ++ optArg maxdigits ++ ['\n']
  | Command.get_full_variable variablename channel =>
    "GET FULL VARIABLE ".toList ++ variablename ++ optArg channel ++ ['\n']
  | Command.get_option file escapedigits timeout =>
    "GET OPTION ".toList ++ file ++ ' ' :: escapedigits ++ optArg timeout ++ ['\n']
  | Command.get_variable variablename =>
    "GET VARIABLE ".toList ++ variablename ++ ['\n']
  | Command.hangup channel_name => "HANGUP".toList ++ optArg channel_name ++ ['\n']
  | Command.noop str => "NOOP".toList ++ optArg str ++ ['\n']
  | Command.receive_char timeout =>
    "RECEIVE CHAR ".toList ++ (if timeout = [] then _DEFAULT_TIMEOUT else timeout) ++ ['\n']
  | Command.receive_text timeout =>
    "RECEIVE TEXT ".toList ++ (if timeout = [] then _DEFAULT_TIMEOUT else timeout) ++ ['\n']
  | Command.record_file file format escape_digits timeout offset_samples beep silence =>
    "RECORD FILE ".toList ++ file ++ ' ' :: format ++ ' ' :: escape_digits ++ ' ' :: timeout
      ++ (if offset_samples = [] then []
          else ' ' :: offset_samples
            ++ (if beep = [] then [] else ' ' :: beep ++ optArg silence))
      ++ ['\n']
  | Command.say_alpha letters escape_digits =>
    "SAY ALPHA ".toList ++ letters ++ ' ' :: escape_digits ++ ['\n']
  | Command.say_digits numbers escape_digits =>
    "SAY DIGITS ".toList ++ numbers ++ ' ' :: escape_digits ++ ['\n']
  | Command.say_number number escape_digits gender =>
    "SAY NUMBER ".toList ++ number ++ ' ' :: escape_digits ++ optArg gender ++ ['\n']
  | Command.say_phonetic string escape_digits =>
    "SAY PHONETIC ".toList ++ string ++ ' ' :: escape_digits ++ ['\n']
  | Command.say_date date escape_digits =>
    "SAY DATE ".toList ++ date ++ ' ' :: escape_digits ++ ['\n']
  | Command.say_time time escape_digits =>
    "SAY TIME ".toList ++ time ++ ' ' :: escape_digits ++ ['\n']
  | Command.say_datetime time escape_digits format timezone =>
    "SAY DATETIME ".toList ++ time ++ ' ' :: escape_digits
      ++ (if format = [] then [] else ' ' :: format ++ optArg timezone) ++ ['\n']
  | Command.send_image image => "SEND IMAGE ".toList ++ image ++ ['\n']
  | Command.send_text text => "SEND TEXT \"".toList ++ text ++ "\"\n".toList
  | Command.set_autohangup time => "SET AUTOHANGUP ".toList ++ time ++ ['\n']
  | Command.set_callerid number => "SET CALLERID ".toList ++ number ++ ['\n']
  | Command.set_context context => "SET CONTEXT ".toList ++ context ++ ['\n']
  | Command.set_extension extension => "SET EXTENSION ".toList ++ extension ++ ['\n']
  | Command.set_music onoff mclass => "SET MUSIC ".toList ++ onoff ++ optArg mclass ++ ['\n']
  | Command.set_priority priority => "SET PRIORITY ".toList ++ priority ++ ['\n']
  | Command.set_variable variablename value =>
    "SET VARIABLE ".toList ++ variablename ++ ' ' :: value ++ ['\n']
  | Command.stream_file file escape_digits sample_offset =>
    "STREAM FILE ".toList ++ file
      ++ ' ' :: (if escape_digits = [] then "\"\"".toList else escape_digits)
      ++ (if escape_digits = [] then optArg sample_offset else []) ++ ['\n']
  | Command.control_stream_file file escape_digits skipms ffchar rewchr pausechr =>
    "CONTROL STREAM FILE ".toList ++ file
      ++ ' ' :: (if escape_digits = [] then "\"\"".toList else escape_digits)
      ++ (if skipms = [] then []
          else ' ' :: skipms
            ++ (if ffchar = [] then []
                else ' ' :: ffchar
                  ++ (if rewchr = [] then [] else ' ' :: rewchr ++ optArg pausechr)))
      ++ ['\n']
  | Command.tdd_mode toggle => "TDD MODE ".toList ++ toggle ++ ['\n']
  | Command.verbose message level =>
    "VERBOSE \"".toList ++ message ++ '"' :: optArg level ++ ['\n']
  | Command.wait_for_digit timeout => "WAIT FOR DIGIT ".toList ++ timeout ++ ['\n']
  | Command.speech_create engine => "SPEECH CREATE ".toList ++ engine ++ ['\n']
  | Command.speech_set name value =>
    "SPEECH SET ".toList ++ name ++ ' ' :: value ++ ['\n']
  | Command.speech_destroy => "SPEECH DESTROY\n".toList
  | Command.speech_load_grammar name path =>
    "SPEECH LOAD GRAMMAR ".toList ++ name ++ ' ' :: path ++ ['\n']
  | Command.speech_unload_grammar name => "SPEECH UNLOAD GRAMMAR ".toList ++ name ++ ['\n']
  | Command.speech_activate_grammar name =>
    "SPEECH ACTIVATE GRAMMAR ".toList ++ name ++ ['\n']
  | Command.speech_deactivate_grammar name =>
    "SPEECH DEACTIVATE GRAMMAR ".toList ++ name ++ ['\n']
  | Command.speech_recognize prompt timeout offset =>
    "SPEECH RECOGNIZE ".toList ++ prompt
      ++ ' ' :: (if timeout = [] then _DEFAULT_TIMEOUT else timeout) ++ optArg offset ++ ['\n']
  | Command.gosub context extension priority arguments =>
    "GOSUB ".toList ++ context ++ ' ' :: extension ++ ' ' :: priority
      ++ (if arguments = [] then [] else " \"".toList ++ arguments) ++ ['\n']

/-- The value that a call of the catalog makes of a decoded reply, in closed form;
`none` when `atoi` has no defined result. -/
def Command.finish : Command → ReturnElements → Option Value
  | Command.answer, d => some (Value.int (if d.result = "-1".toList then -1 else 0))
  | Command.channel_status _, d =>
    some (Value.int
      (if d.result = "0".toList then 0
       else if d.result = "1".toList then 1
       else if d.result = "2".toList then 2
       else if d.result = "3".toList then 3
       else if d.result = "4".toList then 4
       else if d.result = "5".toList then 5
       else if d.result = "6".toList then 6
       else if d.result = "7".toList then 7
       else -1))
  | Command.database_del _ _, d => some (Value.int (if d.result = "1".toList then 1 else 0))
  | Command.database_deltree _ _, d =>
    some (Value.int (if d.result = "1".toList then 1 else 0))
  | Command.database_get _ _, d =>
    some (Value.str (if d.result = "1".toList then d.data else []))
  | Command.database_put _ _ _, d =>
    some (Value.int (if d.result = "1".toList then 1 else 0))
  | Command.exec _ _, d => some (Value.data d)
  | Command.get_data _ _ _, d => some (Value.data d)
  | Command.get_full_variable _ _, d =>
    some (Value.str (if d.result = "1".toList then d.data else []))
  | Command.get_option _ _ _, d => some (Value.data d)
  | Command.get_variable _, d =>
    some (Value.str (if d.result = "1".toList then d.data else []))
  | Command.hangup _, d => some (Value.int (if d.result = "1".toList then 1 else -1))
  | Command.noop _, _ => some (Value.int 0)
  | Command.receive_char _, d => some (Value.data d)
  | Command.receive_text _, d =>
    some (Value.str (if d.result = "-1".toList then [] else d.result))
  | Command.record_file _ _ _ _ _ _ _, d => some (Value.data d)
  | Command.say_alpha _ _, d =>
    some (Value.str (if d.result = "-1".toList then [] else d.result))
  | Command.say_digits _ _, d =>
    some (Value.str (if d.result = "-1".toList then [] else d.result))
  | Command.say_number _ _ _, d =>
    some (Value.str (if d.result = "-1".toList then [] else d.result))
  | Command.say_phonetic _ _, d =>
    some (Value.str (if d.result = "-1".toList then [] else d.result))
  | Command.say_date _ _, d =>
    some (Value.str (if d.result = "-1".toList then [] else d.result))
  | Command.say_time _ _, d =>
    some (Value.str (if d.result = "-1".toList then [] else d.result))
  | Command.say_datetime _ _ _ _, d =>
    some (Value.str (if d.result = "-1".toList then [] else d.result))
  | Command.send_image _, d => some (Value.int (if d.result = "0".toList then 0 else -1))
  | Command.send_text _, d => some (Value.int (if d.result = "0".toList then 0 else -1))
  | Command.set_autohangup _, _ => some (Value.int 0)
  | Command.set_callerid _, _ => some (Value.int 1)
  | Command.set_context _, _ => some (Value.int 0)
  | Command.set_extension _, _ => some (Value.int 0)
  | Command.set_music _ _, _ => some (Value.int 0)
  | Command.set_priority _, _ => some (Value.int 0)
  | Command.set_variable _ _, _ => some (Value.int 1)
  | Command.stream_file _ _ _, d => some (Value.data d)
  | Command.control_stream_file _ _ _ _ _ _, d => some (Value.data d)
  | Command.tdd_mode _, d =>
    some (Value.int
      (if d.result = "1".toList then 1 else if d.result = "0".toList then 0 else -1))
  | Command.verbose _ _, _ => some (Value.int 1)
  | Command.wait_for_digit _, d =>
    if d.result = "0".toList then some (Value.int 0)
    else if d.result = "-1".toList then some (Value.int (-1))
    else (atoi d.result).map Value.int
  | Command.speech_create _, d => (atoi d.result).map Value.int
  | Command.speech_set _ _, d => (atoi d.result).map Value.int
  | Command.speech_destroy, d => (atoi d.result).map Value.int
  | Command.speech_load_grammar _ _, d => (atoi d.result).map Value.int
  | Command.speech_unload_grammar _, d => (atoi d.result).map Value.int
  | Command.speech_activate_grammar _, d => (atoi d.result).map Value.int
  | Command.speech_deactivate_grammar _, d => (atoi d.result).map Value.int
  | Command.speech_recognize _ _ _, d => some (Value.data d)
  | Command.gosub _ _ _ _, d => (atoi d.result).map Value.int

/-- The world in which a call sends its command: `exec` and `receive_char` have touched
their debug files by then. -/
def Command.before : Command → World → World
  | Command.exec _ options, w => exec_note options w
  | Command.receive_char _, w => w.emit (Event.file_open "/tmp/wtf".toList)
  | _, w => w

/-- The events of a call after the reply has been decoded: `receive_char` dumps the
triple into its debug file. -/
def Command.after : Command → ReturnElements → List Event
  | Command.receive_char _, d =>
    [Event.file_write "/tmp/wtf".toList "---\n".toList,
     Event.file_write "/tmp/wtf".toList ("data[0]=".toList ++ d.code ++ "\n".toList),
     Event.file_write "/tmp/wtf".toList ("data[1]=".toList ++ d.result ++ "\n".toList),
     Event.file_write "/tmp/wtf".toList ("data[2]=".toList ++ d.data ++ "\n".toList),
     Event.file_write "/tmp/wtf".toList "---\n".toList]
  | _, _ => []

/-- A call of the catalog as one round trip: the command line is evaluated and the
decoded reply is turned into the returned value. -/
def Command.roundTrip (cmd : Command) (w : World) : Result Value :=
  match evaluate cmd.line (cmd.before w) with
  | Result.ret d w1 =>
    match cmd.finish d with
    | none => Result.undefined
    | some v => Result.ret v { w1 with events := w1.events ++ cmd.after d }
  | Result.exit status w1 => Result.exit status w1
  | Result.undefined => Result.undefined

/-- The events of the transport: writes to standard output and reads of standard
input. -/
def Event.isTransport : Event → Bool
  | Event.stdout_write _ => true
  | Event.stdin_read _ => true
  | _ => false

/-- The transport events of a trace, in order. -/
def transport (events : List Event) : List Event :=
  events.filter Event.isTransport

/-- All the arguments of a call, in the order of the parameters. -/
def Command.args : Command → List (List Char)
  | Command.answer => []
  | Command.channel_status channel_name => [channel_name]
  | Command.database_del family key => [family, key]
  | Command.database_deltree family keytree => [family, keytree]
  | Command.database_get family key => [family, key]
  | Command.database_put family key value => [family, key, value]
  | Command.exec application options => [application, options]
  | Command.get_data file timeout maxdigits => [file, timeout, maxdigits]
  | Command.get_full_variable variablename channel => [variablename, channel]
  | Command.get_option file escapedigits timeout => [file, escapedigits, timeout]
  | Command.get_variable variablename => [variablename]
  | Command.hangup channel_name => [channel_name]
  | Command.noop str => [str]
  | Command.receive_char timeout => [timeout]
  | Command.receive_text timeout => [timeout]
  | Command.record_file file format escape_digits timeout offset_samples beep silence =>
    [file, format, escape_digits, timeout, offset_samples, beep, silence]
  | Command.say_alpha letters escape_digits => [letters, escape_digits]
  | Command.say_digits numbers escape_digits => [numbers, escape_digits]
  | Command.say_number number escape_digits gender => [number, escape_digits, gender]
  | Command.say_phonetic string escape_digits => [string, escape_digits]
  | Command.say_date date escape_digits => [date, escape_digits]
  | Command.say_time time escape_digits => [time, escape_digits]
  | Command.say_datetime time escape_digits format timezone =>
    [time, escape_digits, format, timezone]
  | Command.send_image image => [image]
  | Command.send_text text => [text]
  | Command.set_autohangup time => [time]
  | Command.set_callerid number => [number]
  | Command.set_context context => [context]
  | Command.set_extension extension => [extension]
  | Command.set_music onoff mclass => [onoff, mclass]
  | Command.set_priority priority => [priority]
  | Command.set_variable variablename value => [variablename, value]
  | Command.stream_file file escape_digits sample_offset =>
    [file, escape_digits, sample_offset]
  | Command.control_stream_file file escape_digits skipms ffchar rewchr pausechr =>
    [file, escape_digits, skipms, ffchar, rewchr, pausechr]
  | Command.tdd_mode toggle => [toggle]
  | Command.verbose message level => [message, level]
  | Command.wait_for_digit timeout => [timeout]
  | Command.speech_create engine => [engine]
  | Command.speech_set name value => [name, value]
  | Command.speech_destroy => []
  | Command.speech_load_grammar name path => [name, path]
  | Command.speech_unload_grammar name => [name]
  | Command.speech_activate_grammar name => [name]
  | Command.speech_deactivate_grammar name => [name]
  | Command.speech_recognize prompt timeout offset => [prompt, timeout, offset]
  | Command.gosub context extension priority arguments =>
    [context, extension, priority, arguments]

/-- The structured commands: those that return the array of three strings. -/
def Command.isStructured : Command → Bool
  | Command.exec _ _ => true
  | Command.get_data _ _ _ => true
  | Command.get_option _ _ _ => true
  | Command.record_file _ _ _ _ _ _ _ => true
  | Command.stream_file _ _ _ => true
  | Command.control_stream_file _ _ _ _ _ _ => true
  | Command.receive_char _ => true
  | Command.speech_recognize _ _ _ => true
  | _ => false

/-- The `say_*` commands. -/
def Command.isSay : Command → Bool
  | Command.say_alpha _ _ => true
  | Command.say_digits _ _ => true
  | Command.say_number _ _ _ => true
  | Command.say_phonetic _ _ => true
  | Command.say_date _ _ => true
  | Command.say_time _ _ => true
  | Command.say_datetime _ _ _ _ => true
  | _ => false

/-- The number that a run of decimal digits denotes, most significant digit first. -/
def decimalValue (ds : List Char) : Nat :=
  Nat.ofDigits 10 (ds.reverse.map fun c => c.toNat - '0'.toNat)

/-- The writes into `buff` made by the second loop of `exec` over the characters of
`options` still to copy, in order: the index written and the character stored there;
`j` is the index on entry. -/
def exec_escape_writes : List Char → Nat → List (Nat × Char)
  | [], _ => []
  | c :: options, j =>
    if c = ' ' then (j, '\\') :: (j + 1, ' ') :: exec_escape_writes options (j + 1 + 1)
    else (j, c) :: exec_escape_writes options (j + 1)

/-- A metadata line with any character after its colon: name, colon, one character,
value and a newline. -/
def sepLine (t : List Char × Char × List Char) : List Char :=
  t.1 ++ ':' :: t.2.1 :: (t.2.2 ++ ['\n'])

/-- Well-formedness of such a line: no colon in the name, no newline or NUL before the
terminator, and the line fits the read buffer. -/
def WellFormedSep (t : List Char × Char × List Char) : Prop :=
  ':' ∉ t.1 ∧ WireText (t.1 ++ ':' :: t.2.1 :: t.2.2) ∧ (sepLine t).length < _BUFF_SIZE

instance (t : List Char × Char × List Char) : Decidable (WellFormedSep t) := by
  unfold WellFormedSep; infer_instance

/-- The text of a block of such lines. -/
def sepText (ts : List (List Char × Char × List Char)) : List Char :=
  (ts.map sepLine).flatten

/-- The reads of a block of such lines, one event per line. -/
def sepReads (ts : List (List Char × Char × List Char)) : List Event :=
  ts.map fun t => Event.stdin_read (sepLine t)

/-- A line of a startup block cut as name, character after the colon and text: the name
holds no colon and nothing before the closing newline is a newline. -/
def IsSepLine (t : List Char × Char × List Char) : Prop :=
  ':' ∉ t.1 ∧ '\n' ∉ t.1 ++ ':' :: t.2.1 :: t.2.2

instance (t : List Char × Char × List Char) : Decidable (IsSepLine t) := by
  unfold IsSepLine; infer_instance

/-- Three lines of the sample block, cut as name, character after the colon and text. -/
def sampleLines : List (List Char × Char × List Char) :=
  [("agi_request".toList, ' ', "myscript".toList),
   ("agi_channel".toList, ' ', "Zap/1-1".toList),
   ("agi_language".toList, ' ', "en".toList)]

/-- The texts of `sampleLines` under other names, the second with `X` after its colon. -/
def renamedLines : List (List Char × Char × List Char) :=
  [("a".toList, ' ', "myscript".toList), ("b".toList, 'X', "Zap/1-1".toList),
   ("c".toList, ' ', "en".toList)]

/-! ## Facts about the C library model -/

theorem cstr_eq_self (s : List Char) (h : NUL ∉ s) : cstr s = s := by
  unfold cstr
  rw [List.takeWhile_eq_self_iff]
  intro c hc
  have : c ≠ NUL := fun e => h (e ▸ hc)
  simpa [NUL] using this

theorem cstr_length_le (s : List Char) : (cstr s).length ≤ s.length := by
  unfold cstr
  exact (List.takeWhile_sublist _).length_le

theorem fgets_take_line (room : Nat) (body rest : List Char) (hnl : '\n' ∉ body)
    (hfit : body.length < room) :
    fgets_take room (body ++ '\n' :: rest) = (body ++ ['\n'], rest) := by
  induction body generalizing room with
  | nil =>
    cases room with
    | zero => simp at hfit
    | succ r => simp [fgets_take]
  | cons c body ih =>
    cases room with
    | zero => simp at hfit
    | succ r =>
      have hc : c ≠ '\n' := fun e => hnl (by simp [e])
      have hb : '\n' ∉ body := fun e => hnl (by simp [e])
      have hl : body.length < r := by simpa using hfit
      simp [fgets_take, hc, ih r hb hl]

theorem fgets_line (size : Nat) (body rest : List Char) (hnl : '\n' ∉ body)
    (hfit : body.length + 1 < size) :
    fgets size (body ++ '\n' :: rest) = some (body ++ ['\n'], rest) := by
  have h := fgets_take_line (size - 1) body rest hnl (by omega)
  cases body with
  | nil => simpa [fgets] using h
  | cons c body => simpa [fgets] using h

theorem strchr_not_mem (s : List Char) (c : Char) (h : c ∉ s) : strchr s c = none := by
  induction s with
  | nil => rfl
  | cons x s ih =>
    have hx : x ≠ c := fun e => h (by simp [e])
    have hs : c ∉ s := fun e => h (by simp [e])
    simp [strchr, hx, ih hs]

theorem strchr_append (a b : List Char) (c : Char) (h : c ∉ a) :
    strchr (a ++ c :: b) c = some (a, c :: b) := by
  induction a with
  | nil => simp [strchr]
  | cons x a ih =>
    have hx : x ≠ c := fun e => h (by simp [e])
    have ha : c ∉ a := fun e => h (by simp [e])
    simp [strchr, hx, ih ha]

theorem strchr_some (s : List Char) (c : Char) (a b : List Char)
    (h : strchr s c = some (a, b)) : ∃ t, b = c :: t ∧ s = a ++ c :: t ∧ c ∉ a := by
  induction s generalizing a with
  | nil => simp [strchr] at h
  | cons x s ih =>
    unfold strchr at h
    by_cases hx : x = c
    · simp [hx] at h
      obtain ⟨rfl, rfl⟩ := h
      exact ⟨s, rfl, by simp [hx], by simp⟩
    · simp only [hx, if_false] at h
      cases hs : strchr s c with
      | none => simp [hs] at h
      | some p =>
        obtain ⟨a1, b1⟩ := p
        simp [hs] at h
        obtain ⟨rfl, rfl⟩ := h
        obtain ⟨t, ht, hst, hna⟩ := ih a1 hs
        refine ⟨t, ht, by simp [hst], ?_⟩
        simp only [List.mem_cons, not_or]
        exact ⟨fun e => hx e.symm, hna⟩

theorem strchr_eq_none_iff (s : List Char) (c : Char) : strchr s c = none ↔ c ∉ s := by
  constructor
  · intro h hc
    induction s with
    | nil => simp at hc
    | cons x s ih =>
      unfold strchr at h
      by_cases hx : x = c
      · simp [hx] at h
      · simp only [hx, if_false] at h
        cases hs : strchr s c with
        | none =>
          rcases List.mem_cons.mp hc with e | e
          · exact hx e.symm
          · exact ih hs e
        | some p => simp [hs] at h
  · exact strchr_not_mem s c

theorem strrchr_not_mem (s : List Char) (c : Char) (h : c ∉ s) : strrchr s c = none := by
  induction s with
  | nil => rfl
  | cons x s ih =>
    have hx : x ≠ c := fun e => h (by simp [e])
    have hs : c ∉ s := fun e => h (by simp [e])
    simp [strrchr, hx, ih hs]

theorem strrchr_append (a b : List Char) (c : Char) (h : c ∉ b) :
    strrchr (a ++ c :: b) c = some (a, c :: b) := by
  induction a with
  | nil => simp [strrchr, strrchr_not_mem b c h]
  | cons x a ih => simp [strrchr, ih]

theorem strrchr_eq_none_iff (s : List Char) (c : Char) : strrchr s c = none ↔ c ∉ s := by
  constructor
  · intro h hc
    induction s with
    | nil => simp at hc
    | cons x s ih =>
      unfold strrchr at h
      cases hs : strrchr s c with
      | some p => simp [hs] at h
      | none =>
        simp only [hs] at h
        by_cases hx : x = c
        · simp [hx] at h
        · rcases List.mem_cons.mp hc with e | e
          · exact hx e.symm
          · exact ih hs e
  · exact strrchr_not_mem s c

theorem strrchr_some (s : List Char) (c : Char) (a b : List Char)
    (h : strrchr s c = some (a, b)) : s = a ++ b := by
  induction s generalizing a with
  | nil => simp [strrchr] at h
  | cons x s ih =>
    unfold strrchr at h
    cases hs : strrchr s c with
    | some p =>
      obtain ⟨a1, b1⟩ := p
      simp [hs] at h
      obtain ⟨rfl, rfl⟩ := h
      simp [ih a1 hs]
    | none =>
      simp only [hs] at h
      by_cases hx : x = c
      · simp [hx] at h
        obtain ⟨rfl, rfl⟩ := h
        simp [hx]
      · simp [hx] at h

theorem fgets_take_length (room : Nat) (s : List Char) :
    (fgets_take room s).1.length ≤ room := by
  induction room generalizing s with
  | zero => simp [fgets_take]
  | succ r ih =>
    cases s with
    | nil => simp [fgets_take]
    | cons c s =>
      by_cases hc : c = '\n'
      · simp [fgets_take, hc]
      · simpa [fgets_take, hc] using ih s

theorem fgets_take_newline_last (room : Nat) (s a b : List Char)
    (h : (fgets_take room s).1 = a ++ '\n' :: b) : b = [] := by
  induction room generalizing s a with
  | zero => simp [fgets_take] at h
  | succ r ih =>
    cases s with
    | nil => simp [fgets_take] at h
    | cons c s =>
      by_cases hc : c = '\n'
      · simp only [fgets_take, hc, if_true] at h
        cases a with
        | nil => simpa using h.symm
        | cons x a => simp at h
      · simp only [fgets_take, hc, if_false] at h
        cases a with
        | nil =>
          simp only [List.nil_append, List.cons.injEq] at h
          exact absurd h.1 hc
        | cons x a =>
          simp only [List.cons_append, List.cons.injEq] at h
          exact ih s a h.2

theorem cstr_initial (bytes : List Char) : ∃ t, bytes = cstr bytes ++ t :=
  ⟨bytes.dropWhile (fun c => c ≠ NUL), by simp [cstr]⟩

theorem afterFirst_append (c : Char) (a t : List Char) (h : c ∉ a) :
    afterFirst c (a ++ c :: t) = t := by
  unfold afterFirst
  induction a with
  | nil => simp
  | cons x a ih =>
    have hx : x ≠ c := fun e => h (by simp [e])
    have ha : c ∉ a := fun e => h (by simp [e])
    have := ih ha
    simp only [List.cons_append, List.dropWhile_cons, hx, ne_eq, not_false_eq_true,
      decide_True, if_true]
    simpa using this

/-! ## The reply decoder -/

theorem strncpy_of_lt (src : List Char) (n : Nat) (h : src.length < n) :
    strncpy src n = some src := by
  simp [strncpy, h]

/-- Decoding of a reply line that carries a data segment. -/
theorem evaluate_data_line (command code label token data rest : List Char)
    (events : List Event)
    (hcode : ' ' ∉ code) (hlabel : '=' ∉ label)
    (htoken : ' ' ∉ token ∧ '\n' ∉ token) (hdata : '\n' ∉ data)
    (hline : '\n' ∉ code ∧ '\n' ∉ label)
    (htext : NUL ∉ code ++ ' ' :: (label ++ '=' :: (token ++ ' ' :: data)))
    (hfit : (code ++ ' ' :: (label ++ '=' :: (token ++ ' ' :: (data ++ ['\n'])))).length
      < _BUFF_SIZE) :
    evaluate command
        ⟨code ++ ' ' :: (label ++ '=' :: (token ++ ' ' :: (data ++ '\n' :: rest))), events⟩
      = Result.ret ⟨code, token, data⟩
          ⟨rest, events ++ [Event.stdout_write command,
            Event.stdin_read
              (code ++ ' ' :: (label ++ '=' :: (token ++ ' ' :: (data ++ ['\n']))))]⟩ := by
  have hnul := htext
  have hnl : '\n' ∉ code ++ ' ' :: (label ++ '=' :: (token ++ ' ' :: data)) := by
    simp only [List.mem_append, List.mem_cons, not_or]
    exact ⟨hline.1, by decide, hline.2, by decide, htoken.2, by decide, hdata⟩
  have hfit2 : (code ++ ' ' :: (label ++ '=' :: (token ++ ' ' :: data))).length + 1
      < _BUFF_SIZE := by
    simpa [Nat.add_assoc] using hfit
  have hg := fgets_line _BUFF_SIZE _ rest hnl hfit2
  have hnul2 : NUL ∉ code ++ ' ' :: (label ++ '=' :: (token ++ ' ' :: (data ++ ['\n']))) := by
    have e : code ++ ' ' :: (label ++ '=' :: (token ++ ' ' :: (data ++ ['\n'])))
        = (code ++ ' ' :: (label ++ '=' :: (token ++ ' ' :: data))) ++ ['\n'] := by simp
    rw [e, List.mem_append, not_or]
    exact ⟨hnul, by decide⟩
  have hc := cstr_eq_self _ hnul2
  simp only [List.append_assoc, List.cons_append, List.nil_append, List.length_append,
    List.length_cons, List.length_nil, _BUFF_SIZE] at hg hc hfit
  have l0 : code.length < 499 := by omega
  have l1 : token.length < 499 := by omega
  have l2 : data.length < 499 := by omega
  simp only [evaluate, World.emit, hg, hc, strchr_append _ _ _ hcode, List.tail_cons,
    strchr_append _ _ _ hlabel, strchr_append _ _ _ htoken.1, strrchr_append _ [] _ (by simp),
    strrchr_append _ _ _ (List.not_mem_nil _), _BUFF_SIZE, strncpy_of_lt _ _ l0,
    strncpy_of_lt _ _ l1, strncpy_of_lt _ _ l2, List.append_assoc, List.cons_append,
    List.nil_append]

/-- C1. Reply decoding with a data segment: a reply line
`code ++ " " ++ label ++ "=" ++ token ++ " " ++ data ++ "\n"` that fits the read buffer,
with no space in `code`, no `=` in `label`, no space or newline in `token` and no
newline in `data`, is decoded by `evaluate` into the triple `(code, token, data)`; the
command is written once, the line is consumed and the rest of the input is untouched. -/
theorem evaluate_reply_with_data (command code label token data rest : List Char)
    (events : List Event)
    (hcode : ' ' ∉ code) (hlabel : '=' ∉ label)
    (htoken : ' ' ∉ token ∧ '\n' ∉ token) (hdata : '\n' ∉ data)
    (hline : '\n' ∉ code ∧ '\n' ∉ label)
    (htext : NUL ∉ code ++ ' ' :: (label ++ '=' :: (token ++ ' ' :: data)))
    (hfit : (code ++ ' ' :: (label ++ '=' :: (token ++ ' ' :: (data ++ ['\n'])))).length
      < _BUFF_SIZE) :
    evaluate command
        ⟨code ++ ' ' :: (label ++ '=' :: (token ++ ' ' :: (data ++ '\n' :: rest))), events⟩
      = Result.ret ⟨code, token, data⟩
          ⟨rest, events ++ [Event.stdout_write command,
            Event.stdin_read
              (code ++ ' ' :: (label ++ '=' :: (token ++ ' ' :: (data ++ ['\n']))))]⟩ :=
  evaluate_data_line command code label token data rest events hcode hlabel htoken hdata
    hline htext hfit

/-- Witness of C1: the reply `200 result=1 endpos=160`. -/
theorem evaluate_reply_with_data_witness :
    evaluate "ANSWER\n".toList ⟨"200 result=1 endpos=160\n".toList, []⟩
      = Result.ret ⟨"200".toList, "1".toList, "endpos=160".toList⟩
          ⟨[], [Event.stdout_write "ANSWER\n".toList,
            Event.stdin_read "200 result=1 endpos=160\n".toList]⟩ :=
  evaluate_reply_with_data "ANSWER\n".toList "200".toList "result".toList "1".toList
    "endpos=160".toList [] [] (by decide) (by decide) (by decide) (by decide) (by decide)
    (by decide) (by decide)

/-- Decoding of a reply line that carries no data segment. -/
theorem evaluate_plain_line (command code label token rest : List Char)
    (events : List Event)
    (hcode : ' ' ∉ code) (hlabel : '=' ∉ label)
    (htoken : ' ' ∉ token ∧ '\n' ∉ token)
    (hline : '\n' ∉ code ∧ '\n' ∉ label)
    (htext : NUL ∉ code ++ ' ' :: (label ++ '=' :: token))
    (hfit : (code ++ ' ' :: (label ++ '=' :: (token ++ ['\n']))).length < _BUFF_SIZE) :
    evaluate command ⟨code ++ ' ' :: (label ++ '=' :: (token ++ '\n' :: rest)), events⟩
      = Result.ret ⟨code, token, []⟩
          ⟨rest, events ++ [Event.stdout_write command,
            Event.stdin_read (code ++ ' ' :: (label ++ '=' :: (token ++ ['\n'])))]⟩ := by
  have hnl : '\n' ∉ code ++ ' ' :: (label ++ '=' :: token) := by
    simp only [List.mem_append, List.mem_cons, not_or]
    exact ⟨hline.1, by decide, hline.2, by decide, htoken.2⟩
  have hfit2 : (code ++ ' ' :: (label ++ '=' :: token)).length + 1 < _BUFF_SIZE := by
    simpa [Nat.add_assoc] using hfit
  have hg := fgets_line _BUFF_SIZE _ rest hnl hfit2
  have hnul2 : NUL ∉ code ++ ' ' :: (label ++ '=' :: (token ++ ['\n'])) := by
    have e : code ++ ' ' :: (label ++ '=' :: (token ++ ['\n']))
        = (code ++ ' ' :: (label ++ '=' :: token)) ++ ['\n'] := by simp
    rw [e, List.mem_append, not_or]
    exact ⟨htext, by decide⟩
  have hc := cstr_eq_self _ hnul2
  have hsp : ' ' ∉ token ++ ['\n'] := by
    simp only [List.mem_append, List.mem_singleton, not_or]
    exact ⟨htoken.1, by decide⟩
  simp only [List.append_assoc, List.cons_append, List.nil_append, List.length_append,
    List.length_cons, List.length_nil, _BUFF_SIZE] at hg hc hfit
  have l0 : code.length < 499 := by omega
  have l1 : token.length < 499 := by omega
  simp only [evaluate, World.emit, hg, hc, strchr_append _ _ _ hcode, List.tail_cons,
    strchr_append _ _ _ hlabel, strchr_not_mem _ _ hsp,
    strrchr_append _ _ _ (List.not_mem_nil _), _BUFF_SIZE, strncpy_of_lt _ _ l0,
    strncpy_of_lt _ _ l1, List.append_assoc, List.cons_append, List.nil_append]

/-- C2. Reply decoding without a data segment: a reply line
`code ++ " " ++ label ++ "=" ++ token ++ "\n"` that fits the read buffer, with no space
in `code`, no `=` in `label` and no space or newline in `token`, is decoded by
`evaluate` into `(code, token, "")`, the data field being the empty string. -/
theorem evaluate_reply_without_data (command code label token rest : List Char)
    (events : List Event)
    (hcode : ' ' ∉ code) (hlabel : '=' ∉ label)
    (htoken : ' ' ∉ token ∧ '\n' ∉ token)
    (hline : '\n' ∉ code ∧ '\n' ∉ label)
    (htext : NUL ∉ code ++ ' ' :: (label ++ '=' :: token))
    (hfit : (code ++ ' ' :: (label ++ '=' :: (token ++ ['\n']))).length < _BUFF_SIZE) :
    evaluate command ⟨code ++ ' ' :: (label ++ '=' :: (token ++ '\n' :: rest)), events⟩
      = Result.ret ⟨code, token, []⟩
          ⟨rest, events ++ [Event.stdout_write command,
            Event.stdin_read (code ++ ' ' :: (label ++ '=' :: (token ++ ['\n'])))]⟩ :=
  evaluate_plain_line command code label token rest events hcode hlabel htoken hline htext
    hfit

/-- Witness of C2: the reply `200 result=0`. -/
theorem evaluate_reply_without_data_witness :
    evaluate "ANSWER\n".toList ⟨"200 result=0\n".toList, []⟩
      = Result.ret ⟨"200".toList, "0".toList, []⟩
          ⟨[], [Event.stdout_write "ANSWER\n".toList,
            Event.stdin_read "200 result=0\n".toList]⟩ :=
  evaluate_reply_without_data "ANSWER\n".toList "200".toList "result".toList "0".toList
    [] [] (by decide) (by decide) (by decide) (by decide) (by decide) (by decide)

theorem fgets_bytes (size : Nat) (stdin bytes rest : List Char)
    (h : fgets size stdin = some (bytes, rest)) :
    (cstr bytes).length ≤ size - 1 ∧ ∀ a b, cstr bytes = a ++ '\n' :: b → b = [] := by
  cases stdin with
  | nil => simp [fgets] at h
  | cons c s =>
    simp only [fgets, Option.some.injEq] at h
    have hb : bytes = (fgets_take (size - 1) (c :: s)).1 := by rw [h]
    constructor
    · calc (cstr bytes).length ≤ bytes.length := cstr_length_le bytes
        _ ≤ size - 1 := by rw [hb]; exact fgets_take_length _ _
    · intro a b hab
      obtain ⟨t, ht⟩ := cstr_initial bytes
      rw [hab] at ht
      have := fgets_take_newline_last (size - 1) (c :: s) a (b ++ t) (by rw [← hb, ht]; simp)
      simpa using (List.append_eq_nil.mp this).1

/-- Outcome of `evaluate` on any line that `fgets` delivers: a malformed line ends the
process with the diagnostic, every other line yields a triple. -/
theorem evaluate_outcome (command : List Char) (w : World) (bytes rest : List Char)
    (h : fgets _BUFF_SIZE w.stdin = some (bytes, rest)) :
    (Malformed (cstr bytes) →
      evaluate command w = Result.exit 1
        ⟨rest, w.events ++ [Event.stdout_write command] ++ [Event.stdin_read bytes] ++
          [Event.stderr_write "ERROR! Problem parsing input.\n".toList]⟩) ∧
    (¬ Malformed (cstr bytes) →
      ∃ t, evaluate command w = Result.ret t
        ⟨rest, w.events ++ [Event.stdout_write command] ++ [Event.stdin_read bytes]⟩) := by
  obtain ⟨hlen, hlast⟩ := fgets_bytes _ _ _ _ h
  simp only [evaluate, World.emit, h, print_debug, Malformed]
  generalize cstr bytes = line at hlen hlast
  simp only [_BUFF_SIZE] at hlen ⊢
  have hmsg : "ERROR! Problem parsing input.".toList ++ ['\n']
      = "ERROR! Problem parsing input.\n".toList := by decide
  rw [hmsg]
  cases h0 : strchr line ' ' with
  | none =>
    have := (strchr_eq_none_iff _ _).mp h0
    simp [this]
  | some p0 =>
    obtain ⟨code, e0⟩ := p0
    obtain ⟨t0, rfl, hl0, hc0⟩ := strchr_some _ _ _ _ h0
    subst hl0
    have hsp : ' ' ∈ code ++ ' ' :: t0 := by simp
    simp only [List.length_append, List.length_cons] at hlen
    simp only [afterFirst_append _ _ _ hc0, List.tail_cons, strncpy_of_lt code 499 (by omega),
      hsp, not_true_eq_false, false_or]
    cases h1 : strchr t0 '=' with
    | none =>
      have := (strchr_eq_none_iff _ _).mp h1
      simp [this]
    | some p1 =>
      obtain ⟨label, e1⟩ := p1
      obtain ⟨t1, rfl, hl1, hc1⟩ := strchr_some _ _ _ _ h1
      subst hl1
      have heq : '=' ∈ label ++ '=' :: t1 := by simp
      simp only [List.length_append, List.length_cons] at hlen
      simp only [afterFirst_append _ _ _ hc1, List.tail_cons, heq, not_true_eq_false,
        false_or]
      cases h2 : strchr t1 ' ' with
      | none =>
        simp only []
        cases h3 : strrchr t1 '\n' with
        | none =>
          have := (strrchr_eq_none_iff _ _).mp h3
          simp [this]
        | some p3 =>
          obtain ⟨res, e3⟩ := p3
          have hin : '\n' ∈ t1 := by
            by_contra hn
            rw [strrchr_not_mem _ _ hn] at h3
            exact absurd h3 (by simp)
          have hl3 := strrchr_some _ _ _ _ h3
          have : res.length < 499 := by
            have := congrArg List.length hl3
            simp only [List.length_append] at this
            omega
          simp [hin, strncpy_of_lt res 499 this]
      | some p2 =>
        obtain ⟨res, e2⟩ := p2
        obtain ⟨t2, rfl, hl2, hc2⟩ := strchr_some _ _ _ _ h2
        subst hl2
        simp only [List.length_append, List.length_cons] at hlen
        have hiff : '\n' ∈ res ++ ' ' :: t2 ↔ '\n' ∈ t2 := by
          constructor
          · intro hm
            rcases List.mem_append.mp hm with hr | hr
            · obtain ⟨r1, r2, rfl⟩ := List.append_of_mem hr
              have := hlast (code ++ ' ' :: (label ++ '=' :: r1)) (r2 ++ ' ' :: t2)
                (by simp)
              simp at this
            · rcases List.mem_cons.mp hr with e | e
              · exact absurd e (by decide)
              · exact e
          · intro hm
            simp [hm]
        simp only [List.tail_cons, strncpy_of_lt res 499 (by omega), hiff]
        cases h3 : strrchr t2 '\n' with
        | none =>
          have := (strrchr_eq_none_iff _ _).mp h3
          simp [this]
        | some p3 =>
          obtain ⟨dat, e3⟩ := p3
          have hin : '\n' ∈ t2 := by
            by_contra hn
            rw [strrchr_not_mem _ _ hn] at h3
            exact absurd h3 (by simp)
          have hl3 := strrchr_some _ _ _ _ h3
          have : dat.length < 499 := by
            have := congrArg List.length hl3
            simp only [List.length_append] at this
            omega
          simp [hin, strncpy_of_lt dat 499 this]

/-- C3. The reply decoder fails fatally exactly on structural violations: for every
line read (the string that `fgets` leaves in the buffer), `evaluate` ends the process
with exit status 1 after writing the diagnostic if and only if the line holds no
space, or the text after its first space holds no `=`, or the text after that `=`
holds no newline; on every other line it returns a triple. -/
theorem evaluate_fatal_iff_malformed (command : List Char) (w : World)
    (bytes rest : List Char) (h : fgets _BUFF_SIZE w.stdin = some (bytes, rest)) :
    (evaluate command w = Result.exit 1
        ⟨rest, w.events ++ [Event.stdout_write command] ++ [Event.stdin_read bytes] ++
          [Event.stderr_write "ERROR! Problem parsing input.\n".toList]⟩
      ↔ Malformed (cstr bytes)) ∧
    ((∃ status w1, evaluate command w = Result.exit status w1) ↔ Malformed (cstr bytes)) ∧
    (¬ Malformed (cstr bytes) →
      ∃ t, evaluate command w = Result.ret t
        ⟨rest, w.events ++ [Event.stdout_write command] ++ [Event.stdin_read bytes]⟩) := by
  obtain ⟨hbad, hgood⟩ := evaluate_outcome command w bytes rest h
  refine ⟨⟨fun he => ?_, hbad⟩, ⟨fun he => ?_, fun hm => ⟨_, _, hbad hm⟩⟩, hgood⟩
  · by_contra hm
    obtain ⟨t, ht⟩ := hgood hm
    rw [ht] at he
    exact Result.noConfusion he
  · by_contra hm
    obtain ⟨t, ht⟩ := hgood hm
    obtain ⟨status, w1, he⟩ := he
    rw [ht] at he
    exact Result.noConfusion he

/-- Witness of C3: a reply without `=` is fatal, a well-formed one is not. -/
theorem evaluate_fatal_iff_malformed_witness :
    ((evaluate "NOOP\n".toList ⟨"200 result\n".toList, []⟩ = Result.exit 1
        ⟨[], [] ++ [Event.stdout_write "NOOP\n".toList]
          ++ [Event.stdin_read "200 result\n".toList]
          ++ [Event.stderr_write "ERROR! Problem parsing input.\n".toList]⟩
      ↔ Malformed (cstr "200 result\n".toList)) ∧
    ((∃ status w1, evaluate "NOOP\n".toList ⟨"200 result\n".toList, []⟩
        = Result.exit status w1) ↔ Malformed (cstr "200 result\n".toList)) ∧
    (¬ Malformed (cstr "200 result\n".toList) →
      ∃ t, evaluate "NOOP\n".toList ⟨"200 result\n".toList, []⟩ = Result.ret t
        ⟨[], [] ++ [Event.stdout_write "NOOP\n".toList]
          ++ [Event.stdin_read "200 result\n".toList]⟩))
    ∧ Malformed (cstr "200 result\n".toList)
    ∧ ¬ Malformed (cstr "200 result=0\n".toList) :=
  ⟨evaluate_fatal_iff_malformed "NOOP\n".toList ⟨"200 result\n".toList, []⟩
      "200 result\n".toList [] (by decide),
    by decide, by decide⟩

/-! ## Local validation -/

theorem create_dummy_literal (code result data : List Char) (w : World)
    (h : code.length < 500 ∧ result.length < 500 ∧ data.length < 500 := by decide) :
    create_dummy code result data w = Result.ret ⟨code, result, data⟩ w := by
  simp [create_dummy, _BUFF_SIZE, h]

/-- A call with an empty required argument returns at once, after one diagnostic. -/
theorem run_local (cmd : Command) (w : World)
    (h : [] ∈ cmd.required) :
    ∃ v msg, cmd.run w = Result.ret v ⟨w.stdin, w.events ++ [Event.stderr_write msg]⟩ := by
  cases cmd <;>
    simp only [Command.required, List.mem_cons, List.mem_singleton, List.not_mem_nil,
      or_false, eq_comm (a := ([] : List Char))] at h <;>
    simp only [Command.run, database_del, database_deltree, database_get, database_put,
      exec, get_data, get_full_variable, get_option, get_variable, record_file, say_alpha,
      say_digits, say_number, say_phonetic, say_date, say_time, say_datetime, send_image,
      send_text, set_autohangup, set_callerid, set_context, set_extension, set_music,
      set_priority, set_variable, stream_file, control_stream_file, tdd_mode, verbose,
      wait_for_digit, speech_create, speech_set, speech_load_grammar, speech_unload_grammar,
      speech_activate_grammar, speech_deactivate_grammar, speech_recognize, gosub,
      print_debug, World.emit, create_dummy_literal, Result.map] <;>
    split_ifs <;>
    first
      | (exfalso; tauto)
      | exact ⟨_, _, rfl⟩

/-- C4. Local validation without a round trip: a call of the catalog in which a
required argument is the empty string returns a value (the process is not ended),
reads nothing from the transport and writes nothing to it: the input is untouched and
the only action is one diagnostic line on standard error. -/
theorem local_validation_without_round_trip (cmd : Command) (w : World)
    (h : [] ∈ cmd.required) :
    ∃ v msg, cmd.run w = Result.ret v ⟨w.stdin, w.events ++ [Event.stderr_write msg]⟩ :=
  run_local cmd w h

/-- Witness of C4: `database_del` with an empty family. -/
theorem local_validation_without_round_trip_witness :
    [] ∈ (Command.database_del [] "k".toList).required ∧
    ∃ v msg, (Command.database_del [] "k".toList).run ⟨"200 result=1\n".toList, []⟩
      = Result.ret v ⟨"200 result=1\n".toList, [] ++ [Event.stderr_write msg]⟩ :=
  ⟨by decide,
    local_validation_without_round_trip (Command.database_del [] "k".toList)
      ⟨"200 result=1\n".toList, []⟩ (by decide)⟩

/-! ## Building the command line -/

theorem format_str_len_eq (n len : Nat) (args : List (List Char)) (h : n ≤ args.length) :
    format_str_len n len args = some (len + ((args.take n).map List.length).sum) := by
  induction n generalizing len args with
  | zero => simp [format_str_len]
  | succ n ih =>
    cases args with
    | nil => simp at h
    | cons a args =>
      simp only [List.length_cons, Nat.add_le_add_iff_right] at h
      simp [format_str_len, ih _ _ h, Nat.add_assoc]

theorem format_str_copy_eq (n : Nat) (str : List Char) (args : List (List Char))
    (h : n ≤ args.length) :
    format_str_copy n str args = some (str ++ (args.take n).flatten) := by
  induction n generalizing str args with
  | zero => simp [format_str_copy]
  | succ n ih =>
    cases args with
    | nil => simp at h
    | cons a args =>
      simp only [List.length_cons, Nat.add_le_add_iff_right] at h
      by_cases ha : a = []
      · simp [format_str_copy, ha, ih _ _ h]
      · simp [format_str_copy, ha, ih _ _ h]

/-- The result of `format_str` in closed form: the strings one after the other, unless
all of them are empty. -/
theorem format_str_written (count : Nat) (str1 : List Char) (args : List (List Char))
    (h : count - 1 ≤ args.length) :
    format_str count str1 args
      = if str1 ++ (args.take (count - 1)).flatten = [] then none
        else some (str1 ++ (args.take (count - 1)).flatten) := by
  have e : (if str1 = [] then [] else str1) = str1 := by split_ifs with h1 <;> simp [h1]
  simp only [format_str, format_str_len_eq _ _ _ h, format_str_copy_eq _ _ _ h, e]
  split_ifs with h1 h2
  · rfl
  · rfl
  · exfalso
    apply h2
    simp [List.length_flatten, Nat.add_assoc]

theorem format_str_eq (count : Nat) (str1 : List Char) (args : List (List Char))
    (h : count - 1 ≤ args.length) (hne : str1 ≠ []) :
    format_str count str1 args = some (str1 ++ (args.take (count - 1)).flatten) := by
  rw [format_str_written count str1 args h, if_neg]
  simp [hne]

theorem exec_escopt_eq (options : List Char) (escopt : Nat) :
    exec_escopt options escopt = escopt + options.count ' ' := by
  induction options generalizing escopt with
  | nil => simp [exec_escopt]
  | cons c s ih =>
    by_cases hc : c = ' '
    · simp [exec_escopt, hc, ih]
      omega
    · have : ¬ (' ' = c) := fun e => hc e.symm
      simp [exec_escopt, hc, ih, List.count_cons, this]

theorem exec_escape_eq (options : List Char) (j : Nat) (buff : List Char) :
    exec_escape options j buff
      = (j + options.length + options.count ' ', buff ++ esc options) := by
  induction options generalizing j buff with
  | nil => simp [exec_escape, esc]
  | cons c s ih =>
    by_cases hc : c = ' '
    · simp [exec_escape, esc, hc, ih]
      omega
    · have : ¬ (' ' = c) := fun e => hc e.symm
      simp [exec_escape, esc, hc, ih, List.count_cons, this]
      omega

theorem esc_eq_self (options : List Char) (h : ' ' ∉ options) : esc options = options := by
  induction options with
  | nil => rfl
  | cons c s ih =>
    have hc : c ≠ ' ' := fun e => h (by simp [e])
    have hs : ' ' ∉ s := fun e => h (by simp [e])
    simp [esc, hc, ih hs]

/-- The line that `exec` hands to `evaluate`. -/
theorem exec_eq_evaluate (application options : List Char) (w : World)
    (happ : application ≠ []) :
    exec application options w
      = evaluate ("EXEC ".toList ++ application
          ++ (if options = [] then [] else " ".toList ++ esc options) ++ "\n".toList)
        (exec_note options w) := by
  by_cases hopt : options = []
  · subst hopt
    simp [exec, happ, evaluate_cmd, format_str_eq, exec_note]
  · by_cases hsp : ' ' ∈ options
    · have hcount : options.count ' ' ≠ 0 := by
        intro h0
        exact (List.count_eq_zero.mp h0) hsp
      simp [exec, happ, hopt, evaluate_cmd, format_str_eq, exec_note, hsp, exec_escopt_eq,
        exec_escape_eq, hcount]
    · have hcount : options.count ' ' = 0 := List.count_eq_zero.mpr hsp
      simp [exec, happ, hopt, evaluate_cmd, format_str_eq, exec_note, hsp, exec_escopt_eq,
        hcount, esc_eq_self _ hsp]

/-- C5. Exact option escaping in `exec`: for a non-empty application and non-empty
options, `exec` sends `"EXEC " ++ application ++ " " ++ esc options ++ "\n"`, where
`esc` turns each space into backslash, space and keeps every other character; for
empty options it sends `"EXEC " ++ application ++ "\n"`.  In both cases the reply is
then decoded by `evaluate`. -/
theorem exec_sends_escaped_options (application options : List Char) (w : World)
    (happ : application ≠ []) :
    (options ≠ [] →
      exec application options w
        = evaluate ("EXEC ".toList ++ application ++ " ".toList ++ esc options
            ++ "\n".toList) (exec_note options w)) ∧
    (options = [] →
      exec application options w
        = evaluate ("EXEC ".toList ++ application ++ "\n".toList) w) := by
  have h := exec_eq_evaluate application options w happ
  constructor
  · intro hopt
    rw [h]
    simp [hopt]
  · intro hopt
    rw [h]
    simp [hopt, exec_note]

/-- Witness of C5: `exec` of `Dial` with the options `SIP/100 30`. -/
theorem exec_sends_escaped_options_witness :
    "Dial".toList ≠ [] ∧
    exec "Dial".toList "SIP/100 30".toList ⟨"200 result=0\n".toList, []⟩
      = Result.ret ⟨"200".toList, "0".toList, []⟩
          ⟨[], [Event.file_open "/tmp/shit".toList,
            Event.file_write "/tmp/shit".toList "12 is the size of buff".toList,
            Event.stdout_write "EXEC Dial SIP/100\\ 30\n".toList,
            Event.stdin_read "200 result=0\n".toList]⟩ :=
  ⟨by decide,
    ((exec_sends_escaped_options "Dial".toList "SIP/100 30".toList
      ⟨"200 result=0\n".toList, []⟩ (by decide)).1 (by decide)).trans (by decide)⟩

theorem esc_head (options t : List Char) : esc options ≠ ' ' :: t := by
  cases options with
  | nil => simp [esc]
  | cons c s =>
    by_cases hc : c = ' '
    · simp [esc, hc]
    · simp [esc, hc]

theorem unescape_cons (c x : Char) (t : List Char) (h : x ≠ ' ') :
    unescape (c :: x :: t) = c :: unescape (x :: t) := by
  rw [unescape]
  intro s _ e
  simp only [List.cons.injEq] at e
  exact h e.1

theorem unescape_esc (options : List Char) : unescape (esc options) = options := by
  induction options with
  | nil => rfl
  | cons c s ih =>
    by_cases hc : c = ' '
    · simp [esc, hc, unescape, ih]
    · simp only [esc, hc, if_false]
      cases hs : esc s with
      | nil =>
        rw [hs] at ih
        have : unescape [c] = [c] := by
          rw [unescape]
          · simp [unescape]
          · intro s _ e
            simp at e
        rw [this, ← ih]
        simp [unescape]
      | cons x t =>
        have hx : x ≠ ' ' := by
          intro e
          exact esc_head s t (by rw [hs, e])
        rw [hs] at ih
        rw [unescape_cons c x t hx, ih]

/-- C6. Escaping round trip: whatever the number of spaces (and of backslashes) in
the options, replacing every backslash-space pair in the option segment of the line
sent by `exec` with a single space gives back the options exactly. -/
theorem exec_escaping_round_trip (application options : List Char) (w : World)
    (happ : application ≠ []) :
    ∃ line,
      exec application options w = evaluate line (exec_note options w) ∧
      line = "EXEC ".toList ++ application
          ++ (if options = [] then [] else " ".toList ++ esc options) ++ "\n".toList ∧
      unescape (optionSegment application line) = options := by
  refine ⟨_, exec_eq_evaluate application options w happ, rfl, ?_⟩
  by_cases hopt : options = []
  · subst hopt
    simp only [optionSegment, if_true, List.append_nil]
    rw [List.drop_eq_nil_of_le (by simp; omega)]
    rfl
  · simp only [hopt, if_false, optionSegment]
    have : ("EXEC ".toList ++ application ++ (" ".toList ++ esc options) ++ "\n".toList)
        = ("EXEC ".toList ++ application ++ " ".toList) ++ (esc options ++ ['\n']) := by
      simp
    rw [this, List.drop_left']
    · rw [List.dropLast_concat]
      exact unescape_esc options
    · simp
      omega

/-- Witness of C6: options with a backslash and two spaces. -/
theorem exec_escaping_round_trip_witness :
    "Dial".toList ≠ [] ∧
    ∃ line,
      exec "Dial".toList "a\\ b c".toList ⟨[], []⟩
        = evaluate line (exec_note "a\\ b c".toList ⟨[], []⟩) ∧
      line = "EXEC ".toList ++ "Dial".toList
          ++ (if "a\\ b c".toList = [] then [] else " ".toList ++ esc "a\\ b c".toList)
          ++ "\n".toList ∧
      unescape (optionSegment "Dial".toList line) = "a\\ b c".toList :=
  ⟨by decide, exec_escaping_round_trip "Dial".toList "a\\ b c".toList ⟨[], []⟩ (by decide)⟩

/-! ## Commands on a well-formed reply -/

/-- Decoding of a well-formed reply line, with or without a data segment. -/
theorem evaluate_replyLine (command code label token : List Char)
    (data : Option (List Char)) (rest : List Char) (events : List Event)
    (h : WellFormedReply code label token data) :
    evaluate command ⟨replyLine code label token data ++ rest, events⟩
      = Result.ret ⟨code, token, data.getD []⟩
          ⟨rest, events ++ [Event.stdout_write command,
            Event.stdin_read (replyLine code label token data)]⟩ := by
  obtain ⟨hcode, hlabel, htoken, ⟨hnl, hnul⟩, hfit⟩ := h
  cases data with
  | none =>
    have e : replyLine code label token none
        = (code ++ ' ' :: (label ++ '=' :: token)) ++ ['\n'] := by
      simp [replyLine]
    rw [e, List.dropLast_concat] at hnl hnul
    have hnl' : '\n' ∉ code ∧ '\n' ∉ label ∧ '\n' ∉ token := by
      simp only [List.mem_append, List.mem_cons, not_or] at hnl
      exact ⟨hnl.1, hnl.2.2.1, hnl.2.2.2.2⟩
    have := evaluate_plain_line command code label token rest events hcode hlabel
      ⟨htoken, hnl'.2.2⟩ ⟨hnl'.1, hnl'.2.1⟩ hnul (by simpa [replyLine] using hfit)
    simpa [replyLine] using this
  | some d =>
    have e : replyLine code label token (some d)
        = (code ++ ' ' :: (label ++ '=' :: (token ++ ' ' :: d))) ++ ['\n'] := by
      simp [replyLine]
    rw [e, List.dropLast_concat] at hnl hnul
    have hnl' : '\n' ∉ code ∧ '\n' ∉ label ∧ '\n' ∉ token ∧ '\n' ∉ d := by
      simp only [List.mem_append, List.mem_cons, not_or] at hnl
      exact ⟨hnl.1, hnl.2.2.1, hnl.2.2.2.2.1, hnl.2.2.2.2.2.2⟩
    have := evaluate_data_line command code label token d rest events hcode hlabel
      ⟨htoken, hnl'.2.2.1⟩ hnl'.2.2.2 ⟨hnl'.1, hnl'.2.1⟩ hnul (by simpa [replyLine] using hfit)
    simpa [replyLine] using this

/-- C10. Value-returning commands: `get_variable`, `get_full_variable` and
`database_get`, called with non-empty required arguments, send their command line and,
on a well-formed reply line, return the reply's data field verbatim when the result
token is exactly `1` and the empty string for every other result token. -/
theorem value_returning_commands (variablename channel family key : List Char)
    (code label token : List Char) (data : Option (List Char)) (rest : List Char)
    (events : List Event)
    (hvar : variablename ≠ []) (hfamily : family ≠ []) (hkey : key ≠ [])
    (hreply : WellFormedReply code label token data) :
    get_variable variablename ⟨replyLine code label token data ++ rest, events⟩
      = Result.ret (if token = "1".toList then data.getD [] else [])
          ⟨rest, events ++ [Event.stdout_write
              ("GET VARIABLE ".toList ++ variablename ++ "\n".toList),
            Event.stdin_read (replyLine code label token data)]⟩ ∧
    get_full_variable variablename channel ⟨replyLine code label token data ++ rest, events⟩
      = Result.ret (if token = "1".toList then data.getD [] else [])
          ⟨rest, events ++ [Event.stdout_write
              ("GET FULL VARIABLE ".toList ++ variablename
                ++ (if channel = [] then [] else " ".toList ++ channel) ++ "\n".toList),
            Event.stdin_read (replyLine code label token data)]⟩ ∧
    database_get family key ⟨replyLine code label token data ++ rest, events⟩
      = Result.ret (if token = "1".toList then data.getD [] else [])
          ⟨rest, events ++ [Event.stdout_write
              ("DATABASE GET ".toList ++ family ++ " ".toList ++ key ++ "\n".toList),
            Event.stdin_read (replyLine code label token data)]⟩ := by
  refine ⟨?_, ?_, ?_⟩
  · simp [get_variable, hvar, evaluate_cmd, format_str_eq, evaluate_replyLine _ _ _ _ _ _ _ hreply,
      Result.bind, free_2d_array]
  · by_cases hch : channel = []
    · simp [get_full_variable, hvar, hch, evaluate_cmd, format_str_eq,
        evaluate_replyLine _ _ _ _ _ _ _ hreply, Result.bind, free_2d_array]
    · simp [get_full_variable, hvar, hch, evaluate_cmd, format_str_eq,
        evaluate_replyLine _ _ _ _ _ _ _ hreply, Result.bind, free_2d_array]
  · simp [database_get, hfamily, hkey, evaluate_cmd, format_str_eq,
      evaluate_replyLine _ _ _ _ _ _ _ hreply, Result.bind, free_2d_array]

/-- Witness of C10: `get_variable` on the replies `200 result=1 hello` and
`200 result=0`. -/
theorem value_returning_commands_witness :
    ("X".toList ≠ [] ∧ "f".toList ≠ [] ∧ "k".toList ≠ [] ∧
      WellFormedReply "200".toList "result".toList "1".toList (some "hello".toList) ∧
      WellFormedReply "200".toList "result".toList "0".toList none) ∧
    get_variable "X".toList ⟨"200 result=1 hello\n".toList, []⟩
      = Result.ret "hello".toList
          ⟨[], [Event.stdout_write "GET VARIABLE X\n".toList,
            Event.stdin_read "200 result=1 hello\n".toList]⟩ ∧
    get_variable "X".toList ⟨"200 result=0\n".toList, []⟩
      = Result.ret []
          ⟨[], [Event.stdout_write "GET VARIABLE X\n".toList,
            Event.stdin_read "200 result=0\n".toList]⟩ :=
  ⟨by decide,
    (value_returning_commands "X".toList [] "f".toList "k".toList "200".toList
      "result".toList "1".toList (some "hello".toList) [] [] (by decide) (by decide)
      (by decide) (by decide)).1,
    (value_returning_commands "X".toList [] "f".toList "k".toList "200".toList
      "result".toList "0".toList none [] [] (by decide) (by decide)
      (by decide) (by decide)).1⟩

/-! ## The startup block -/

theorem readvars_store_named (i j : Nat) (v : List Char) (vars : asterisk_vars)
    (hi : i < 20) (hv : v.length < 499) :
    ∃ vars1, readvars_store i j v vars = some (vars1, j) ∧
      vars1.named = vars.named.set i (some v) ∧ vars1.agi_args = vars.agi_args := by
  have hs : strncpy v (_BUFF_SIZE - 1) = some v := by simp [strncpy, _BUFF_SIZE, hv]
  interval_cases i <;> simp only [readvars_store, hs, Option.map_some'] <;>
    exact ⟨_, rfl, rfl, rfl⟩

theorem readvars_store_args (i j : Nat) (v : List Char) (vars : asterisk_vars)
    (hi : 20 ≤ i) (hj : j < _MAX_ARGS) (hv : v.length < 500) :
    readvars_store i j v vars
      = some ({ vars with agi_args := vars.agi_args.set j (some v) }, j + 1) := by
  unfold readvars_store
  split <;> first
    | omega
    | simp [strncpy, _BUFF_SIZE, hv, hj]

theorem readvars_store_some (i j : Nat) (v : List Char) (vars vars1 : asterisk_vars)
    (j1 : Nat) (h : readvars_store i j v vars = some (vars1, j1)) :
    (i < 20 ∧ j1 = j) ∨ (20 ≤ i ∧ j < _MAX_ARGS ∧ j1 = j + 1) := by
  unfold readvars_store at h
  split at h
  all_goals first
    | (left
       simp only [Option.map_eq_some', Prod.mk.injEq] at h
       obtain ⟨_, _, _, rfl⟩ := h
       exact ⟨by omega, rfl⟩)
    | (right
       split_ifs at h with hj
       simp only [Option.map_eq_some', Prod.mk.injEq] at h
       obtain ⟨_, _, _, rfl⟩ := h
       refine ⟨?_, hj, rfl⟩
       by_contra hlt
       have : i < 20 := by omega
       interval_cases i <;> simp_all)

theorem set_segment {α : Type} (l : List α) (i k : Nat) (x : α) (m : List α)
    (hi : i < l.length) :
    (l.set i x).take (i + 1) ++ m ++ (l.set i x).drop (i + 1 + k)
      = l.take i ++ (x :: m) ++ l.drop (i + (k + 1)) := by
  have hs : l.set i x = l.take i ++ x :: l.drop (i + 1) := by
    rw [List.set_eq_take_append_cons_drop, if_pos hi]
  have hl : (l.take i).length = i := by
    rw [List.length_take]
    omega
  have h1 : (l.set i x).take (i + 1) = l.take i ++ [x] := by
    rw [hs]
    have := @List.take_append _ (l.take i) (x :: l.drop (i + 1)) 1
    rw [hl] at this
    rw [this]
    rfl
  have h2 : (l.set i x).drop (i + 1 + k) = l.drop (i + (k + 1)) := by
    rw [List.drop_set_of_lt x l (by omega)]
    congr 1
    omega
  rw [h1, h2]
  simp

theorem named_length (vars : asterisk_vars) : vars.named.length = 20 := rfl

theorem readvars_stores_named (vs : List (List Char)) (i j : Nat) (vars : asterisk_vars)
    (hi : i + vs.length ≤ 20) (hv : ∀ v ∈ vs, v.length < 499) :
    ∃ vars1, readvars_stores i j vs vars = some (vars1, j) ∧
      vars1.named = vars.named.take i ++ vs.map some ++ vars.named.drop (i + vs.length) ∧
      vars1.agi_args = vars.agi_args := by
  induction vs generalizing i vars with
  | nil => exact ⟨vars, rfl, by simp, rfl⟩
  | cons v vs ih =>
    simp only [List.length_cons] at hi
    obtain ⟨vars1, h1, hn1, ha1⟩ := readvars_store_named i j v vars (by omega)
      (hv v (by simp))
    obtain ⟨vars2, h2, hn2, ha2⟩ := ih (i + 1) vars1 (by omega)
      (fun u hu => hv u (by simp [hu]))
    refine ⟨vars2, by simp [readvars_stores, h1, h2], ?_, by rw [ha2, ha1]⟩
    rw [hn2, hn1, List.length_cons, List.map_cons]
    exact set_segment vars.named i vs.length (some v) (vs.map some)
      (by rw [named_length]; omega)

theorem readvars_stores_args (vs : List (List Char)) (i j : Nat) (vars : asterisk_vars)
    (hi : 20 ≤ i) (hj : j + vs.length ≤ _MAX_ARGS) (hlen : _MAX_ARGS ≤ vars.agi_args.length)
    (hv : ∀ v ∈ vs, v.length < 500) :
    ∃ vars1, readvars_stores i j vs vars = some (vars1, j + vs.length) ∧
      vars1.named = vars.named ∧
      vars1.agi_args
        = vars.agi_args.take j ++ vs.map some ++ vars.agi_args.drop (j + vs.length) := by
  induction vs generalizing i j vars with
  | nil => exact ⟨vars, rfl, rfl, by simp⟩
  | cons v vs ih =>
    simp only [List.length_cons] at hj
    have h1 := readvars_store_args i j v vars hi (by omega) (hv v (by simp))
    obtain ⟨vars2, h2, hn2, ha2⟩ := ih (i + 1) (j + 1)
      { vars with agi_args := vars.agi_args.set j (some v) } (by omega) (by omega)
      (by simpa using hlen) (fun u hu => hv u (by simp [hu]))
    refine ⟨vars2, ?_, by rw [hn2]; rfl, ?_⟩
    · simp only [readvars_stores, h1, h2, List.length_cons]
      congr 2
      omega
    · rw [ha2, List.length_cons, List.map_cons]
      exact set_segment vars.agi_args j vs.length (some v) (vs.map some) (by omega)

theorem readvars_stores_append (a b : List (List Char)) (i j : Nat) (vars : asterisk_vars) :
    readvars_stores i j (a ++ b) vars
      = match readvars_stores i j a vars with
        | none => none
        | some (vars1, j1) => readvars_stores (i + a.length) j1 b vars1 := by
  induction a generalizing i j vars with
  | nil => simp [readvars_stores]
  | cons v a ih =>
    simp only [List.cons_append, readvars_stores, List.length_cons]
    cases h : readvars_store i j v vars with
    | none => rfl
    | some r =>
      obtain ⟨vars1, j1⟩ := r
      show readvars_stores (i + 1) j1 (a ++ b) vars1 = _
      rw [ih]
      have : i + 1 + a.length = i + (a.length + 1) := by omega
      rw [this]

theorem wellFormedVar_parts (p : List Char × List Char) (h : WellFormedVar p) :
    ':' ∉ p.1 ∧ '\n' ∉ p.1 ∧ '\n' ∉ p.2 ∧ NUL ∉ varLine p ∧
      (p.1 ++ ':' :: ' ' :: p.2).length + 1 < _BUFF_SIZE ∧ p.2.length < 497 := by
  obtain ⟨hc, ⟨hnl, hnul⟩, hfit⟩ := h
  simp only [List.mem_append, List.mem_cons, not_or] at hnl hnul
  refine ⟨hc, hnl.1, hnl.2.2.2, ?_, ?_, ?_⟩
  · simp only [varLine, List.mem_append, List.mem_cons, List.mem_singleton, List.not_mem_nil,
      or_false, not_or]
    exact ⟨hnul.1, hnul.2.1, hnul.2.2.1, hnul.2.2.2, by decide⟩
  · simpa [varLine, Nat.add_assoc] using hfit
  · simp only [varLine, List.length_append, List.length_cons, List.length_nil,
      _BUFF_SIZE] at hfit
    omega

/-- One pass of the loop of `readvars` over a well-formed metadata line. -/
theorem readvars_loop_line (p : List Char × List Char) (h : WellFormedVar p)
    (fuel i j : Nat) (vars : asterisk_vars) (w : World) :
    readvars_loop (fuel + 1) i j (varLine p) vars w
      = match readvars_store i j (storedValue p.2) vars with
        | none => Result.undefined
        | some (vars1, j1) => readvars_next fuel (i + 1) j1 (staleLine p) vars1 w := by
  obtain ⟨hc, hn1, hn2, -, -, -⟩ := wellFormedVar_parts p h
  obtain ⟨name, value⟩ := p
  simp only at hc hn1 hn2
  have hhead : (varLine (name, value)).head? ≠ some '\n' := by
    cases name with
    | nil => simp [varLine]
    | cons c name =>
      have : c ≠ '\n' := fun e => hn1 (by simp [e])
      simpa [varLine] using this
  have hstr : strchr (varLine (name, value)) ':'
      = some (name, ':' :: ' ' :: (value ++ ['\n'])) := by
    simpa [varLine] using strchr_append name (' ' :: (value ++ ['\n'])) ':' hc
  have hsp : " ".toList = [' '] := rfl
  rw [readvars_loop]
  simp only [hhead, if_false, hstr, hsp]
  by_cases hv : value = []
  · subst hv
    simp only [List.nil_append, List.head?_cons, if_true, storedValue, staleLine]
    cases hs : readvars_store i j [' '] vars with
    | none => simp [hs]
    | some r =>
      obtain ⟨vars1, j1⟩ := r
      simp only [hs]
      unfold readvars_next
      cases hg : fgets _BUFF_SIZE w.stdin with
      | none => rfl
      | some q => rfl
  · have hvh : (value ++ ['\n']).head? ≠ some '\n' := by
      cases value with
      | nil => exact absurd rfl hv
      | cons c value =>
        have : c ≠ '\n' := fun e => hn2 (by simp [e])
        simpa using this
    have hsv : strchr (value ++ ['\n']) '\n' = some (value, ['\n']) :=
      strchr_append value [] '\n' hn2
    simp only [hvh, if_false, hsv, storedValue, staleLine, hv]
    cases hs : readvars_store i j value vars with
    | none => simp [hs]
    | some r =>
      obtain ⟨vars1, j1⟩ := r
      simp only [hs]
      unfold readvars_next
      cases hg : fgets _BUFF_SIZE w.stdin with
      | none => rfl
      | some q => rfl

/-- The read of a well-formed metadata line. -/
theorem readvars_next_line (p : List Char × List Char) (h : WellFormedVar p)
    (fuel i j : Nat) (prev : List Char) (vars : asterisk_vars) (s : List Char)
    (events : List Event) :
    readvars_next fuel i j prev vars ⟨varLine p ++ s, events⟩
      = readvars_loop fuel i j (varLine p) vars
          ⟨s, events ++ [Event.stdin_read (varLine p)]⟩ := by
  obtain ⟨-, hn1, hn2, hnul, hfit, -⟩ := wellFormedVar_parts p h
  have hnl : '\n' ∉ p.1 ++ ':' :: ' ' :: p.2 := by
    simp only [List.mem_append, List.mem_cons, not_or]
    exact ⟨hn1, by decide, by decide, hn2⟩
  have hg := fgets_line _BUFF_SIZE (p.1 ++ ':' :: ' ' :: p.2) s hnl hfit
  have e : varLine p ++ s = (p.1 ++ ':' :: ' ' :: p.2) ++ '\n' :: s := by simp [varLine]
  have e2 : (p.1 ++ ':' :: ' ' :: p.2) ++ ['\n'] = varLine p := by simp [varLine]
  rw [e2] at hg
  simp only [readvars_next, e, hg, cstr_eq_self _ hnul]

/-- The loop of `readvars` over a run of well-formed metadata lines. -/
theorem readvars_next_block (qs : List (List Char × List Char))
    (h : ∀ q ∈ qs, WellFormedVar q) (fuel i j : Nat) (prev : List Char)
    (vars : asterisk_vars) (tail : List Char) (events : List Event) :
    readvars_next (fuel + qs.length) i j prev vars ⟨blockText qs ++ tail, events⟩
      = match readvars_stores i j (qs.map fun q => storedValue q.2) vars with
        | none => Result.undefined
        | some (vars1, j1) =>
          readvars_next fuel (i + qs.length) j1 ((qs.getLast?.map staleLine).getD prev) vars1
            ⟨tail, events ++ blockReads qs⟩ := by
  induction qs generalizing i j prev vars events with
  | nil => simp [blockText, blockReads, readvars_stores]
  | cons q qs ih =>
    have hq := h q (by simp)
    have hqs : ∀ r ∈ qs, WellFormedVar r := fun r hr => h r (by simp [hr])
    have e : blockText (q :: qs) ++ tail = varLine q ++ (blockText qs ++ tail) := by
      simp [blockText]
    rw [e, List.length_cons, ← Nat.add_assoc, readvars_next_line q hq,
      readvars_loop_line q hq]
    simp only [List.map_cons, readvars_stores]
    cases hs : readvars_store i j (storedValue q.2) vars with
    | none => rfl
    | some r =>
      obtain ⟨vars1, j1⟩ := r
      simp only []
      rw [ih hqs]
      have e3 : i + 1 + qs.length = i + (qs.length + 1) := by omega
      have e4 : ((qs.getLast?.map staleLine).getD (staleLine q))
          = (((q :: qs).getLast?.map staleLine).getD prev) := by
        cases qs with
        | nil => simp
        | cons r qs =>
          obtain ⟨z, hz⟩ : ∃ z, (r :: qs).getLast? = some z :=
            ⟨_, List.getLast?_eq_getLast _ (by simp)⟩
          rw [List.getLast?_cons_cons, hz]
          rfl
      have e5 : events ++ [Event.stdin_read (varLine q)] ++ blockReads qs
          = events ++ blockReads (q :: qs) := by
        simp [blockReads]
      rw [e3, e4, e5]

theorem readvars_eq_next (w : World) (prev : List Char) (h : w.stdin ≠ []) :
    readvars w = readvars_next (20 + _MAX_ARGS + 1) 0 0 prev asterisk_vars.fresh w := by
  unfold readvars readvars_next
  cases hg : fgets _BUFF_SIZE w.stdin with
  | none =>
    cases hs : w.stdin with
    | nil => exact absurd hs h
    | cons c s => simp [fgets, hs] at hg
  | some q => rfl

/-- The bound on the iterations of the loop of `readvars` is never the reason for an
outcome: once `fuel` exceeds the number of fields and slots still free, one more unit
of it changes nothing. -/
theorem readvars_loop_fuel (fuel : Nat) :
    ∀ (i j : Nat) (buff : List Char) (vars : asterisk_vars) (w : World),
      (20 - i) + (_MAX_ARGS - j) < fuel →
      readvars_loop fuel i j buff vars w = readvars_loop (fuel + 1) i j buff vars w := by
  induction fuel with
  | zero => intro i j buff vars w h; omega
  | succ fuel ih =>
    intro i j buff vars w hm
    conv_lhs => rw [readvars_loop]
    conv_rhs => rw [readvars_loop]
    by_cases hh : buff.head? = some '\n'
    · simp only [hh, if_true]
    · simp only [hh, if_false]
      cases strchr buff ':' with
      | none => rfl
      | some r =>
        obtain ⟨name, colon⟩ := r
        simp only []
        match colon with
        | [] => rfl
        | [_] => rfl
        | _ :: sep :: value =>
          have key : ∀ (value1 buff1 : List Char),
              (match readvars_store i j value1 vars with
                | none => Result.undefined
                | some (vars1, j1) =>
                  match fgets _BUFF_SIZE w.stdin with
                  | none =>
                    readvars_loop fuel (i + 1) j1 buff1 vars1 (w.emit (Event.stdin_read []))
                  | some (bytes, rest) =>
                    readvars_loop fuel (i + 1) j1 (cstr bytes) vars1
                      { stdin := rest, events := w.events ++ [Event.stdin_read bytes] })
              = (match readvars_store i j value1 vars with
                | none => Result.undefined
                | some (vars1, j1) =>
                  match fgets _BUFF_SIZE w.stdin with
                  | none =>
                    readvars_loop (fuel + 1) (i + 1) j1 buff1 vars1
                      (w.emit (Event.stdin_read []))
                  | some (bytes, rest) =>
                    readvars_loop (fuel + 1) (i + 1) j1 (cstr bytes) vars1
                      { stdin := rest, events := w.events ++ [Event.stdin_read bytes] }) := by
            intro value1 buff1
            cases hs : readvars_store i j value1 vars with
            | none => rfl
            | some r1 =>
              obtain ⟨vars1, j1⟩ := r1
              simp only []
              have hdec : (20 - (i + 1)) + (_MAX_ARGS - j1) < fuel := by
                rcases readvars_store_some i j value1 vars vars1 j1 hs with ⟨hi, rfl⟩ |
                  ⟨hi, hj, rfl⟩
                · omega
                · omega
              cases fgets _BUFF_SIZE w.stdin with
              | none => exact ih _ _ _ _ _ hdec
              | some q => exact ih _ _ _ _ _ hdec
          simp only []
          by_cases hv : value.head? = some '\n'
          · simp only [hv, if_true]
            exact key _ _
          · simp only [hv, if_false]
            cases strchr value '\n' with
            | none => rfl
            | some t =>
              obtain ⟨text, found⟩ := t
              exact key _ _

theorem storedValue_length (p : List Char × List Char) (h : WellFormedVar p) :
    (storedValue p.2).length < 499 := by
  obtain ⟨-, -, -, -, -, hl⟩ := wellFormedVar_parts p h
  unfold storedValue
  split_ifs
  · simp
  · omega

/-- The structure after the values of a block of at most `20 + _MAX_ARGS` lines have
been stored into a fresh one. -/
theorem readvars_stores_fresh (vs : List (List Char)) (hn : vs.length ≤ 20 + _MAX_ARGS)
    (hv : ∀ v ∈ vs, v.length < 499) :
    ∃ vars1, readvars_stores 0 0 vs asterisk_vars.fresh = some (vars1, vs.length - 20) ∧
      vars1.named = (vs.take 20).map some ++ List.replicate (20 - vs.length) none ∧
      vars1.agi_args = (vs.drop 20).map some
        ++ List.replicate (_MAX_ARGS - (vs.length - 20)) none := by
  have hsplit : vs = vs.take 20 ++ vs.drop 20 := (List.take_append_drop 20 vs).symm
  have hl1 : (vs.take 20).length = min 20 vs.length := List.length_take 20 vs
  have hl2 : (vs.drop 20).length = vs.length - 20 := List.length_drop 20 vs
  obtain ⟨vars1, h1, hn1, ha1⟩ := readvars_stores_named (vs.take 20) 0 0 asterisk_vars.fresh
    (by rw [hl1]; omega) (fun v hm => hv v (List.mem_of_mem_take hm))
  by_cases hshort : vs.length ≤ 20
  · have hd : vs.drop 20 = [] := List.drop_eq_nil_of_le hshort
    have ht : vs.take 20 = vs := List.take_of_length_le hshort
    rw [ht] at h1 hn1
    refine ⟨vars1, ?_, ?_, ?_⟩
    · rw [h1]
      congr 2
      omega
    · rw [hn1]
      have : asterisk_vars.fresh.named = List.replicate 20 none := rfl
      rw [this, List.take_zero, List.nil_append, Nat.zero_add, List.drop_replicate, ht]
    · rw [ha1, hd]
      have : vs.length - 20 = 0 := by omega
      simp [this, asterisk_vars.fresh]
  · have hl1' : (vs.take 20).length = 20 := by rw [hl1]; omega
    obtain ⟨vars2, h2, hn2, ha2⟩ := readvars_stores_args (vs.drop 20) 20 0 vars1
      (Nat.le_refl 20) (by rw [hl2]; simp only [_MAX_ARGS] at hn ⊢; omega)
      (by rw [ha1]; simp [asterisk_vars.fresh])
      (fun v hm => Nat.lt_succ_of_lt (hv v (List.mem_of_mem_drop hm)))
    refine ⟨vars2, ?_, ?_, ?_⟩
    · rw [hsplit, readvars_stores_append, h1]
      simp only [hl1', Nat.zero_add] at h2 ⊢
      rw [h2, hl2]
      simp
    · rw [hn2, hn1, hl1']
      have : asterisk_vars.fresh.named = List.replicate 20 none := rfl
      have h0 : 20 - vs.length = 0 := by omega
      simp [this, h0]
    · rw [ha2, ha1, hl2]
      simp [asterisk_vars.fresh, List.drop_replicate]

theorem readvars_next_blank (fuel i j : Nat) (prev : List Char) (vars : asterisk_vars)
    (rest : List Char) (events : List Event) :
    readvars_next (fuel + 1) i j prev vars ⟨'\n' :: rest, events⟩
      = Result.ret vars ⟨rest, events ++ [Event.stdin_read ['\n']]⟩ := by
  have hg : fgets _BUFF_SIZE ('\n' :: rest) = some (['\n'], rest) := by
    simp [fgets, fgets_take, _BUFF_SIZE]
  have hc : cstr ['\n'] = ['\n'] := by decide
  simp [readvars_next, hg, hc, readvars_loop]

theorem readvars_next_no_colon (fuel i j : Nat) (prev : List Char) (vars : asterisk_vars)
    (tail bytes rest : List Char) (events : List Event)
    (hread : fgets _BUFF_SIZE tail = some (bytes, rest))
    (hblank : (cstr bytes).head? ≠ some '\n') (hcolon : ':' ∉ cstr bytes) :
    readvars_next (fuel + 1) i j prev vars ⟨tail, events⟩
      = Result.exit 1 ⟨rest, events ++ [Event.stdin_read bytes] ++
          [Event.stderr_write "ERROR! Problem reading variables.\n".toList]⟩ := by
  have hmsg : "ERROR! Problem reading variables.".toList ++ ['\n']
      = "ERROR! Problem reading variables.\n".toList := by decide
  simp [readvars_next, hread, readvars_loop, hblank, strchr_not_mem _ _ hcolon, print_debug,
    World.emit, hmsg]

/-- C7. Startup-block parsing is positional: for a block of 20 well-formed
`name: value` lines followed by at most `_MAX_ARGS` further well-formed lines and a
blank line, `readvars` returns a structure whose named fields hold, in the order of
their declaration, the values of the first 20 lines and whose `agi_args` holds the
values of the following lines in order; a value is stored without its newline, and an
empty value (`name: ` directly followed by the newline) is stored as one space.  The
block is consumed up to and including the blank line. -/
theorem readvars_positional (fields args : List (List Char × List Char))
    (rest : List Char) (events : List Event)
    (hfields : fields.length = 20) (hargs : args.length ≤ _MAX_ARGS)
    (hwf : ∀ p ∈ fields ++ args, WellFormedVar p) :
    ∃ vars,
      readvars ⟨blockText (fields ++ args) ++ '\n' :: rest, events⟩
        = Result.ret vars
            ⟨rest, events ++ blockReads (fields ++ args) ++ [Event.stdin_read ['\n']]⟩ ∧
      vars.named = fields.map (fun p => some (storedValue p.2)) ∧
      vars.agi_args = args.map (fun p => some (storedValue p.2))
        ++ List.replicate (_MAX_ARGS - args.length) none ∧
      storedValue [] = " ".toList := by
  have hlen : (fields ++ args).length = 20 + args.length := by simp [hfields]
  obtain ⟨vars1, hs, hn, ha⟩ := readvars_stores_fresh
    ((fields ++ args).map fun p => storedValue p.2)
    (by rw [List.length_map, hlen]; omega)
    (by
      intro v hv
      obtain ⟨p, hp, rfl⟩ := List.mem_map.mp hv
      exact storedValue_length p (hwf p hp))
  refine ⟨vars1, ?_, ?_, ?_, rfl⟩
  · rw [readvars_eq_next _ [] (by simp)]
    have hfuel : 20 + _MAX_ARGS + 1 = (_MAX_ARGS - args.length + 1) + (fields ++ args).length := by
      rw [hlen]
      omega
    rw [hfuel, readvars_next_block _ hwf, hs]
    exact readvars_next_blank _ _ _ _ _ _ _
  · rw [hn, List.length_map, hlen]
    have : 20 - (20 + args.length) = 0 := by omega
    rw [this, List.map_append, List.take_append_of_le_length (by simp [hfields])]
    simp [List.take_of_length_le, hfields]
  · rw [ha, List.length_map, hlen, List.map_append, List.drop_append_of_le_length
      (by simp [hfields])]
    have : 20 + args.length - 20 = args.length := by omega
    rw [this, List.drop_of_length_le (by simp [hfields])]
    simp

/-- C8. Missing separator is fatal: when the startup block holds at most
`20 + _MAX_ARGS` well-formed lines and then a line, not the blank one, without a
colon, `readvars` writes the diagnostic line to standard error and ends the process
with exit status 1; no structure is returned. -/
theorem readvars_missing_colon (ps : List (List Char × List Char))
    (tail bytes rest : List Char) (events : List Event)
    (hwf : ∀ p ∈ ps, WellFormedVar p) (hcount : ps.length ≤ 20 + _MAX_ARGS)
    (hread : fgets _BUFF_SIZE tail = some (bytes, rest))
    (hblank : (cstr bytes).head? ≠ some '\n') (hcolon : ':' ∉ cstr bytes) :
    readvars ⟨blockText ps ++ tail, events⟩
      = Result.exit 1
          ⟨rest, events ++ blockReads ps ++ [Event.stdin_read bytes] ++
            [Event.stderr_write "ERROR! Problem reading variables.\n".toList]⟩ := by
  obtain ⟨vars1, hs, -, -⟩ := readvars_stores_fresh (ps.map fun p => storedValue p.2)
    (by rw [List.length_map]; exact hcount)
    (by
      intro v hv
      obtain ⟨p, hp, rfl⟩ := List.mem_map.mp hv
      exact storedValue_length p (hwf p hp))
  have htail : tail ≠ [] := by
    intro e
    rw [e] at hread
    simp [fgets] at hread
  rw [readvars_eq_next _ [] (by simp [htail])]
  have hfuel : 20 + _MAX_ARGS + 1 = (20 + _MAX_ARGS - ps.length + 1) + ps.length := by
    omega
  rw [hfuel, readvars_next_block _ hwf, hs]
  exact readvars_next_no_colon _ _ _ _ _ _ _ _ _ hread hblank hcolon

/-- Witness of C7: twenty lines, then `arg1: foo`, `arg2: bar` and a blank line. -/
theorem readvars_positional_witness :
    (sampleFields.length = 20 ∧ sampleArgs.length ≤ _MAX_ARGS ∧
      (∀ p ∈ sampleFields ++ sampleArgs, WellFormedVar p) ∧
      (sampleArgs.map fun p => some (storedValue p.2)) = [some "foo".toList, some "bar".toList] ∧
      (sampleFields.map fun p => some (storedValue p.2))[18]? = some (some " ".toList)) ∧
    ∃ vars,
      readvars ⟨blockText (sampleFields ++ sampleArgs) ++ '\n' :: "200 result=0\n".toList, []⟩
        = Result.ret vars
            ⟨"200 result=0\n".toList,
              [] ++ blockReads (sampleFields ++ sampleArgs) ++ [Event.stdin_read ['\n']]⟩ ∧
      vars.named = sampleFields.map (fun p => some (storedValue p.2)) ∧
      vars.agi_args = sampleArgs.map (fun p => some (storedValue p.2))
        ++ List.replicate (_MAX_ARGS - sampleArgs.length) none ∧
      storedValue [] = " ".toList :=
  ⟨by decide,
    readvars_positional sampleFields sampleArgs "200 result=0\n".toList [] (by decide)
      (by decide) (by decide)⟩

/-- Witness of C8: a block whose third line lacks the colon. -/
theorem readvars_missing_colon_witness :
    ((∀ p ∈ sampleFields.take 2, WellFormedVar p) ∧
      (sampleFields.take 2).length ≤ 20 + _MAX_ARGS ∧
      fgets _BUFF_SIZE "agi_language en\n\n".toList = some ("agi_language en\n".toList, ['\n']) ∧
      (cstr "agi_language en\n".toList).head? ≠ some '\n' ∧
      ':' ∉ cstr "agi_language en\n".toList) ∧
    readvars ⟨blockText (sampleFields.take 2) ++ "agi_language en\n\n".toList, []⟩
      = Result.exit 1
          ⟨['\n'], [] ++ blockReads (sampleFields.take 2)
            ++ [Event.stdin_read "agi_language en\n".toList]
            ++ [Event.stderr_write "ERROR! Problem reading variables.\n".toList]⟩ :=
  ⟨by decide,
    readvars_missing_colon (sampleFields.take 2) "agi_language en\n\n".toList
      "agi_language en\n".toList ['\n'] [] (by decide) (by decide) (by decide) (by decide)
      (by decide)⟩

/-! ## End of input inside the startup block -/

/-- With the input exhausted, the loop of `readvars` entered on what a well-formed
line left in the buffer never returns and never exits. -/
theorem readvars_loop_stale (q : List Char × List Char) (h : WellFormedVar q) (fuel : Nat) :
    ∀ (i j : Nat) (vars : asterisk_vars) (w : World), w.stdin = [] →
      readvars_loop fuel i j (staleLine q) vars w = Result.undefined := by
  obtain ⟨hc, hn1, hn2, -, -, -⟩ := wellFormedVar_parts q h
  by_cases hv : q.2 = []
  · have hst : staleLine q = varLine q := by simp [staleLine, hv]
    induction fuel with
    | zero => intro i j vars w _; rfl
    | succ fuel ih =>
      intro i j vars w hw
      rw [hst, readvars_loop_line q h]
      cases hs : readvars_store i j (storedValue q.2) vars with
      | none => rfl
      | some r =>
        obtain ⟨vars1, j1⟩ := r
        simp only [readvars_next, hw, fgets]
        exact ih _ _ _ _ (by simp [World.emit, hw])
  · intro i j vars w _
    cases fuel with
    | zero => rfl
    | succ fuel =>
      obtain ⟨name, value⟩ := q
      simp only at hc hn1 hn2 hv
      have hst : staleLine (name, value) = name ++ ':' :: ' ' :: value := by
        simp [staleLine, hv]
      have hhead : (name ++ ':' :: ' ' :: value).head? ≠ some '\n' := by
        cases name with
        | nil => simp
        | cons c name =>
          have : c ≠ '\n' := fun e => hn1 (by simp [e])
          simpa using this
      have hvh : value.head? ≠ some '\n' := by
        cases value with
        | nil => simp
        | cons c value =>
          have : c ≠ '\n' := fun e => hn2 (by simp [e])
          simpa using this
      rw [hst, readvars_loop]
      simp only [hhead, if_false, strchr_append name (' ' :: value) ':' hc, hvh,
        strchr_not_mem value '\n' hn2]

theorem readvars_next_zero (i j : Nat) (prev : List Char) (vars : asterisk_vars)
    (w : World) : readvars_next 0 i j prev vars w = Result.undefined := by
  unfold readvars_next
  cases fgets _BUFF_SIZE w.stdin with
  | none => rfl
  | some q => rfl

/-- C9. Premature end of stream: on a stream of well-formed metadata lines that ends
before a blank line, `readvars` writes no diagnostic, does not call `exit` and returns
no structure; the execution leaves the defined fragment of C (`fgets` fails, the stale
buffer is parsed again and a NULL pointer is dereferenced, or the argument array is
overrun).  The fatal path that the claim describes is not taken. -/
theorem readvars_premature_eof (ps : List (List Char × List Char)) (events : List Event)
    (hwf : ∀ p ∈ ps, WellFormedVar p) :
    readvars ⟨blockText ps, events⟩ = Result.undefined := by
  cases hps : ps with
  | nil => simp [readvars, blockText, fgets]
  | cons p0 ps0 =>
    rw [← hps]
    have hne : blockText ps ≠ [] := by
      rw [hps]
      obtain ⟨name, value⟩ := p0
      simp [blockText, varLine]
    rw [readvars_eq_next _ [] hne]
    have hb : blockText ps = blockText ps ++ [] := by simp
    by_cases hlong : 20 + _MAX_ARGS + 1 ≤ ps.length
    · -- more lines than the structure has room for
      obtain ⟨a, b, hab, hla⟩ : ∃ a b, ps = a ++ b ∧ a.length = 20 + _MAX_ARGS + 1 :=
        ⟨ps.take (20 + _MAX_ARGS + 1), ps.drop (20 + _MAX_ARGS + 1),
          (List.take_append_drop _ ps).symm, by rw [List.length_take]; omega⟩
      have hbt : blockText ps = blockText a ++ blockText b := by
        rw [hab]
        simp [blockText]
      have hfuel : 20 + _MAX_ARGS + 1 = 0 + a.length := by omega
      rw [hbt, hfuel, readvars_next_block a (fun q hq => hwf q (by rw [hab]; simp [hq]))]
      cases readvars_stores 0 0 (List.map (fun q => storedValue q.2) a)
          asterisk_vars.fresh with
      | none => rfl
      | some r => exact readvars_next_zero _ _ _ _ _
    · have hfuel : 20 + _MAX_ARGS + 1 = (20 + _MAX_ARGS + 1 - ps.length) + ps.length := by
        omega
      rw [hb, hfuel, readvars_next_block _ hwf]
      cases readvars_stores 0 0 (List.map (fun q => storedValue q.2) ps)
          asterisk_vars.fresh with
      | none => rfl
      | some r =>
        obtain ⟨vars1, j1⟩ := r
        have hlast : ∃ q, ps.getLast? = some q ∧ q ∈ ps := by
          rw [hps]
          exact ⟨_, List.getLast?_eq_getLast _ (by simp), List.getLast_mem (by simp)⟩
        obtain ⟨q, hq, hqm⟩ := hlast
        simp only [hq, Option.map_some', Option.getD_some, readvars_next, fgets]
        exact readvars_loop_stale q (hwf q hqm) _ _ _ _ _ rfl

/-- Witness of C9: the stream `agi_request: myscript` and nothing more. -/
theorem readvars_premature_eof_witness :
    (∀ p ∈ sampleFields.take 1, WellFormedVar p) ∧
    readvars ⟨"agi_request: myscript\n".toList, []⟩ = Result.undefined :=
  ⟨by decide, readvars_premature_eof (sampleFields.take 1) [] (by decide)⟩

/-! ## Every call is a local rejection or one round trip -/

theorem exec_note_stdin (options : List Char) (w : World) :
    (exec_note options w).stdin = w.stdin := by
  unfold exec_note
  split_ifs <;> rfl

set_option maxHeartbeats 4000000 in
/-- The functions of cagi.c in closed form: a call none of whose required arguments
is empty sends `Command.line`, has the reply decoded by `evaluate` and returns
`Command.finish` of the triple. -/
theorem run_eq (cmd : Command) (w : World) (h : [] ∉ cmd.required) :
    cmd.run w = cmd.roundTrip w := by
  cases cmd <;>
    simp only [Command.required, List.mem_cons, List.mem_singleton, List.not_mem_nil,
      or_false, not_or, not_false_eq_true, eq_comm (a := ([] : List Char))] at h
  case exec application options =>
    simp only [Command.run, Command.roundTrip, Command.line, Command.finish, Command.before,
      Command.after, exec_eq_evaluate application options w h]
    have e : "EXEC ".toList ++ application
          ++ (if options = [] then [] else " ".toList ++ esc options) ++ "\n".toList
        = "EXEC ".toList ++ application ++ (if options = [] then [] else ' ' :: esc options)
          ++ ['\n'] := by
      split_ifs <;> simp
    rw [e]
    generalize evaluate _ _ = r
    cases r <;> simp [Result.map]
  all_goals
    simp only [Command.run, answer, channel_status, database_del, database_deltree,
      database_get, database_put, get_data, get_full_variable, get_option, get_variable,
      hangup, noop, receive_char, receive_text, record_file, say_alpha, say_digits,
      say_number, say_phonetic, say_date, say_time, say_datetime, send_image, send_text,
      set_autohangup, set_callerid, set_context, set_extension, set_music, set_priority,
      set_variable, stream_file, control_stream_file, tdd_mode, verbose, wait_for_digit,
      speech_create, speech_set, speech_destroy, speech_load_grammar,
      speech_unload_grammar, speech_activate_grammar, speech_deactivate_grammar,
      speech_recognize, gosub, h, if_false, ne_eq, ite_not]
    try split_ifs
    all_goals try contradiction
    all_goals
      simp [Command.roundTrip, Command.line, Command.finish, Command.before, Command.after,
        format_str_eq, evaluate_cmd, optArg, _DEFAULT_TIMEOUT, World.emit, *]
      generalize evaluate _ _ = r
      cases r <;> simp [Result.bind, Result.map, free_2d_array, World.emit] <;>
        (try split_ifs) <;>
        first
          | rfl
          | (generalize atoi _ = o
             cases o <;> rfl)

/-! ## Status and structured commands -/

/-- The statement `data = evaluate(cmd)` on a well-formed reply line. -/
theorem evaluate_cmd_replyLine (command code label token : List Char)
    (data : Option (List Char)) (rest : List Char) (events : List Event)
    (h : WellFormedReply code label token data) :
    evaluate_cmd (some command) ⟨replyLine code label token data ++ rest, events⟩
      = Result.ret ⟨code, token, data.getD []⟩
          ⟨rest, events ++ [Event.stdout_write command,
            Event.stdin_read (replyLine code label token data)]⟩ :=
  evaluate_replyLine command code label token data rest events h

/-- C11. Channel-status mapping: for every channel name and every well-formed reply
line, `channel_status` sends its command line and returns `n` when the result token is
exactly the one-character decimal digit `n` with `0 ≤ n ≤ 7`, and `-1` for every other
result token. -/
theorem channel_status_mapping (channel_name code label token : List Char)
    (data : Option (List Char)) (rest : List Char) (events : List Event)
    (hreply : WellFormedReply code label token data) :
    ∃ status : Int,
      channel_status channel_name ⟨replyLine code label token data ++ rest, events⟩
        = Result.ret status
            ⟨rest, events ++ [Event.stdout_write
                ("CHANNEL STATUS".toList
                  ++ (if channel_name = [] then [] else " ".toList ++ channel_name)
                  ++ "\n".toList),
              Event.stdin_read (replyLine code label token data)]⟩ ∧
      (∀ n : Nat, n ≤ 7 → token = [Char.ofNat (48 + n)] → status = n) ∧
      ((∀ n : Nat, n ≤ 7 → token ≠ [Char.ofNat (48 + n)]) → status = -1) := by
  have hrun : ∀ command : List Char,
      (evaluate command ⟨replyLine code label token data ++ rest, events⟩).bind
        (fun data w1 =>
          Result.ret
            (if data.result = "0".toList then (0 : Int)
             else if data.result = "1".toList then 1
             else if data.result = "2".toList then 2
             else if data.result = "3".toList then 3
             else if data.result = "4".toList then 4
             else if data.result = "5".toList then 5
             else if data.result = "6".toList then 6
             else if data.result = "7".toList then 7
             else -1)
            (free_2d_array data w1))
        = Result.ret
            (if token = "0".toList then (0 : Int)
             else if token = "1".toList then 1
             else if token = "2".toList then 2
             else if token = "3".toList then 3
             else if token = "4".toList then 4
             else if token = "5".toList then 5
             else if token = "6".toList then 6
             else if token = "7".toList then 7
             else -1)
            ⟨rest, events ++ [Event.stdout_write command,
              Event.stdin_read (replyLine code label token data)]⟩ := by
    intro command
    rw [evaluate_replyLine _ _ _ _ _ _ _ hreply]
    rfl
  refine ⟨(if token = "0".toList then (0 : Int)
             else if token = "1".toList then 1
             else if token = "2".toList then 2
             else if token = "3".toList then 3
             else if token = "4".toList then 4
             else if token = "5".toList then 5
             else if token = "6".toList then 6
             else if token = "7".toList then 7
             else -1), ?_, ?_, ?_⟩
  · by_cases hch : channel_name = []
    · simp only [channel_status, hch, if_true, List.append_nil]
      exact hrun _
    · have hf : format_str 3 "CHANNEL STATUS ".toList [channel_name, "\n".toList]
          = some ("CHANNEL STATUS".toList ++ (" ".toList ++ channel_name) ++ "\n".toList) := by
        rw [format_str_eq _ _ _ (by simp) (by simp)]
        simp
      simp only [channel_status, hch, if_false, hf, evaluate_cmd]
      exact hrun _
  · intro n hn ht
    subst ht
    interval_cases n <;> decide
  · intro hne
    have h0 := hne 0 (by omega)
    have h1 := hne 1 (by omega)
    have h2 := hne 2 (by omega)
    have h3 := hne 3 (by omega)
    have h4 := hne 4 (by omega)
    have h5 := hne 5 (by omega)
    have h6 := hne 6 (by omega)
    have h7 := hne 7 (by omega)
    have e0 : "0".toList = [Char.ofNat (48 + 0)] := by decide
    have e1 : "1".toList = [Char.ofNat (48 + 1)] := by decide
    have e2 : "2".toList = [Char.ofNat (48 + 2)] := by decide
    have e3 : "3".toList = [Char.ofNat (48 + 3)] := by decide
    have e4 : "4".toList = [Char.ofNat (48 + 4)] := by decide
    have e5 : "5".toList = [Char.ofNat (48 + 5)] := by decide
    have e6 : "6".toList = [Char.ofNat (48 + 6)] := by decide
    have e7 : "7".toList = [Char.ofNat (48 + 7)] := by decide
    rw [e0, e1, e2, e3, e4, e5, e6, e7]
    simp only [h0, h1, h2, h3, h4, h5, h6, h7, if_false]

/-- Witness of C11: the reply `200 result=4` maps to 4 and `200 result=99` to -1. -/
theorem channel_status_mapping_witness :
    (WellFormedReply "200".toList "result".toList "4".toList none ∧
      WellFormedReply "200".toList "result".toList "99".toList none) ∧
    (∃ status : Int,
      channel_status [] ⟨replyLine "200".toList "result".toList "4".toList none ++ [], []⟩
        = Result.ret status
            ⟨[], [] ++ [Event.stdout_write
                ("CHANNEL STATUS".toList
                  ++ (if ([] : List Char) = [] then [] else " ".toList ++ [])
                  ++ "\n".toList),
              Event.stdin_read (replyLine "200".toList "result".toList "4".toList none)]⟩ ∧
      (∀ n : Nat, n ≤ 7 → "4".toList = [Char.ofNat (48 + n)] → status = n) ∧
      ((∀ n : Nat, n ≤ 7 → "4".toList ≠ [Char.ofNat (48 + n)]) → status = -1)) ∧
    channel_status [] ⟨"200 result=4\n".toList, []⟩
      = Result.ret 4 ⟨[], [Event.stdout_write "CHANNEL STATUS\n".toList,
          Event.stdin_read "200 result=4\n".toList]⟩ ∧
    channel_status [] ⟨"200 result=99\n".toList, []⟩
      = Result.ret (-1) ⟨[], [Event.stdout_write "CHANNEL STATUS\n".toList,
          Event.stdin_read "200 result=99\n".toList]⟩ :=
  ⟨by decide,
    channel_status_mapping [] "200".toList "result".toList "4".toList none [] []
      (by decide),
    by decide, by decide⟩

/-- C12. Synthesized results of the structured commands: when a required argument is
empty, the command returns, without any traffic, a locally built triple whose status
is `200` and whose result and data are: `exec` `-2` and empty; `get_data` `-1` and
empty; `get_option` `-1` and `endpos=0`; `record_file` `-1` and
`(randomerror) endpos=0`; `stream_file` and `control_stream_file` `0` and `endpos=0`;
`speech_recognize` `-1` and empty. -/
theorem synthesized_results (file format escape_digits timeout a b c d e : List Char)
    (w : World) :
    (∃ msg, exec [] a w = Result.ret ⟨"200".toList, "-2".toList, []⟩
        ⟨w.stdin, w.events ++ [Event.stderr_write msg]⟩) ∧
    (∃ msg, get_data [] a b w = Result.ret ⟨"200".toList, "-1".toList, []⟩
        ⟨w.stdin, w.events ++ [Event.stderr_write msg]⟩) ∧
    (file = [] ∨ escape_digits = [] →
      ∃ msg, get_option file escape_digits a w
        = Result.ret ⟨"200".toList, "-1".toList, "endpos=0".toList⟩
          ⟨w.stdin, w.events ++ [Event.stderr_write msg]⟩) ∧
    (file = [] ∨ format = [] ∨ escape_digits = [] ∨ timeout = [] →
      ∃ msg, record_file file format escape_digits timeout a b c w
        = Result.ret ⟨"200".toList, "-1".toList, "(randomerror) endpos=0".toList⟩
          ⟨w.stdin, w.events ++ [Event.stderr_write msg]⟩) ∧
    (∃ msg, stream_file [] a b w
        = Result.ret ⟨"200".toList, "0".toList, "endpos=0".toList⟩
          ⟨w.stdin, w.events ++ [Event.stderr_write msg]⟩) ∧
    (∃ msg, control_stream_file [] a b c d e w
        = Result.ret ⟨"200".toList, "0".toList, "endpos=0".toList⟩
          ⟨w.stdin, w.events ++ [Event.stderr_write msg]⟩) ∧
    (∃ msg, speech_recognize [] a b w = Result.ret ⟨"200".toList, "-1".toList, []⟩
        ⟨w.stdin, w.events ++ [Event.stderr_write msg]⟩) := by
  refine ⟨?_, ?_, ?_, ?_, ?_, ?_, ?_⟩
  · simp only [exec, if_true, create_dummy_literal, print_debug, World.emit]
    exact ⟨_, rfl⟩
  · simp only [get_data, if_true, create_dummy_literal, print_debug, World.emit]
    exact ⟨_, rfl⟩
  · intro h
    simp only [get_option, create_dummy_literal, print_debug, World.emit]
    split_ifs <;> first
      | (exfalso; tauto)
      | exact ⟨_, rfl⟩
  · intro h
    simp only [record_file, create_dummy_literal, print_debug, World.emit]
    split_ifs <;> first
      | (exfalso; tauto)
      | exact ⟨_, rfl⟩
  · simp only [stream_file, if_true, create_dummy_literal, print_debug, World.emit]
    exact ⟨_, rfl⟩
  · simp only [control_stream_file, if_true, create_dummy_literal, print_debug, World.emit]
    exact ⟨_, rfl⟩
  · simp only [speech_recognize, if_true, create_dummy_literal, print_debug, World.emit]
    exact ⟨_, rfl⟩

/-- Witness of C12: `record_file` with an empty format, `get_option` with empty
digits. -/
theorem synthesized_results_witness :
    (("beep".toList = [] ∨ ([] : List Char) = [] ∨ "#".toList = [] ∨ "5000".toList = []) ∧
      ("beep".toList = [] ∨ ([] : List Char) = [])) ∧
    record_file "beep".toList [] "#".toList "5000".toList [] [] [] ⟨[], []⟩
      = Result.ret ⟨"200".toList, "-1".toList, "(randomerror) endpos=0".toList⟩
          ⟨[], [Event.stderr_write "ERROR! <format> must not be empty.\n".toList]⟩ ∧
    (∃ msg, get_option "beep".toList [] [] ⟨[], []⟩
        = Result.ret ⟨"200".toList, "-1".toList, "endpos=0".toList⟩
          ⟨[], [] ++ [Event.stderr_write msg]⟩) :=
  ⟨by decide, by decide,
    (synthesized_results "beep".toList [] [] [] [] [] [] [] [] ⟨[], []⟩).2.2.1
      (Or.inr rfl)⟩

theorem fgets_take_append (room : Nat) (s : List Char) :
    (fgets_take room s).1 ++ (fgets_take room s).2 = s := by
  induction room generalizing s with
  | zero => simp [fgets_take]
  | succ r ih =>
    cases s with
    | nil => simp [fgets_take]
    | cons c s =>
      by_cases hc : c = '\n'
      · simp [fgets_take, hc]
      · simp [fgets_take, hc, ih s]

theorem fgets_consumes (size : Nat) (stdin bytes rest : List Char)
    (h : fgets size stdin = some (bytes, rest)) : stdin = bytes ++ rest := by
  cases stdin with
  | nil => simp [fgets] at h
  | cons c s =>
    simp only [fgets, Option.some.injEq] at h
    have := fgets_take_append (size - 1) (c :: s)
    rw [h] at this
    exact this.symm

/-- The trace of `evaluate`: on an outcome other than the undefined one it has
written the command once and read once, in this order, then at most a diagnostic. -/
theorem evaluate_trace (command : List Char) (w w1 : World)
    (h : (∃ t, evaluate command w = Result.ret t w1) ∨
      (∃ status, evaluate command w = Result.exit status w1)) :
    ∃ bytes diag, w1.events = w.events ++ [Event.stdout_write command]
        ++ [Event.stdin_read bytes] ++ diag ∧
      transport diag = [] ∧ w.stdin = bytes ++ w1.stdin := by
  cases hg : fgets _BUFF_SIZE w.stdin with
  | none =>
    have : evaluate command w = Result.undefined := by
      simp [evaluate, World.emit, hg]
    rw [this] at h
    rcases h with ⟨t, ht⟩ | ⟨s, hs⟩
    · exact Result.noConfusion ht
    · exact Result.noConfusion hs
  | some p =>
    obtain ⟨bytes, rest⟩ := p
    obtain ⟨hbad, hgood⟩ := evaluate_outcome command w bytes rest hg
    have hcons := fgets_consumes _ _ _ _ hg
    by_cases hm : Malformed (cstr bytes)
    · rw [hbad hm] at h
      rcases h with ⟨t, ht⟩ | ⟨s, hs⟩
      · exact Result.noConfusion ht
      · injection hs with _ hw
        subst hw
        exact ⟨bytes, _, rfl, rfl, hcons⟩
    · obtain ⟨t0, ht0⟩ := hgood hm
      rw [ht0] at h
      rcases h with ⟨t, ht⟩ | ⟨s, hs⟩
      · injection ht with _ hw
        subst hw
        exact ⟨bytes, [], by simp, rfl, hcons⟩
      · exact Result.noConfusion hs

theorem before_trace (cmd : Command) (w : World) :
    ∃ pre, cmd.before w = ⟨w.stdin, w.events ++ pre⟩ ∧ transport pre = [] := by
  cases cmd
  case exec application options =>
    simp only [Command.before, exec_note]
    split_ifs
    · refine ⟨[Event.file_open "/tmp/shit".toList, Event.file_write "/tmp/shit".toList
          ((Nat.repr (options.length + options.count ' ' + 1)).toList
            ++ " is the size of buff".toList)], ?_, rfl⟩
      simp [World.emit]
    · exact ⟨[], by simp, rfl⟩
  case receive_char timeout =>
    exact ⟨[Event.file_open "/tmp/wtf".toList], rfl, rfl⟩
  all_goals exact ⟨[], by simp [Command.before], rfl⟩

theorem after_transport (cmd : Command) (d : ReturnElements) :
    transport (cmd.after d) = [] := by
  cases cmd <;> rfl

theorem transport_append (a b : List Event) :
    transport (a ++ b) = transport a ++ transport b := by
  simp [transport]

/-- The trace of a round trip that returns or exits. -/
theorem roundTrip_trace (cmd : Command) (w w1 : World)
    (h : (∃ v, cmd.roundTrip w = Result.ret v w1) ∨
      (∃ status, cmd.roundTrip w = Result.exit status w1)) :
    ∃ pre bytes post, w1.events = w.events ++ pre ++ [Event.stdout_write cmd.line]
        ++ [Event.stdin_read bytes] ++ post ∧
      transport pre = [] ∧ transport post = [] ∧ w.stdin = bytes ++ w1.stdin := by
  obtain ⟨pre, hpre, htp⟩ := before_trace cmd w
  unfold Command.roundTrip at h
  cases he : evaluate cmd.line (cmd.before w) with
  | undefined =>
    rw [he] at h
    rcases h with ⟨v, hv⟩ | ⟨s, hs⟩
    · exact Result.noConfusion hv
    · exact Result.noConfusion hs
  | exit s0 w0 =>
    obtain ⟨bytes, diag, hev, htd, hst⟩ := evaluate_trace cmd.line (cmd.before w) w0
      (Or.inr ⟨s0, he⟩)
    rw [he] at h
    rcases h with ⟨v, hv⟩ | ⟨s, hs⟩
    · exact Result.noConfusion hv
    · injection hs with _ hw
      subst hw
      rw [hpre] at hev hst
      exact ⟨pre, bytes, diag, hev, htp, htd, hst⟩
  | ret d w0 =>
    obtain ⟨bytes, diag, hev, htd, hst⟩ := evaluate_trace cmd.line (cmd.before w) w0
      (Or.inl ⟨d, he⟩)
    rw [he] at h
    rw [hpre] at hev hst
    cases hf : cmd.finish d with
    | none =>
      simp only [hf] at h
      rcases h with ⟨v, hv⟩ | ⟨s, hs⟩
      · exact Result.noConfusion hv
      · exact Result.noConfusion hs
    | some v0 =>
      simp only [hf] at h
      rcases h with ⟨v, hv⟩ | ⟨s, hs⟩
      · injection hv with _ hw
        subst hw
        refine ⟨pre, bytes, diag ++ cmd.after d, ?_, htp, ?_, hst⟩
        · simp only [hev, List.append_assoc]
        · rw [transport_append, htd, after_transport]
          rfl
      · exact Result.noConfusion hs

theorem mem_esc (c : Char) (hb : c ≠ '\\') (s : List Char) (h : c ∈ esc s) : c ∈ s := by
  induction s with
  | nil => simp [esc] at h
  | cons x s ih =>
    by_cases hx : x = ' '
    · subst hx
      simp only [esc, if_true, List.mem_cons] at h
      rcases h with h | h | h
      · exact absurd h hb
      · simp [h]
      · simp [ih h]
    · simp only [esc, hx, if_false, List.mem_cons] at h
      rcases h with h | h
      · simp [h]
      · simp [ih h]

set_option maxHeartbeats 4000000 in
/-- The command line of a call whose arguments hold no newline is a text without
newline followed by one newline. -/
theorem line_body (cmd : Command) (h : ∀ a ∈ cmd.args, '\n' ∉ a) :
    ∃ body, cmd.line = body ++ ['\n'] ∧ '\n' ∉ body := by
  have hesc : ∀ s : List Char, '\n' ∉ s → '\n' ∉ esc s :=
    fun s hs hm => hs (mem_esc '\n' (by decide) s hm)
  cases cmd <;>
    simp only [Command.args, List.mem_cons, List.mem_singleton, List.not_mem_nil, or_false,
      forall_eq_or_imp, forall_eq, false_implies, implies_true] at h
  case answer => exact ⟨"ANSWER".toList, rfl, by decide⟩
  case speech_destroy => exact ⟨"SPEECH DESTROY".toList, rfl, by decide⟩
  case send_text text =>
    refine ⟨"SEND TEXT \"".toList ++ text ++ ['"'], by simp [Command.line], ?_⟩
    simp [h]
  all_goals
    simp only [Command.line, optArg]
    try split_ifs
    all_goals
      refine ⟨_, rfl, ?_⟩
      simp [h, hesc, _DEFAULT_TIMEOUT]

/-- C16. Every sent line is one wire line: when no argument of a call holds a newline,
every text that the call writes to the transport ends with a newline and holds exactly
one newline. -/
theorem sent_line_is_one_line (cmd : Command) (w w1 : World)
    (hargs : ∀ a ∈ cmd.args, '\n' ∉ a)
    (h : (∃ v, cmd.run w = Result.ret v w1) ∨ (∃ status, cmd.run w = Result.exit status w1)) :
    ∃ extra, w1.events = w.events ++ extra ∧
      ∀ text, Event.stdout_write text ∈ extra →
        text.getLast? = some '\n' ∧ text.count '\n' = 1 := by
  by_cases hreq : [] ∈ cmd.required
  · obtain ⟨v, msg, hrun⟩ := run_local cmd w hreq
    rw [hrun] at h
    rcases h with ⟨v1, hv⟩ | ⟨s, hs⟩
    · injection hv with _ hw
      subst hw
      refine ⟨[Event.stderr_write msg], rfl, ?_⟩
      intro text ht
      simp at ht
    · exact Result.noConfusion hs
  · rw [run_eq cmd w hreq] at h
    obtain ⟨pre, bytes, post, hev, htp, htq, -⟩ := roundTrip_trace cmd w w1 h
    refine ⟨pre ++ [Event.stdout_write cmd.line] ++ [Event.stdin_read bytes] ++ post,
      by simp only [hev, List.append_assoc], ?_⟩
    intro text ht
    have hmem : Event.stdout_write text
        ∈ transport (pre ++ [Event.stdout_write cmd.line] ++ [Event.stdin_read bytes] ++ post) :=
      List.mem_filter.mpr ⟨ht, rfl⟩
    simp only [transport_append, htp, htq, List.nil_append, List.append_nil] at hmem
    have htext : text = cmd.line := by
      have e : transport [Event.stdout_write cmd.line] ++ transport [Event.stdin_read bytes]
          = [Event.stdout_write cmd.line, Event.stdin_read bytes] := rfl
      rw [e] at hmem
      simpa using hmem
    obtain ⟨body, hb, hnl⟩ := line_body cmd hargs
    rw [htext, hb]
    refine ⟨List.getLast?_concat _, ?_⟩
    rw [List.count_append, List.count_eq_zero_of_not_mem hnl]
    rfl

/-- Witness of C16: `gosub` with arguments, on the reply `200 result=0`. -/
theorem sent_line_is_one_line_witness :
    ((∀ a ∈ (Command.gosub "c".toList "e".toList "1".toList "x".toList).args, '\n' ∉ a) ∧
      ((∃ v, (Command.gosub "c".toList "e".toList "1".toList "x".toList).run
          ⟨"200 result=0\n".toList, []⟩
        = Result.ret v ⟨[], [Event.stdout_write "GOSUB c e 1 \"x\n".toList,
            Event.stdin_read "200 result=0\n".toList]⟩) ∨
      (∃ status, (Command.gosub "c".toList "e".toList "1".toList "x".toList).run
          ⟨"200 result=0\n".toList, []⟩
        = Result.exit status ⟨[], [Event.stdout_write "GOSUB c e 1 \"x\n".toList,
            Event.stdin_read "200 result=0\n".toList]⟩))) ∧
    ∃ extra, [Event.stdout_write "GOSUB c e 1 \"x\n".toList,
          Event.stdin_read "200 result=0\n".toList] = [] ++ extra ∧
      ∀ text, Event.stdout_write text ∈ extra →
        text.getLast? = some '\n' ∧ text.count '\n' = 1 :=
  ⟨⟨by decide, Or.inl ⟨Value.int 0, by decide⟩⟩,
    sent_line_is_one_line (Command.gosub "c".toList "e".toList "1".toList "x".toList)
      ⟨"200 result=0\n".toList, []⟩
      ⟨[], [Event.stdout_write "GOSUB c e 1 \"x\n".toList,
        Event.stdin_read "200 result=0\n".toList]⟩ (by decide)
      (Or.inl ⟨Value.int 0, by decide⟩)⟩

/-- C15. Structured commands return the decoded reply unchanged: `exec`, `get_data`,
`get_option`, `record_file`, `stream_file`, `control_stream_file`, `receive_char` and
`speech_recognize`, called with non-empty required arguments, return on a well-formed
reply line exactly the triple of status code, result token and data that `evaluate`
decodes from it, and consume that line only. -/
theorem structured_commands_return_reply (cmd : Command) (code label token : List Char)
    (data : Option (List Char)) (rest : List Char) (events : List Event)
    (hs : cmd.isStructured = true) (hreq : [] ∉ cmd.required)
    (hreply : WellFormedReply code label token data) :
    ∃ w1, cmd.run ⟨replyLine code label token data ++ rest, events⟩
        = Result.ret (Value.data ⟨code, token, data.getD []⟩) w1 ∧
      w1.stdin = rest := by
  rw [run_eq cmd _ hreq]
  obtain ⟨pre, hpre, -⟩ := before_trace cmd ⟨replyLine code label token data ++ rest, events⟩
  unfold Command.roundTrip
  rw [hpre, evaluate_replyLine _ _ _ _ _ _ _ hreply]
  cases cmd <;> simp only [Command.isStructured] at hs <;>
    first
      | exact ⟨_, rfl, rfl⟩
      | exact absurd hs (by decide)

/-- Witness of C15: `get_option` on the reply `200 result=49 endpos=160`. -/
theorem structured_commands_return_reply_witness :
    ((Command.get_option "beep".toList "12".toList []).isStructured = true ∧
      [] ∉ (Command.get_option "beep".toList "12".toList []).required ∧
      WellFormedReply "200".toList "result".toList "49".toList (some "endpos=160".toList)) ∧
    ∃ w1, (Command.get_option "beep".toList "12".toList []).run
          ⟨replyLine "200".toList "result".toList "49".toList (some "endpos=160".toList)
            ++ [], []⟩
        = Result.ret (Value.data ⟨"200".toList, "49".toList,
            (some "endpos=160".toList).getD []⟩) w1 ∧
      w1.stdin = [] :=
  ⟨by decide,
    structured_commands_return_reply (Command.get_option "beep".toList "12".toList [])
      "200".toList "result".toList "49".toList (some "endpos=160".toList) [] []
      (by decide) (by decide) (by decide)⟩

/-! ## Local rejection against engine answers -/

/-- C13. Local rejection of the `say_*` commands against the engine's answers: with
an empty required argument each of them returns the string `-1`, but with valid
arguments none of them returns `-1` on any well-formed reply line; on the engine's
failure reply, whose result token is `-1`, they return the empty string.  A caller
can therefore tell the local rejection from every engine answer. -/
theorem say_rejection_is_distinguishable (cmd : Command) (hsay : cmd.isSay = true) :
    ([] ∈ cmd.required → ∀ w : World, ∃ msg,
      cmd.run w = Result.ret (Value.str "-1".toList)
        ⟨w.stdin, w.events ++ [Event.stderr_write msg]⟩) ∧
    ([] ∉ cmd.required →
      ∀ (code label token : List Char) (data : Option (List Char)) (rest : List Char)
        (events : List Event), WellFormedReply code label token data →
        ∃ v w1, cmd.run ⟨replyLine code label token data ++ rest, events⟩
            = Result.ret (Value.str v) w1 ∧
          v ≠ "-1".toList ∧ (token = "-1".toList → v = [])) := by
  constructor
  · intro hreq w
    cases cmd <;> simp only [Command.isSay] at hsay <;>
      first
        | exact absurd hsay (by decide)
        | (simp only [Command.required, List.mem_cons, List.mem_singleton, List.not_mem_nil,
            or_false, eq_comm (a := ([] : List Char))] at hreq
           simp only [Command.run, say_alpha, say_digits, say_number, say_phonetic, say_date,
            say_time, say_datetime, print_debug, World.emit, Result.map]
           split_ifs <;>
             first
               | (exfalso; tauto)
               | exact ⟨_, rfl⟩)
  · intro hreq code label token data rest events hreply
    rw [run_eq cmd _ hreq]
    obtain ⟨pre, hpre, -⟩ := before_trace cmd
      ⟨replyLine code label token data ++ rest, events⟩
    unfold Command.roundTrip
    rw [hpre, evaluate_replyLine _ _ _ _ _ _ _ hreply]
    have hv : (if token = "-1".toList then [] else token) ≠ "-1".toList := by
      split_ifs with ht
      · decide
      · exact ht
    cases cmd <;> simp only [Command.isSay] at hsay <;>
      first
        | exact absurd hsay (by decide)
        | exact ⟨_, _, rfl, hv, fun ht => by simp [ht]⟩

/-- Witness of C13: `say_alpha` rejects empty letters with `-1` and answers the
engine's failure reply `200 result=-1` with the empty string. -/
theorem say_rejection_is_distinguishable_witness :
    ((Command.say_alpha [] "1".toList).isSay = true ∧
      [] ∈ (Command.say_alpha [] "1".toList).required ∧
      [] ∉ (Command.say_alpha "abc".toList "1".toList).required ∧
      WellFormedReply "200".toList "result".toList "-1".toList none) ∧
    (∃ msg, (Command.say_alpha [] "1".toList).run ⟨"200 result=-1\n".toList, []⟩
      = Result.ret (Value.str "-1".toList)
          ⟨"200 result=-1\n".toList, [] ++ [Event.stderr_write msg]⟩) ∧
    (Command.say_alpha "abc".toList "1".toList).run ⟨"200 result=-1\n".toList, []⟩
      = Result.ret (Value.str [])
          ⟨[], [Event.stdout_write "SAY ALPHA abc 1\n".toList,
            Event.stdin_read "200 result=-1\n".toList]⟩ :=
  ⟨by decide,
    (say_rejection_is_distinguishable (Command.say_alpha [] "1".toList) (by decide)).1
      (by decide) ⟨"200 result=-1\n".toList, []⟩,
    by decide⟩

/-! ## Lines of single commands -/

/-- The line that `get_data` sends. -/
theorem get_data_eq (file timeout maxdigits : List Char) (w : World) (hfile : file ≠ []) :
    get_data file timeout maxdigits w
      = evaluate ("GET DATA ".toList ++ file ++ " ".toList
          ++ (if timeout = [] then [] else _DEFAULT_TIMEOUT)
          ++ (if maxdigits = [] then [] else " ".toList ++ maxdigits) ++ "\n".toList) w := by
  by_cases ht : timeout = [] <;> by_cases hm : maxdigits = [] <;>
    simp [get_data, hfile, ht, hm, evaluate_cmd, format_str_eq, _DEFAULT_TIMEOUT]

/-- The line that `stream_file` sends. -/
theorem stream_file_eq (file escape_digits sample_offset : List Char) (w : World)
    (hfile : file ≠ []) :
    stream_file file escape_digits sample_offset w
      = evaluate ("STREAM FILE ".toList ++ file ++ " ".toList
          ++ (if escape_digits = [] then "\"\"".toList else escape_digits)
          ++ (if escape_digits = [] then optArg sample_offset else []) ++ "\n".toList) w := by
  by_cases hd : escape_digits = [] <;> by_cases ho : sample_offset = [] <;>
    simp [stream_file, hfile, hd, ho, evaluate_cmd, format_str_eq, optArg]

/-- The line that `control_stream_file` sends. -/
theorem control_stream_file_eq (file escape_digits skipms ffchar rewchr pausechr : List Char)
    (w : World) (hfile : file ≠ []) :
    control_stream_file file escape_digits skipms ffchar rewchr pausechr w
      = evaluate ("CONTROL STREAM FILE ".toList ++ file ++ " ".toList
          ++ (if escape_digits = [] then "\"\"".toList else escape_digits)
          ++ (if skipms = [] then []
              else ' ' :: skipms
                ++ (if ffchar = [] then []
                    else ' ' :: ffchar
                      ++ (if rewchr = [] then [] else ' ' :: rewchr ++ optArg pausechr)))
          ++ "\n".toList) w := by
  by_cases hd : escape_digits = [] <;> by_cases h1 : skipms = [] <;>
    by_cases h2 : ffchar = [] <;> by_cases h3 : rewchr = [] <;>
    by_cases h4 : pausechr = [] <;>
    simp [control_stream_file, hfile, hd, h1, h2, h3, h4, evaluate_cmd, format_str_eq, optArg]

/-- C17. Dangling separators: `get_data` called without a timeout sends a line with a
space immediately before the terminating newline, and, with `maxdigits` given, a line
with two adjacent spaces; the omitted timeout does contribute its separator. -/
theorem get_data_dangling_separator (file maxdigits : List Char) (w : World)
    (hfile : file ≠ []) :
    get_data file [] [] w = evaluate ("GET DATA ".toList ++ file ++ " \n".toList) w ∧
    (maxdigits ≠ [] →
      get_data file [] maxdigits w
        = evaluate ("GET DATA ".toList ++ file ++ "  ".toList ++ maxdigits ++ "\n".toList) w) := by
  constructor
  · rw [get_data_eq _ _ _ _ hfile]
    simp
  · intro hm
    rw [get_data_eq _ _ _ _ hfile]
    simp [hm]

/-- Witness of C17: `get_data` of `beep` without timeout writes `GET DATA beep ` and a
newline. -/
theorem get_data_dangling_separator_witness :
    ("beep".toList ≠ [] ∧ "4".toList ≠ []) ∧
    get_data "beep".toList [] [] ⟨"200 result=12\n".toList, []⟩
      = Result.ret ⟨"200".toList, "12".toList, []⟩
          ⟨[], [Event.stdout_write "GET DATA beep \n".toList,
            Event.stdin_read "200 result=12\n".toList]⟩ ∧
    get_data "beep".toList [] "4".toList ⟨"200 result=12\n".toList, []⟩
      = Result.ret ⟨"200".toList, "12".toList, []⟩
          ⟨[], [Event.stdout_write "GET DATA beep  4\n".toList,
            Event.stdin_read "200 result=12\n".toList]⟩ :=
  ⟨by decide,
    ((get_data_dangling_separator "beep".toList "4".toList ⟨"200 result=12\n".toList, []⟩
      (by decide)).1).trans (by decide),
    ((get_data_dangling_separator "beep".toList "4".toList ⟨"200 result=12\n".toList, []⟩
      (by decide)).2 (by decide)).trans (by decide)⟩

/-- C18. The timeout of `get_data`: for a non-empty file, `get_data` sends
`"GET DATA " ++ file ++ " " ++ t ++ m ++ "\n"` where `m` is a space and `maxdigits`
when that is given and empty otherwise, and where `t` is `_DEFAULT_TIMEOUT` when the
caller gives a timeout and the (empty) timeout argument when the caller gives none:
the test on the argument is inverted, the caller's timeout is never sent. -/
theorem get_data_timeout_inverted (file timeout maxdigits : List Char) (w : World)
    (hfile : file ≠ []) :
    (timeout ≠ [] →
      get_data file timeout maxdigits w
        = evaluate ("GET DATA ".toList ++ file ++ " ".toList ++ _DEFAULT_TIMEOUT
            ++ (if maxdigits = [] then [] else " ".toList ++ maxdigits) ++ "\n".toList) w) ∧
    (timeout = [] →
      get_data file timeout maxdigits w
        = evaluate ("GET DATA ".toList ++ file ++ " ".toList
            ++ (if maxdigits = [] then [] else " ".toList ++ maxdigits) ++ "\n".toList) w) := by
  constructor <;> intro ht <;> rw [get_data_eq _ _ _ _ hfile] <;> simp [ht]

/-- Witness of C18: `get_data` of `beep` with the timeout `5000` sends the timeout
`2000`. -/
theorem get_data_timeout_inverted_witness :
    ("beep".toList ≠ [] ∧ "5000".toList ≠ []) ∧
    get_data "beep".toList "5000".toList [] ⟨"200 result=12\n".toList, []⟩
      = Result.ret ⟨"200".toList, "12".toList, []⟩
          ⟨[], [Event.stdout_write "GET DATA beep 2000\n".toList,
            Event.stdin_read "200 result=12\n".toList]⟩ :=
  ⟨by decide,
    ((get_data_timeout_inverted "beep".toList "5000".toList []
      ⟨"200 result=12\n".toList, []⟩ (by decide)).1 (by decide)).trans (by decide)⟩

/-- C19. The sample offset of `stream_file`: for a non-empty file and non-empty escape
digits, `stream_file` sends `"STREAM FILE " ++ file ++ " " ++ escape_digits ++ "\n"`
whatever the sample offset, which is dropped; the offset is sent, after the literal
`""`, only when the escape digits are empty. -/
theorem stream_file_drops_sample_offset (file escape_digits sample_offset : List Char)
    (w : World) (hfile : file ≠ []) :
    (escape_digits ≠ [] →
      stream_file file escape_digits sample_offset w
        = evaluate ("STREAM FILE ".toList ++ file ++ " ".toList ++ escape_digits
            ++ "\n".toList) w) ∧
    (escape_digits = [] → sample_offset ≠ [] →
      stream_file file escape_digits sample_offset w
        = evaluate ("STREAM FILE ".toList ++ file ++ " \"\" ".toList ++ sample_offset
            ++ "\n".toList) w) := by
  constructor
  · intro hd
    rw [stream_file_eq _ _ _ _ hfile]
    simp [hd]
  · intro hd ho
    rw [stream_file_eq _ _ _ _ hfile]
    simp [hd, ho, optArg]

/-- Witness of C19: `stream_file` of `hello` with digits `123` and offset `8000` sends
no offset. -/
theorem stream_file_drops_sample_offset_witness :
    ("hello".toList ≠ [] ∧ "123".toList ≠ []) ∧
    stream_file "hello".toList "123".toList "8000".toList
        ⟨"200 result=0 endpos=100\n".toList, []⟩
      = Result.ret ⟨"200".toList, "0".toList, "endpos=100".toList⟩
          ⟨[], [Event.stdout_write "STREAM FILE hello 123\n".toList,
            Event.stdin_read "200 result=0 endpos=100\n".toList]⟩ :=
  ⟨by decide,
    ((stream_file_drops_sample_offset "hello".toList "123".toList "8000".toList
      ⟨"200 result=0 endpos=100\n".toList, []⟩ (by decide)).1 (by decide)).trans
      (by decide)⟩

/-- C20. An empty digit set is sent as literal double quotes: for a non-empty file,
`stream_file file "" ""` sends `"STREAM FILE " ++ file ++ " \"\"\n"` and
`control_stream_file file "" "" ...` sends `"CONTROL STREAM FILE " ++ file ++ " \"\"\n"`;
in general both put, right after the file and one space, the two-character literal
`""` when the escape digits are empty and the escape digits verbatim otherwise. -/
theorem empty_digit_set_is_quoted (file escape_digits sample_offset skipms ffchar rewchr
    pausechr : List Char) (w : World) (hfile : file ≠ []) :
    stream_file file [] [] w
      = evaluate ("STREAM FILE ".toList ++ file ++ " \"\"\n".toList) w ∧
    control_stream_file file [] [] ffchar rewchr pausechr w
      = evaluate ("CONTROL STREAM FILE ".toList ++ file ++ " \"\"\n".toList) w ∧
    stream_file file escape_digits sample_offset w
      = evaluate ("STREAM FILE ".toList ++ file ++ " ".toList
          ++ (if escape_digits = [] then "\"\"".toList else escape_digits)
          ++ (if escape_digits = [] then optArg sample_offset else []) ++ "\n".toList) w ∧
    control_stream_file file escape_digits skipms ffchar rewchr pausechr w
      = evaluate ("CONTROL STREAM FILE ".toList ++ file ++ " ".toList
          ++ (if escape_digits = [] then "\"\"".toList else escape_digits)
          ++ (if skipms = [] then []
              else ' ' :: skipms
                ++ (if ffchar = [] then []
                    else ' ' :: ffchar
                      ++ (if rewchr = [] then [] else ' ' :: rewchr ++ optArg pausechr)))
          ++ "\n".toList) w := by
  refine ⟨?_, ?_, stream_file_eq _ _ _ _ hfile, control_stream_file_eq _ _ _ _ _ _ _ hfile⟩
  · rw [stream_file_eq _ _ _ _ hfile]
    simp [optArg]
  · rw [control_stream_file_eq _ _ _ _ _ _ _ hfile]
    simp

/-- Witness of C20: `stream_file` and `control_stream_file` of `hello` without
digits. -/
theorem empty_digit_set_is_quoted_witness :
    "hello".toList ≠ [] ∧
    stream_file "hello".toList [] [] ⟨"200 result=0 endpos=100\n".toList, []⟩
      = Result.ret ⟨"200".toList, "0".toList, "endpos=100".toList⟩
          ⟨[], [Event.stdout_write "STREAM FILE hello \"\"\n".toList,
            Event.stdin_read "200 result=0 endpos=100\n".toList]⟩ ∧
    control_stream_file "hello".toList [] [] [] [] [] ⟨"200 result=0 endpos=100\n".toList, []⟩
      = Result.ret ⟨"200".toList, "0".toList, "endpos=100".toList⟩
          ⟨[], [Event.stdout_write "CONTROL STREAM FILE hello \"\"\n".toList,
            Event.stdin_read "200 result=0 endpos=100\n".toList]⟩ :=
  ⟨by decide,
    ((empty_digit_set_is_quoted "hello".toList [] [] [] [] [] []
      ⟨"200 result=0 endpos=100\n".toList, []⟩ (by decide)).1).trans (by decide),
    ((empty_digit_set_is_quoted "hello".toList [] [] [] [] [] []
      ⟨"200 result=0 endpos=100\n".toList, []⟩ (by decide)).2.1).trans (by decide)⟩

/-! ## Values returned on a well-formed reply -/

/-- A call none of whose required arguments is empty, on a well-formed reply line: the
line is consumed and the value returned is `Command.finish` of the decoded triple. -/
theorem run_replyLine (cmd : Command) (code label token : List Char)
    (data : Option (List Char)) (rest : List Char) (events : List Event)
    (hreq : [] ∉ cmd.required) (hreply : WellFormedReply code label token data) :
    ∃ w1, w1.stdin = rest ∧
      cmd.run ⟨replyLine code label token data ++ rest, events⟩
        = match cmd.finish ⟨code, token, data.getD []⟩ with
          | none => Result.undefined
          | some v => Result.ret v w1 := by
  rw [run_eq cmd _ hreq]
  obtain ⟨pre, hpre, -⟩ := before_trace cmd ⟨replyLine code label token data ++ rest, events⟩
  unfold Command.roundTrip
  rw [hpre, evaluate_replyLine _ _ _ _ _ _ _ hreply]
  exact ⟨_, rfl, rfl⟩

theorem map_int_ret (r : Result Int) (n : Int) (w : World)
    (h : r.map Value.int = Result.ret (Value.int n) w) : r = Result.ret n w := by
  cases r with
  | ret v w0 =>
    simp only [Result.map, Result.ret.injEq, Value.int.injEq] at h
    rw [h.1, h.2]
  | exit s w0 => exact Result.noConfusion h
  | undefined => exact Result.noConfusion h

theorem map_str_ret (r : Result (List Char)) (s : List Char) (w : World)
    (h : r.map Value.str = Result.ret (Value.str s) w) : r = Result.ret s w := by
  cases r with
  | ret v w0 =>
    simp only [Result.map, Result.ret.injEq, Value.str.injEq] at h
    rw [h.1, h.2]
  | exit s w0 => exact Result.noConfusion h
  | undefined => exact Result.noConfusion h

/-- C21. Result strings of the `say_*` commands: called with non-empty required
arguments, each of them returns on a well-formed reply line the result token itself
(so `0` for the token `0` and the digit pressed for a digit), except for the failure
token `-1`, for which the empty string is returned and not the string `-1`. -/
theorem say_result_strings (cmd : Command) (code label token : List Char)
    (data : Option (List Char)) (rest : List Char) (events : List Event)
    (hsay : cmd.isSay = true) (hreq : [] ∉ cmd.required)
    (hreply : WellFormedReply code label token data) :
    ∃ w1, w1.stdin = rest ∧
      cmd.run ⟨replyLine code label token data ++ rest, events⟩
        = Result.ret (Value.str (if token = "-1".toList then [] else token)) w1 := by
  obtain ⟨w1, hw, hrun⟩ := run_replyLine cmd code label token data rest events hreq hreply
  refine ⟨w1, hw, ?_⟩
  rw [hrun]
  cases cmd <;> simp only [Command.isSay] at hsay <;>
    first
      | exact absurd hsay (by decide)
      | rfl

/-- Witness of C21: `say_date` answers the failure reply `200 result=-1` with the empty
string, the reply `200 result=0` with `0` and the reply `200 result=49` with `49`. -/
theorem say_result_strings_witness :
    ((Command.say_date "1250000000".toList "#".toList).isSay = true ∧
      [] ∉ (Command.say_date "1250000000".toList "#".toList).required ∧
      WellFormedReply "200".toList "result".toList "-1".toList none) ∧
    (∃ w1, w1.stdin = [] ∧
      (Command.say_date "1250000000".toList "#".toList).run
          ⟨replyLine "200".toList "result".toList "-1".toList none ++ [], []⟩
        = Result.ret (Value.str (if "-1".toList = "-1".toList then [] else "-1".toList)) w1) ∧
    say_date "1250000000".toList "#".toList ⟨"200 result=-1\n".toList, []⟩
      = Result.ret []
          ⟨[], [Event.stdout_write "SAY DATE 1250000000 #\n".toList,
            Event.stdin_read "200 result=-1\n".toList]⟩ ∧
    say_date "1250000000".toList "#".toList ⟨"200 result=0\n".toList, []⟩
      = Result.ret "0".toList
          ⟨[], [Event.stdout_write "SAY DATE 1250000000 #\n".toList,
            Event.stdin_read "200 result=0\n".toList]⟩ ∧
    say_date "1250000000".toList "#".toList ⟨"200 result=49\n".toList, []⟩
      = Result.ret "49".toList
          ⟨[], [Event.stdout_write "SAY DATE 1250000000 #\n".toList,
            Event.stdin_read "200 result=49\n".toList]⟩ :=
  ⟨by decide,
    say_result_strings (Command.say_date "1250000000".toList "#".toList)
      "200".toList "result".toList "-1".toList none [] [] (by decide) (by decide) (by decide),
    by decide, by decide, by decide⟩

/-- C22. The string returned by `receive_text`: for every timeout and every well-formed
reply line, `receive_text` returns the result token of the reply, whatever the data
field carries, and the empty string when the token is `-1`.  On the success reply
`200 result=1 (hello)` it returns `1`, not the text received. -/
theorem receive_text_returns_token (timeout code label token : List Char)
    (data : Option (List Char)) (rest : List Char) (events : List Event)
    (hreply : WellFormedReply code label token data) :
    ∃ w1, w1.stdin = rest ∧
      receive_text timeout ⟨replyLine code label token data ++ rest, events⟩
        = Result.ret (if token = "-1".toList then [] else token) w1 := by
  obtain ⟨w1, hw, hrun⟩ := run_replyLine (Command.receive_text timeout) code label token data
    rest events (by simp [Command.required]) hreply
  exact ⟨w1, hw, map_str_ret _ _ _ hrun⟩

/-- Witness of C22: the reply `200 result=1 (hello)`. -/
theorem receive_text_returns_token_witness :
    WellFormedReply "200".toList "result".toList "1".toList (some "(hello)".toList) ∧
    (∃ w1, w1.stdin = [] ∧
      receive_text []
          ⟨replyLine "200".toList "result".toList "1".toList (some "(hello)".toList) ++ [], []⟩
        = Result.ret (if "1".toList = "-1".toList then [] else "1".toList) w1) ∧
    receive_text [] ⟨"200 result=1 (hello)\n".toList, []⟩
      = Result.ret "1".toList
          ⟨[], [Event.stdout_write "RECEIVE TEXT 2000\n".toList,
            Event.stdin_read "200 result=1 (hello)\n".toList]⟩ ∧
    receive_text "500".toList ⟨"200 result=-1\n".toList, []⟩
      = Result.ret []
          ⟨[], [Event.stdout_write "RECEIVE TEXT 500\n".toList,
            Event.stdin_read "200 result=-1\n".toList]⟩ :=
  ⟨by decide,
    receive_text_returns_token [] "200".toList "result".toList "1".toList
      (some "(hello)".toList) [] [] (by decide),
    by decide, by decide⟩

/-! ## Decimal literals -/

theorem decimalValue_cons (c : Char) (ds : List Char) :
    decimalValue (c :: ds) = (c.toNat - '0'.toNat) * 10 ^ ds.length + decimalValue ds := by
  simp only [decimalValue, List.reverse_cons, List.map_append, List.map_cons, List.map_nil,
    Nat.ofDigits_append, Nat.ofDigits_singleton, List.length_map, List.length_reverse]
  ring

theorem atoi_digits_eq (ds : List Char) (acc : Nat) (h : ∀ c ∈ ds, c.isDigit = true) :
    atoi_digits ds acc = acc * 10 ^ ds.length + decimalValue ds := by
  induction ds generalizing acc with
  | nil => simp [atoi_digits, decimalValue]
  | cons c ds ih =>
    have hc : c.isDigit = true := h c (by simp)
    rw [atoi_digits, if_pos hc, ih _ (fun x hx => h x (by simp [hx])), decimalValue_cons,
      List.length_cons]
    ring

theorem isDigit_not_isspace (c : Char) (h : c.isDigit = true) : isspace c = false := by
  cases hs : isspace c with
  | false => rfl
  | true =>
    exfalso
    simp only [isspace, Bool.or_eq_true, decide_eq_true_eq] at hs
    rcases hs with ((((rfl | rfl) | rfl) | rfl) | rfl) | rfl <;> exact absurd h (by decide)

/-- The model of `atoi` on a decimal literal without sign. -/
theorem atoi_literal (ds : List Char) (hne : ds ≠ []) (h : ∀ c ∈ ds, c.isDigit = true)
    (hfit : decimalValue ds ≤ 2147483647) : atoi ds = some (decimalValue ds : Int) := by
  obtain ⟨c, t, rfl⟩ := List.exists_cons_of_ne_nil hne
  have hc : c.isDigit = true := h c (by simp)
  have hsp : (c :: t).dropWhile isspace = c :: t := by
    simp [List.dropWhile, isDigit_not_isspace c hc]
  have hm : c ≠ '-' := fun e => absurd (e ▸ hc) (by decide)
  have hp : c ≠ '+' := fun e => absurd (e ▸ hc) (by decide)
  have hv := atoi_digits_eq (c :: t) 0 h
  simp only [Nat.zero_mul, Nat.zero_add] at hv
  unfold atoi
  simp only [hsp]
  split_ifs with hcond
  · congr 1
    split
    · rename_i heq
      exact absurd (List.cons.inj heq).1 hm
    · rename_i heq
      exact absurd (List.cons.inj heq).1 hp
    · rw [hv]
  · exfalso
    apply hcond
    split
    · rename_i heq
      exact absurd (List.cons.inj heq).1 hm
    · rename_i heq
      exact absurd (List.cons.inj heq).1 hp
    · rw [hv]
      omega

/-- The model of `atoi` on a decimal literal with a sign. -/
theorem atoi_signed (ds : List Char) (h : ∀ c ∈ ds, c.isDigit = true) :
    (decimalValue ds ≤ 2147483648 → atoi ('-' :: ds) = some (-(decimalValue ds : Int))) ∧
    (decimalValue ds ≤ 2147483647 → atoi ('+' :: ds) = some (decimalValue ds : Int)) := by
  have hv := atoi_digits_eq ds 0 h
  simp only [Nat.zero_mul, Nat.zero_add] at hv
  have hm : ('-' :: ds).dropWhile isspace = '-' :: ds := by
    simp [List.dropWhile, show isspace '-' = false by decide]
  have hp : ('+' :: ds).dropWhile isspace = '+' :: ds := by
    simp [List.dropWhile, show isspace '+' = false by decide]
  constructor
  · intro hfit
    unfold atoi
    simp only [hm, hv]
    rw [if_pos]
    omega
  · intro hfit
    unfold atoi
    simp only [hp, hv]
    rw [if_pos]
    omega

/-- C23. The number returned by `wait_for_digit`: for every non-empty timeout and every
well-formed reply line, `wait_for_digit` returns 0 when the result token is `0`, -1
when it is `-1`, and for a token that is a decimal integer literal in the range of
`int`, with or without sign, the integer that the literal denotes (49 for the token
`49`, the code of the key `1`). -/
theorem wait_for_digit_numeric (timeout code label token : List Char)
    (data : Option (List Char)) (rest : List Char) (events : List Event)
    (htimeout : timeout ≠ []) (hreply : WellFormedReply code label token data) :
    ∃ w1, w1.stdin = rest ∧
      (token = "0".toList →
        wait_for_digit timeout ⟨replyLine code label token data ++ rest, events⟩
          = Result.ret 0 w1) ∧
      (token = "-1".toList →
        wait_for_digit timeout ⟨replyLine code label token data ++ rest, events⟩
          = Result.ret (-1) w1) ∧
      (∀ ds : List Char, ds ≠ [] → (∀ c ∈ ds, c.isDigit = true) →
        (token = ds → decimalValue ds ≤ 2147483647 →
          wait_for_digit timeout ⟨replyLine code label token data ++ rest, events⟩
            = Result.ret (decimalValue ds : Int) w1) ∧
        (token = '-' :: ds → decimalValue ds ≤ 2147483648 →
          wait_for_digit timeout ⟨replyLine code label token data ++ rest, events⟩
            = Result.ret (-(decimalValue ds : Int)) w1) ∧
        (token = '+' :: ds → decimalValue ds ≤ 2147483647 →
          wait_for_digit timeout ⟨replyLine code label token data ++ rest, events⟩
            = Result.ret (decimalValue ds : Int) w1)) := by
  obtain ⟨w1, hw, hrun⟩ := run_replyLine (Command.wait_for_digit timeout) code label token
    data rest events (by simpa [Command.required] using Ne.symm htimeout) hreply
  have key : ∀ n : Int,
      (Command.wait_for_digit timeout).finish ⟨code, token, data.getD []⟩ = some (Value.int n) →
      wait_for_digit timeout ⟨replyLine code label token data ++ rest, events⟩
        = Result.ret n w1 := by
    intro n hn
    rw [hn] at hrun
    exact map_int_ret _ _ _ hrun
  refine ⟨w1, hw, ?_, ?_, ?_⟩
  · intro ht
    exact key 0 (by simp [Command.finish, ht])
  · intro ht
    exact key (-1) (by subst ht; rfl)
  · intro ds hne hds
    have zero : token = "0".toList → ds = token → (decimalValue ds : Int) = 0 := by
      intro h0 hd
      rw [hd, h0]
      rfl
    refine ⟨?_, ?_, ?_⟩
    · intro ht hfit
      apply key
      simp only [Command.finish]
      split_ifs with h0 h1
      · rw [zero h0 ht.symm]
      · exfalso
        have : '-' ∈ ds := by rw [← ht, h1]; decide
        exact absurd (hds _ this) (by decide)
      · rw [ht, atoi_literal ds hne hds hfit]
        rfl
    · intro ht hfit
      apply key
      simp only [Command.finish]
      split_ifs with h0 h1
      · rw [ht] at h0
        exact absurd (List.cons.inj h0).1 (by decide)
      · have hd : ds = "1".toList := by
          rw [ht] at h1
          exact (List.cons.inj h1).2
        rw [hd]
        rfl
      · rw [ht, (atoi_signed ds hds).1 hfit]
        rfl
    · intro ht hfit
      apply key
      simp only [Command.finish]
      split_ifs with h0 h1
      · rw [ht] at h0
        exact absurd (List.cons.inj h0).1 (by decide)
      · rw [ht] at h1
        exact absurd (List.cons.inj h1).1 (by decide)
      · rw [ht, (atoi_signed ds hds).2 hfit]
        rfl

/-- Witness of C23: the replies `200 result=49`, `200 result=0` and `200 result=-1`. -/
theorem wait_for_digit_numeric_witness :
    ("5000".toList ≠ [] ∧ WellFormedReply "200".toList "result".toList "49".toList none ∧
      decimalValue "49".toList = 49) ∧
    (∃ w1, w1.stdin = [] ∧
      ("49".toList = "0".toList →
        wait_for_digit "5000".toList
            ⟨replyLine "200".toList "result".toList "49".toList none ++ [], []⟩
          = Result.ret 0 w1) ∧
      ("49".toList = "-1".toList →
        wait_for_digit "5000".toList
            ⟨replyLine "200".toList "result".toList "49".toList none ++ [], []⟩
          = Result.ret (-1) w1) ∧
      (∀ ds : List Char, ds ≠ [] → (∀ c ∈ ds, c.isDigit = true) →
        ("49".toList = ds → decimalValue ds ≤ 2147483647 →
          wait_for_digit "5000".toList
              ⟨replyLine "200".toList "result".toList "49".toList none ++ [], []⟩
            = Result.ret (decimalValue ds : Int) w1) ∧
        ("49".toList = '-' :: ds → decimalValue ds ≤ 2147483648 →
          wait_for_digit "5000".toList
              ⟨replyLine "200".toList "result".toList "49".toList none ++ [], []⟩
            = Result.ret (-(decimalValue ds : Int)) w1) ∧
        ("49".toList = '+' :: ds → decimalValue ds ≤ 2147483647 →
          wait_for_digit "5000".toList
              ⟨replyLine "200".toList "result".toList "49".toList none ++ [], []⟩
            = Result.ret (decimalValue ds : Int) w1))) ∧
    wait_for_digit "5000".toList ⟨"200 result=49\n".toList, []⟩
      = Result.ret 49
          ⟨[], [Event.stdout_write "WAIT FOR DIGIT 5000\n".toList,
            Event.stdin_read "200 result=49\n".toList]⟩ ∧
    wait_for_digit "5000".toList ⟨"200 result=0\n".toList, []⟩
      = Result.ret 0
          ⟨[], [Event.stdout_write "WAIT FOR DIGIT 5000\n".toList,
            Event.stdin_read "200 result=0\n".toList]⟩ ∧
    wait_for_digit "5000".toList ⟨"200 result=-1\n".toList, []⟩
      = Result.ret (-1)
          ⟨[], [Event.stdout_write "WAIT FOR DIGIT 5000\n".toList,
            Event.stdin_read "200 result=-1\n".toList]⟩ :=
  ⟨by decide,
    wait_for_digit_numeric "5000".toList "200".toList "result".toList "49".toList none [] []
      (by decide) (by decide),
    by decide, by decide, by decide⟩

/-! ## Status tables -/

/-- C24. Status lookup table of the boolean commands: called with non-empty required
arguments on a well-formed reply line with result token `t`, compared as an exact
string, `database_del`, `database_deltree` and `database_put` return 1 if `t` is `1` and
0 otherwise; `answer` returns -1 if `t` is `-1` and 0 otherwise; `hangup` returns 1 if
`t` is `1` and -1 otherwise; `send_image` and `send_text` return 0 if `t` is `0` and -1
otherwise; `tdd_mode` returns 1 if `t` is `1`, 0 if `t` is `0` and -1 otherwise. -/
theorem status_lookup_table (a b c code label token : List Char)
    (data : Option (List Char)) (rest : List Char) (events : List Event)
    (hreply : WellFormedReply code label token data) :
    (a ≠ [] → b ≠ [] → ∃ w1, w1.stdin = rest ∧
      database_del a b ⟨replyLine code label token data ++ rest, events⟩
        = Result.ret (if token = "1".toList then 1 else 0) w1) ∧
    (a ≠ [] → ∃ w1, w1.stdin = rest ∧
      database_deltree a b ⟨replyLine code label token data ++ rest, events⟩
        = Result.ret (if token = "1".toList then 1 else 0) w1) ∧
    (a ≠ [] → b ≠ [] → c ≠ [] → ∃ w1, w1.stdin = rest ∧
      database_put a b c ⟨replyLine code label token data ++ rest, events⟩
        = Result.ret (if token = "1".toList then 1 else 0) w1) ∧
    (∃ w1, w1.stdin = rest ∧
      answer ⟨replyLine code label token data ++ rest, events⟩
        = Result.ret (if token = "-1".toList then -1 else 0) w1) ∧
    (∃ w1, w1.stdin = rest ∧
      hangup a ⟨replyLine code label token data ++ rest, events⟩
        = Result.ret (if token = "1".toList then 1 else -1) w1) ∧
    (a ≠ [] → ∃ w1, w1.stdin = rest ∧
      send_image a ⟨replyLine code label token data ++ rest, events⟩
        = Result.ret (if token = "0".toList then 0 else -1) w1) ∧
    (a ≠ [] → ∃ w1, w1.stdin = rest ∧
      send_text a ⟨replyLine code label token data ++ rest, events⟩
        = Result.ret (if token = "0".toList then 0 else -1) w1) ∧
    (a ≠ [] → ∃ w1, w1.stdin = rest ∧
      tdd_mode a ⟨replyLine code label token data ++ rest, events⟩
        = Result.ret
            (if token = "1".toList then 1 else if token = "0".toList then 0 else -1) w1) := by
  refine ⟨?_, ?_, ?_, ?_, ?_, ?_, ?_, ?_⟩
  · intro ha hb
    obtain ⟨w1, hw, hrun⟩ := run_replyLine (Command.database_del a b) code label token data
      rest events (by simp [Command.required, ha, hb]) hreply
    exact ⟨w1, hw, map_int_ret _ _ _ hrun⟩
  · intro ha
    obtain ⟨w1, hw, hrun⟩ := run_replyLine (Command.database_deltree a b) code label token data
      rest events (by simp [Command.required, ha]) hreply
    exact ⟨w1, hw, map_int_ret _ _ _ hrun⟩
  · intro ha hb hc
    obtain ⟨w1, hw, hrun⟩ := run_replyLine (Command.database_put a b c) code label token data
      rest events (by simp [Command.required, ha, hb, hc]) hreply
    exact ⟨w1, hw, map_int_ret _ _ _ hrun⟩
  · obtain ⟨w1, hw, hrun⟩ := run_replyLine Command.answer code label token data
      rest events (by simp [Command.required]) hreply
    exact ⟨w1, hw, map_int_ret _ _ _ hrun⟩
  · obtain ⟨w1, hw, hrun⟩ := run_replyLine (Command.hangup a) code label token data
      rest events (by simp [Command.required]) hreply
    exact ⟨w1, hw, map_int_ret _ _ _ hrun⟩
  · intro ha
    obtain ⟨w1, hw, hrun⟩ := run_replyLine (Command.send_image a) code label token data
      rest events (by simp [Command.required, ha]) hreply
    exact ⟨w1, hw, map_int_ret _ _ _ hrun⟩
  · intro ha
    obtain ⟨w1, hw, hrun⟩ := run_replyLine (Command.send_text a) code label token data
      rest events (by simp [Command.required, ha]) hreply
    exact ⟨w1, hw, map_int_ret _ _ _ hrun⟩
  · intro ha
    obtain ⟨w1, hw, hrun⟩ := run_replyLine (Command.tdd_mode a) code label token data
      rest events (by simp [Command.required, ha]) hreply
    exact ⟨w1, hw, map_int_ret _ _ _ hrun⟩

/-- Witness of C24: `tdd_mode` on the replies `200 result=1`, `200 result=0` and
`200 result=5`, `hangup` on the reply `200 result=0`. -/
theorem status_lookup_table_witness :
    (WellFormedReply "200".toList "result".toList "5".toList none ∧ "on".toList ≠ []) ∧
    (∃ w1, w1.stdin = [] ∧
      tdd_mode "on".toList ⟨replyLine "200".toList "result".toList "5".toList none ++ [], []⟩
        = Result.ret
            (if "5".toList = "1".toList then 1 else if "5".toList = "0".toList then 0 else -1)
            w1) ∧
    tdd_mode "on".toList ⟨"200 result=5\n".toList, []⟩
      = Result.ret (-1)
          ⟨[], [Event.stdout_write "TDD MODE on\n".toList,
            Event.stdin_read "200 result=5\n".toList]⟩ ∧
    tdd_mode "on".toList ⟨"200 result=1\n".toList, []⟩
      = Result.ret 1
          ⟨[], [Event.stdout_write "TDD MODE on\n".toList,
            Event.stdin_read "200 result=1\n".toList]⟩ ∧
    tdd_mode "on".toList ⟨"200 result=0\n".toList, []⟩
      = Result.ret 0
          ⟨[], [Event.stdout_write "TDD MODE on\n".toList,
            Event.stdin_read "200 result=0\n".toList]⟩ ∧
    hangup [] ⟨"200 result=0\n".toList, []⟩
      = Result.ret (-1)
          ⟨[], [Event.stdout_write "HANGUP\n".toList,
            Event.stdin_read "200 result=0\n".toList]⟩ :=
  ⟨by decide,
    (status_lookup_table "on".toList [] [] "200".toList "result".toList "5".toList none [] []
      (by decide)).2.2.2.2.2.2.2 (by decide),
    by decide, by decide, by decide, by decide⟩

/-- C29. The commands that report no failure: for all arguments, empty ones included,
and every well-formed reply line, `noop`, `set_autohangup`, `set_context`,
`set_extension`, `set_music` and `set_priority` return 0 and `set_callerid`,
`set_variable` and `verbose` return 1, whatever the result token of the reply. -/
theorem never_fail_constants (a b code label token : List Char)
    (data : Option (List Char)) (rest : List Char) (events : List Event)
    (hreply : WellFormedReply code label token data) :
    (∃ w1, noop a ⟨replyLine code label token data ++ rest, events⟩ = Result.ret 0 w1) ∧
    (∃ w1, set_autohangup a ⟨replyLine code label token data ++ rest, events⟩
      = Result.ret 0 w1) ∧
    (∃ w1, set_context a ⟨replyLine code label token data ++ rest, events⟩
      = Result.ret 0 w1) ∧
    (∃ w1, set_extension a ⟨replyLine code label token data ++ rest, events⟩
      = Result.ret 0 w1) ∧
    (∃ w1, set_music a b ⟨replyLine code label token data ++ rest, events⟩
      = Result.ret 0 w1) ∧
    (∃ w1, set_priority a ⟨replyLine code label token data ++ rest, events⟩
      = Result.ret 0 w1) ∧
    (∃ w1, set_callerid a ⟨replyLine code label token data ++ rest, events⟩
      = Result.ret 1 w1) ∧
    (∃ w1, set_variable a b ⟨replyLine code label token data ++ rest, events⟩
      = Result.ret 1 w1) ∧
    (∃ w1, verbose a b ⟨replyLine code label token data ++ rest, events⟩
      = Result.ret 1 w1) := by
  have key : ∀ (cmd : Command) (n : Int),
      (∀ d, cmd.finish d = some (Value.int n)) →
      ([] ∈ cmd.required →
        ∃ w1, cmd.run ⟨replyLine code label token data ++ rest, events⟩
          = Result.ret (Value.int n) w1) →
      ∃ w1, cmd.run ⟨replyLine code label token data ++ rest, events⟩
        = Result.ret (Value.int n) w1 := by
    intro cmd n hfin hloc
    by_cases hreq : [] ∈ cmd.required
    · exact hloc hreq
    · obtain ⟨w1, -, hrun⟩ := run_replyLine cmd code label token data rest events hreq hreply
      rw [hfin] at hrun
      exact ⟨w1, hrun⟩
  have one : ∀ x : List Char, [] ∈ [x] → x = [] := by
    intro x hx
    simpa [eq_comm] using hx
  have two : ∀ x y : List Char, [] ∈ [x, y] → x = [] ∨ y = [] := by
    intro x y hx
    simpa [eq_comm] using hx
  refine ⟨?_, ?_, ?_, ?_, ?_, ?_, ?_, ?_, ?_⟩
  · obtain ⟨w1, h⟩ := key (Command.noop a) 0 (fun _ => rfl)
      (fun hreq => absurd hreq (by simp [Command.required]))
    exact ⟨w1, map_int_ret _ _ _ h⟩
  · obtain ⟨w1, h⟩ := key (Command.set_autohangup a) 0 (fun _ => rfl)
      (fun hreq => by rw [one a hreq]; exact ⟨_, rfl⟩)
    exact ⟨w1, map_int_ret _ _ _ h⟩
  · obtain ⟨w1, h⟩ := key (Command.set_context a) 0 (fun _ => rfl)
      (fun hreq => by rw [one a hreq]; exact ⟨_, rfl⟩)
    exact ⟨w1, map_int_ret _ _ _ h⟩
  · obtain ⟨w1, h⟩ := key (Command.set_extension a) 0 (fun _ => rfl)
      (fun hreq => by rw [one a hreq]; exact ⟨_, rfl⟩)
    exact ⟨w1, map_int_ret _ _ _ h⟩
  · obtain ⟨w1, h⟩ := key (Command.set_music a b) 0 (fun _ => rfl)
      (fun hreq => by rw [one a hreq]; exact ⟨_, rfl⟩)
    exact ⟨w1, map_int_ret _ _ _ h⟩
  · obtain ⟨w1, h⟩ := key (Command.set_priority a) 0 (fun _ => rfl)
      (fun hreq => by rw [one a hreq]; exact ⟨_, rfl⟩)
    exact ⟨w1, map_int_ret _ _ _ h⟩
  · obtain ⟨w1, h⟩ := key (Command.set_callerid a) 1 (fun _ => rfl)
      (fun hreq => by rw [one a hreq]; exact ⟨_, rfl⟩)
    exact ⟨w1, map_int_ret _ _ _ h⟩
  · obtain ⟨w1, h⟩ := key (Command.set_variable a b) 1 (fun _ => rfl)
      (fun hreq => by
        simp only [Command.run, set_variable, Result.map]
        rcases two a b hreq with h1 | h1
        · rw [if_pos h1]
          exact ⟨_, rfl⟩
        · by_cases h0 : a = []
          · rw [if_pos h0]
            exact ⟨_, rfl⟩
          · rw [if_neg h0, if_pos h1]
            exact ⟨_, rfl⟩)
    exact ⟨w1, map_int_ret _ _ _ h⟩
  · obtain ⟨w1, h⟩ := key (Command.verbose a b) 1 (fun _ => rfl)
      (fun hreq => by rw [one a hreq]; exact ⟨_, rfl⟩)
    exact ⟨w1, map_int_ret _ _ _ h⟩

/-- Witness of C29: `set_variable` returns 1 on the failure reply `200 result=0` and
with an empty value; `set_autohangup` returns 0 on the reply `200 result=-1`. -/
theorem never_fail_constants_witness :
    WellFormedReply "200".toList "result".toList "0".toList none ∧
    (∃ w1, set_variable "v".toList "x".toList
        ⟨replyLine "200".toList "result".toList "0".toList none ++ [], []⟩
      = Result.ret 1 w1) ∧
    set_variable "v".toList "x".toList ⟨"200 result=0\n".toList, []⟩
      = Result.ret 1
          ⟨[], [Event.stdout_write "SET VARIABLE v x\n".toList,
            Event.stdin_read "200 result=0\n".toList]⟩ ∧
    set_variable "v".toList [] ⟨"200 result=0\n".toList, []⟩
      = Result.ret 1
          ⟨"200 result=0\n".toList,
            [Event.stderr_write "ERROR! <value> must not be empty.\n".toList]⟩ ∧
    set_autohangup "30".toList ⟨"200 result=-1\n".toList, []⟩
      = Result.ret 0
          ⟨[], [Event.stdout_write "SET AUTOHANGUP 30\n".toList,
            Event.stdin_read "200 result=-1\n".toList]⟩ :=
  ⟨by decide,
    (never_fail_constants "v".toList "x".toList "200".toList "result".toList "0".toList none
      [] [] (by decide)).2.2.2.2.2.2.2.1,
    by decide, by decide, by decide⟩

/-- C25. Scalar sentinels on local rejection: when a required argument is empty,
`database_del`, `database_deltree` and `database_put` return 0; `database_get`,
`get_variable` and `get_full_variable` return the empty string; the seven `say_*`
commands return the string `-1`; `send_image`, `send_text`, `tdd_mode`,
`wait_for_digit`, the six `speech_*` commands with a required argument and `gosub`
return -1.  In each case one diagnostic line is written and nothing is sent or read. -/
theorem scalar_sentinels (a b c d : List Char) (w : World) :
    (a = [] ∨ b = [] →
      ∃ msg, database_del a b w = Result.ret 0
        ⟨w.stdin, w.events ++ [Event.stderr_write msg]⟩) ∧
    (a = [] →
      ∃ msg, database_deltree a b w = Result.ret 0
        ⟨w.stdin, w.events ++ [Event.stderr_write msg]⟩) ∧
    (a = [] ∨ b = [] ∨ c = [] →
      ∃ msg, database_put a b c w = Result.ret 0
        ⟨w.stdin, w.events ++ [Event.stderr_write msg]⟩) ∧
    (a = [] ∨ b = [] →
      ∃ msg, database_get a b w = Result.ret []
        ⟨w.stdin, w.events ++ [Event.stderr_write msg]⟩) ∧
    (a = [] →
      ∃ msg, get_variable a w = Result.ret []
        ⟨w.stdin, w.events ++ [Event.stderr_write msg]⟩) ∧
    (a = [] →
      ∃ msg, get_full_variable a b w = Result.ret []
        ⟨w.stdin, w.events ++ [Event.stderr_write msg]⟩) ∧
    (a = [] ∨ b = [] →
      ∃ msg, say_alpha a b w = Result.ret "-1".toList
        ⟨w.stdin, w.events ++ [Event.stderr_write msg]⟩) ∧
    (a = [] ∨ b = [] →
      ∃ msg, say_digits a b w = Result.ret "-1".toList
        ⟨w.stdin, w.events ++ [Event.stderr_write msg]⟩) ∧
    (a = [] ∨ b = [] →
      ∃ msg, say_number a b c w = Result.ret "-1".toList
        ⟨w.stdin, w.events ++ [Event.stderr_write msg]⟩) ∧
    (a = [] ∨ b = [] →
      ∃ msg, say_phonetic a b w = Result.ret "-1".toList
        ⟨w.stdin, w.events ++ [Event.stderr_write msg]⟩) ∧
    (a = [] ∨ b = [] →
      ∃ msg, say_date a b w = Result.ret "-1".toList
        ⟨w.stdin, w.events ++ [Event.stderr_write msg]⟩) ∧
    (a = [] ∨ b = [] →
      ∃ msg, say_time a b w = Result.ret "-1".toList
        ⟨w.stdin, w.events ++ [Event.stderr_write msg]⟩) ∧
    (a = [] ∨ b = [] →
      ∃ msg, say_datetime a b c d w = Result.ret "-1".toList
        ⟨w.stdin, w.events ++ [Event.stderr_write msg]⟩) ∧
    (a = [] →
      ∃ msg, send_image a w = Result.ret (-1)
        ⟨w.stdin, w.events ++ [Event.stderr_write msg]⟩) ∧
    (a = [] →
      ∃ msg, send_text a w = Result.ret (-1)
        ⟨w.stdin, w.events ++ [Event.stderr_write msg]⟩) ∧
    (a = [] →
      ∃ msg, tdd_mode a w = Result.ret (-1)
        ⟨w.stdin, w.events ++ [Event.stderr_write msg]⟩) ∧
    (a = [] →
      ∃ msg, wait_for_digit a w = Result.ret (-1)
        ⟨w.stdin, w.events ++ [Event.stderr_write msg]⟩) ∧
    (a = [] →
      ∃ msg, speech_create a w = Result.ret (-1)
        ⟨w.stdin, w.events ++ [Event.stderr_write msg]⟩) ∧
    (a = [] ∨ b = [] →
      ∃ msg, speech_set a b w = Result.ret (-1)
        ⟨w.stdin, w.events ++ [Event.stderr_write msg]⟩) ∧
    (a = [] ∨ b = [] →
      ∃ msg, speech_load_grammar a b w = Result.ret (-1)
        ⟨w.stdin, w.events ++ [Event.stderr_write msg]⟩) ∧
    (a = [] →
      ∃ msg, speech_unload_grammar a w = Result.ret (-1)
        ⟨w.stdin, w.events ++ [Event.stderr_write msg]⟩) ∧
    (a = [] →
      ∃ msg, speech_activate_grammar a w = Result.ret (-1)
        ⟨w.stdin, w.events ++ [Event.stderr_write msg]⟩) ∧
    (a = [] →
      ∃ msg, speech_deactivate_grammar a w = Result.ret (-1)
        ⟨w.stdin, w.events ++ [Event.stderr_write msg]⟩) ∧
    (a = [] ∨ b = [] ∨ c = [] →
      ∃ msg, gosub a b c d w = Result.ret (-1)
        ⟨w.stdin, w.events ++ [Event.stderr_write msg]⟩) := by
  refine ⟨?_, ?_, ?_, ?_, ?_, ?_, ?_, ?_, ?_, ?_, ?_, ?_, ?_, ?_, ?_, ?_, ?_, ?_, ?_, ?_, ?_, ?_, ?_, ?_⟩ <;> intro h <;>
    simp only [database_del, database_deltree, database_put, database_get, get_variable,
      get_full_variable, say_alpha, say_digits, say_number, say_phonetic, say_date, say_time,
      say_datetime, send_image, send_text, tdd_mode, wait_for_digit, speech_create,
      speech_set, speech_load_grammar, speech_unload_grammar, speech_activate_grammar,
      speech_deactivate_grammar, gosub, print_debug, World.emit] <;>
    split_ifs <;>
    first
      | exact ⟨_, rfl⟩
      | (exfalso; tauto)

/-- Witness of C25: `database_del` without family, `database_put` without value,
`get_variable` without name, `say_number` without digits, `gosub` without priority. -/
theorem scalar_sentinels_witness :
    (∃ msg, database_del [] "k".toList ⟨"X".toList, []⟩ = Result.ret 0
        ⟨"X".toList, [] ++ [Event.stderr_write msg]⟩) ∧
    database_put "f".toList "k".toList [] ⟨"X".toList, []⟩
      = Result.ret 0
          ⟨"X".toList, [Event.stderr_write "ERROR! <value> must not be empty.\n".toList]⟩ ∧
    get_variable [] ⟨"X".toList, []⟩
      = Result.ret []
          ⟨"X".toList, [Event.stderr_write "ERROR! <variablename> cannot be empty.\n".toList]⟩ ∧
    say_number "12".toList [] [] ⟨"X".toList, []⟩
      = Result.ret "-1".toList
          ⟨"X".toList,
            [Event.stderr_write "ERROR! <escape_digits> must not be empty.\n".toList]⟩ ∧
    gosub "c".toList "e".toList [] [] ⟨"X".toList, []⟩
      = Result.ret (-1)
          ⟨"X".toList, [Event.stderr_write "ERROR! <priority> must not be empty.\n".toList]⟩ :=
  ⟨(scalar_sentinels [] "k".toList [] [] ⟨"X".toList, []⟩).1 (Or.inl rfl),
    by decide, by decide, by decide, by decide⟩

/-! ## Startup blocks of any length -/

theorem blockText_append (ps qs : List (List Char × List Char)) :
    blockText (ps ++ qs) = blockText ps ++ blockText qs := by
  simp [blockText]

/-- One line more than `20 + _MAX_ARGS`: the `switch` of `readvars` is asked to write
`agi_args[_MAX_ARGS]`. -/
theorem readvars_stores_overflow (vs : List (List Char)) (hn : 20 + _MAX_ARGS < vs.length)
    (hv : ∀ v ∈ vs, v.length < 499) :
    readvars_stores 0 0 vs asterisk_vars.fresh = none := by
  have hsplit : vs = vs.take (20 + _MAX_ARGS) ++ vs.drop (20 + _MAX_ARGS) :=
    (List.take_append_drop _ vs).symm
  have hl : (vs.take (20 + _MAX_ARGS)).length = 20 + _MAX_ARGS := by
    rw [List.length_take]
    omega
  obtain ⟨vars1, h1, -, -⟩ := readvars_stores_fresh (vs.take (20 + _MAX_ARGS))
    (by rw [hl]) (fun v hm => hv v (List.mem_of_mem_take hm))
  obtain ⟨v, tl, hd⟩ : ∃ v tl, vs.drop (20 + _MAX_ARGS) = v :: tl := by
    cases hdz : vs.drop (20 + _MAX_ARGS) with
    | nil =>
      have := congrArg List.length hdz
      rw [List.length_drop] at this
      simp only [List.length_nil] at this
      omega
    | cons v tl => exact ⟨v, tl, rfl⟩
  rw [hsplit, readvars_stores_append, h1, hd, hl]
  simp only [readvars_stores]
  cases hs : readvars_store (0 + (20 + _MAX_ARGS)) (20 + _MAX_ARGS - 20) v vars1 with
  | none => rfl
  | some r =>
    exfalso
    obtain ⟨vars2, j2⟩ := r
    rcases readvars_store_some _ _ _ _ _ _ hs with ⟨hi, -⟩ | ⟨-, hj, -⟩
    · simp only [_MAX_ARGS] at hi
      omega
    · simp only [_MAX_ARGS] at hj
      omega

/-- The outcome of `readvars` on a startup block of well-formed lines closed by the
blank line: the values go through the `switch` in order, and the structure is returned
unless a write leaves the array of arguments. -/
theorem readvars_block (ps : List (List Char × List Char)) (rest : List Char)
    (events : List Event) (hwf : ∀ p ∈ ps, WellFormedVar p) :
    readvars ⟨blockText ps ++ '\n' :: rest, events⟩
      = match readvars_stores 0 0 (ps.map fun p => storedValue p.2) asterisk_vars.fresh with
        | none => Result.undefined
        | some (vars, _) =>
          Result.ret vars ⟨rest, events ++ blockReads ps ++ [Event.stdin_read ['\n']]⟩ := by
  have hvals : ∀ qs : List (List Char × List Char), (∀ q ∈ qs, WellFormedVar q) →
      ∀ v ∈ qs.map (fun p => storedValue p.2), v.length < 499 := by
    intro qs hqs v hv
    obtain ⟨p, hp, rfl⟩ := List.mem_map.mp hv
    exact storedValue_length p (hqs p hp)
  rw [readvars_eq_next _ [] (by simp)]
  by_cases hlen : ps.length ≤ 20 + _MAX_ARGS
  · have hfuel : 20 + _MAX_ARGS + 1 = (20 + _MAX_ARGS - ps.length + 1) + ps.length := by
      omega
    rw [hfuel, readvars_next_block _ hwf]
    cases hs : readvars_stores 0 0 (ps.map fun p => storedValue p.2) asterisk_vars.fresh with
    | none => rfl
    | some r =>
      obtain ⟨vars1, j1⟩ := r
      exact readvars_next_blank _ _ _ _ _ _ _
  · have hlong : 20 + _MAX_ARGS < ps.length := by omega
    have h2 := readvars_stores_overflow (ps.map fun p => storedValue p.2)
      (by rw [List.length_map]; exact hlong) (hvals _ hwf)
    rw [h2]
    obtain ⟨a, b, hab, hl⟩ : ∃ a b, ps = a ++ b ∧ a.length = 20 + _MAX_ARGS + 1 :=
      ⟨ps.take (20 + _MAX_ARGS + 1), ps.drop (20 + _MAX_ARGS + 1),
        (List.take_append_drop _ ps).symm, by rw [List.length_take]; omega⟩
    subst hab
    have hwf1 : ∀ q ∈ a, WellFormedVar q := fun q hq => hwf q (by simp [hq])
    have h1 := readvars_stores_overflow (a.map fun p => storedValue p.2)
      (by rw [List.length_map, hl]; omega) (hvals _ hwf1)
    have hfuel : 20 + _MAX_ARGS + 1 = 0 + a.length := by
      rw [hl]
      omega
    rw [blockText_append, List.append_assoc, hfuel, readvars_next_block _ hwf1, h1]

theorem storedValue_text (p : List Char × List Char) (h : WellFormedVar p) :
    storedValue p.2 ≠ [] ∧ '\n' ∉ storedValue p.2 := by
  obtain ⟨-, -, hn2, -, -, -⟩ := wellFormedVar_parts p h
  unfold storedValue
  split_ifs with hv
  · exact ⟨by simp, by decide⟩
  · exact ⟨hv, hn2⟩

/-- Counterexample to C26 as stated: on the block made of the line
`agi_request: myscript` and the blank line, `readvars` returns a structure, and not
every named field of it holds a non-empty string without newline, since nineteen of
them have never been written. -/
theorem short_block_leaves_fields_unwritten :
    ∃ vars w1, readvars ⟨"agi_request: myscript\n\n".toList, []⟩ = Result.ret vars w1 ∧
      ¬ ∀ field ∈ vars.named, ∃ s, field = some s ∧ s ≠ [] ∧ '\n' ∉ s := by
  have hrun := readvars_block [("agi_request".toList, "myscript".toList)] [] [] (by decide)
  have e : blockText [("agi_request".toList, "myscript".toList)] ++ ['\n']
      = "agi_request: myscript\n\n".toList := by decide
  rw [e] at hrun
  obtain ⟨vars1, hs, hn, -⟩ := readvars_stores_fresh
    ([("agi_request".toList, "myscript".toList)].map fun p => storedValue p.2)
    (by decide) (by decide)
  rw [hs] at hrun
  refine ⟨vars1, _, hrun, ?_⟩
  intro hall
  obtain ⟨s, hnone, -⟩ := hall none (by rw [hn]; decide)
  exact Option.noConfusion hnone

/-- C28. The array of arguments is not guarded: on a startup block of more than
`20 + _MAX_ARGS` well-formed lines, the first `20 + _MAX_ARGS` lines fill the named
fields and all the `_MAX_ARGS` slots of `agi_args`, leaving the index `j` at
`_MAX_ARGS`; the value of the next line is then written at `agi_args[_MAX_ARGS]`,
outside the array, and the execution of `readvars` leaves the defined fragment of C. -/
theorem readvars_args_overflow (ps : List (List Char × List Char)) (rest : List Char)
    (events : List Event) (hwf : ∀ p ∈ ps, WellFormedVar p)
    (hlen : 20 + _MAX_ARGS < ps.length) :
    readvars ⟨blockText ps ++ '\n' :: rest, events⟩ = Result.undefined ∧
    ∃ vars,
      readvars_stores 0 0 ((ps.take (20 + _MAX_ARGS)).map fun p => storedValue p.2)
          asterisk_vars.fresh = some (vars, _MAX_ARGS) ∧
      none ∉ vars.agi_args ∧
      ∀ value, readvars_store (20 + _MAX_ARGS) _MAX_ARGS value vars = none := by
  have hvals : ∀ qs : List (List Char × List Char), (∀ q ∈ qs, WellFormedVar q) →
      ∀ v ∈ qs.map (fun p => storedValue p.2), v.length < 499 := by
    intro qs hqs v hv
    obtain ⟨p, hp, rfl⟩ := List.mem_map.mp hv
    exact storedValue_length p (hqs p hp)
  constructor
  · rw [readvars_block ps rest events hwf, readvars_stores_overflow _
      (by rw [List.length_map]; exact hlen) (hvals ps hwf)]
  · have hl : ((ps.take (20 + _MAX_ARGS)).map fun p => storedValue p.2).length
        = 20 + _MAX_ARGS := by
      rw [List.length_map, List.length_take]
      omega
    obtain ⟨vars1, hs, -, ha⟩ := readvars_stores_fresh
      ((ps.take (20 + _MAX_ARGS)).map fun p => storedValue p.2) (by rw [hl])
      (hvals _ (fun q hq => hwf q (List.mem_of_mem_take hq)))
    rw [hl] at hs ha
    refine ⟨vars1, by simpa using hs, ?_, ?_⟩
    · rw [ha]
      intro hmem
      rcases List.mem_append.mp hmem with hm | hm
      · obtain ⟨x, -, hx⟩ := List.mem_map.mp hm
        exact Option.noConfusion hx
      · have h0 : _MAX_ARGS - (20 + _MAX_ARGS - 20) = 0 := by omega
        rw [h0] at hm
        exact List.not_mem_nil _ hm
    · intro value
      cases hst : readvars_store (20 + _MAX_ARGS) _MAX_ARGS value vars1 with
      | none => rfl
      | some r =>
        exfalso
        obtain ⟨vars2, j2⟩ := r
        rcases readvars_store_some _ _ _ _ _ _ hst with ⟨hi, -⟩ | ⟨-, hj, -⟩
        · simp only [_MAX_ARGS] at hi
          omega
        · exact Nat.lt_irrefl _ hj

/-- Witness of C28: a block of 148 lines `a: b`. -/
theorem readvars_args_overflow_witness :
    ((∀ p ∈ List.replicate 148 ("a".toList, "b".toList), WellFormedVar p) ∧
      20 + _MAX_ARGS < (List.replicate 148 ("a".toList, "b".toList)).length) ∧
    readvars ⟨blockText (List.replicate 148 ("a".toList, "b".toList)) ++ '\n' :: [], []⟩
      = Result.undefined ∧
    ∃ vars,
      readvars_stores 0 0
          (((List.replicate 148 ("a".toList, "b".toList)).take (20 + _MAX_ARGS)).map
            fun p => storedValue p.2)
          asterisk_vars.fresh = some (vars, _MAX_ARGS) ∧
      none ∉ vars.agi_args ∧
      ∀ value, readvars_store (20 + _MAX_ARGS) _MAX_ARGS value vars = none :=
  ⟨⟨fun p hp => by rw [List.eq_of_mem_replicate hp]; decide, by simp [_MAX_ARGS]⟩,
    readvars_args_overflow (List.replicate 148 ("a".toList, "b".toList)) [] []
      (fun p hp => by rw [List.eq_of_mem_replicate hp]; decide) (by simp [_MAX_ARGS])⟩

/-! ## The string built by `format_str` -/

/-- C30. The string built by `format_str`: for `count` strings of which at least one is
not empty, `format_str` returns the strings one after the other, in order, the empty
ones adding nothing and no separator between them, so that the length of the result
is the sum of the lengths.  When all the strings are empty nothing is ever written
into the buffer that `format_str` returns: it holds no terminated string, where the
concatenation would be the empty string. -/
theorem format_str_concatenation (count : Nat) (str1 : List Char) (args : List (List Char))
    (hcount : (str1 :: args).length = count) :
    ((∃ s ∈ str1 :: args, s ≠ []) →
      format_str count str1 args = some (str1 :: args).flatten ∧
      (str1 :: args).flatten.length = ((str1 :: args).map List.length).sum) ∧
    ((∀ s ∈ str1 :: args, s = []) → format_str count str1 args = none) := by
  have hle : count - 1 ≤ args.length := by
    simp only [List.length_cons] at hcount
    omega
  have htake : args.take (count - 1) = args := by
    apply List.take_of_length_le
    simp only [List.length_cons] at hcount
    omega
  have hw := format_str_written count str1 args hle
  rw [htake] at hw
  have hflat : (str1 :: args).flatten = str1 ++ args.flatten := rfl
  constructor
  · rintro ⟨s, hs, hne⟩
    rw [hw, hflat, if_neg]
    · exact ⟨rfl, by simp [List.length_flatten]⟩
    · intro hnil
      rw [← hflat, List.flatten_eq_nil_iff] at hnil
      exact hne (hnil s hs)
  · intro hall
    rw [hw, if_pos]
    rw [← hflat, List.flatten_eq_nil_iff]
    exact hall

/-- Witness of C30: three strings with an empty one in the middle, and two empty
strings. -/
theorem format_str_concatenation_witness :
    (("NOOP ".toList :: [[], "\n".toList]).length = 3 ∧
      ∃ s ∈ "NOOP ".toList :: [[], "\n".toList], s ≠ []) ∧
    (format_str 3 "NOOP ".toList [[], "\n".toList]
        = some ("NOOP ".toList :: [[], "\n".toList]).flatten ∧
      ("NOOP ".toList :: [[], "\n".toList]).flatten.length
        = (("NOOP ".toList :: [[], "\n".toList]).map List.length).sum) ∧
    format_str 3 "NOOP ".toList [[], "\n".toList] = some "NOOP \n".toList ∧
    format_str 2 [] [[]] = none ∧
    format_str 1 [] [] = none :=
  ⟨⟨by decide, "NOOP ".toList, by decide, by decide⟩,
    (format_str_concatenation 3 "NOOP ".toList [[], "\n".toList] (by decide)).1
      ⟨"NOOP ".toList, by decide, by decide⟩,
    by decide, by decide, by decide⟩

/-! ## The escaping loop of `exec` -/

theorem esc_length (options : List Char) :
    (esc options).length = options.length + options.count ' ' := by
  induction options with
  | nil => rfl
  | cons c s ih =>
    by_cases hc : c = ' '
    · simp [esc, hc, ih]
      omega
    · have : ¬ (' ' = c) := fun e => hc e.symm
      simp [esc, hc, ih, List.count_cons, this]
      omega

theorem exec_escape_writes_eq (options : List Char) (j : Nat) :
    (exec_escape_writes options j).map Prod.fst
        = List.range' j (options.length + options.count ' ') ∧
      (exec_escape_writes options j).map Prod.snd = esc options := by
  induction options generalizing j with
  | nil => exact ⟨rfl, rfl⟩
  | cons c s ih =>
    obtain ⟨h1, h2⟩ := ih (j + 1)
    obtain ⟨h3, h4⟩ := ih (j + 1 + 1)
    by_cases hc : c = ' '
    · subst hc
      have e : (' ' :: s).length + (' ' :: s).count ' ' = (s.length + s.count ' ') + 1 + 1 := by
        simp
        omega
      rw [e]
      simp [exec_escape_writes, h3, h4, esc, List.range'_succ]
    · have hne : ¬ (' ' = c) := fun e => hc e.symm
      have e : (c :: s).length + (c :: s).count ' ' = (s.length + s.count ' ') + 1 := by
        simp [List.count_cons, hne]
        omega
      rw [e]
      simp [exec_escape_writes, hc, h1, h2, esc, List.range'_succ]

/-- C31. The escaped buffer is sized exactly: for options of length `n` holding
`k ≥ 1` spaces, `exec` counts `k`, so that the buffer has `n + k + 1` bytes; the
escaping loop writes the `n + k` indices `0 .. n + k - 1` once each, in order, the
characters written being the escaped string; the terminator is then written at index
`n + k`, the last byte of the buffer; and the escaped string has length `n + k`. -/
theorem escaped_buffer_sized_exactly (options : List Char) (hk : 1 ≤ options.count ' ') :
    exec_escopt options 0 = options.count ' ' ∧ exec_escopt options 0 ≠ 0 ∧
    (exec_escape_writes options 0).map Prod.fst
      = List.range (options.length + options.count ' ') ∧
    (exec_escape_writes options 0).map Prod.snd = (exec_escape options 0 []).2 ∧
    (∀ p ∈ exec_escape_writes options 0, p.1 < options.length + options.count ' ') ∧
    (exec_escape options 0 []).1 = options.length + options.count ' ' ∧
    (exec_escape options 0 []).1 < options.length + exec_escopt options 0 + 1 ∧
    (exec_escape options 0 []).2.length = options.length + options.count ' ' := by
  obtain ⟨hidx, hchr⟩ := exec_escape_writes_eq options 0
  have hcount : exec_escopt options 0 = options.count ' ' := by
    rw [exec_escopt_eq]
    omega
  have hesc : exec_escape options 0 []
      = (options.length + options.count ' ', esc options) := by
    rw [exec_escape_eq]
    simp
  rw [← List.range_eq_range'] at hidx
  refine ⟨hcount, by omega, hidx, by rw [hchr, hesc], ?_, by rw [hesc], ?_, ?_⟩
  · intro p hp
    have : p.1 ∈ (exec_escape_writes options 0).map Prod.fst := List.mem_map_of_mem _ hp
    rw [hidx] at this
    exact List.mem_range.mp this
  · rw [hesc, hcount]
    omega
  · rw [hesc]
    exact esc_length options

/-- Witness of C31: the options `a b c`, of length 5 with 2 spaces. -/
theorem escaped_buffer_sized_exactly_witness :
    (1 ≤ "a b c".toList.count ' ' ∧ "a b c".toList.length = 5 ∧
      "a b c".toList.count ' ' = 2 ∧
      exec_escape_writes "a b c".toList 0
        = [(0, 'a'), (1, '\\'), (2, ' '), (3, 'b'), (4, '\\'), (5, ' '), (6, 'c')] ∧
      exec_escape "a b c".toList 0 [] = (7, "a\\ b\\ c".toList)) ∧
    exec_escopt "a b c".toList 0 = "a b c".toList.count ' ' ∧
    exec_escopt "a b c".toList 0 ≠ 0 ∧
    (exec_escape_writes "a b c".toList 0).map Prod.fst
      = List.range ("a b c".toList.length + "a b c".toList.count ' ') ∧
    (exec_escape_writes "a b c".toList 0).map Prod.snd
      = (exec_escape "a b c".toList 0 []).2 ∧
    (∀ p ∈ exec_escape_writes "a b c".toList 0,
      p.1 < "a b c".toList.length + "a b c".toList.count ' ') ∧
    (exec_escape "a b c".toList 0 []).1 = "a b c".toList.length + "a b c".toList.count ' ' ∧
    (exec_escape "a b c".toList 0 []).1
      < "a b c".toList.length + exec_escopt "a b c".toList 0 + 1 ∧
    (exec_escape "a b c".toList 0 []).2.length
      = "a b c".toList.length + "a b c".toList.count ' ' :=
  ⟨by decide, escaped_buffer_sized_exactly "a b c".toList (by decide)⟩

theorem esc_space_preceded (options : List Char) (i : Nat)
    (h : (esc options)[i]? = some ' ') :
    ∃ i0, i = i0 + 1 ∧ (esc options)[i0]? = some '\\' := by
  induction options generalizing i with
  | nil => simp [esc] at h
  | cons c s ih =>
    by_cases hc : c = ' '
    · subst hc
      simp only [esc, if_true] at h ⊢
      match i with
      | 0 => simp at h
      | 1 => exact ⟨0, rfl, rfl⟩
      | i + 2 =>
        obtain ⟨i0, hi, h0⟩ := ih i (by simpa using h)
        exact ⟨i0 + 2, by omega, by simpa using h0⟩
    · simp only [esc, hc, if_false] at h ⊢
      match i with
      | 0 =>
        simp only [List.getElem?_cons_zero, Option.some.injEq] at h
        exact absurd h hc
      | i + 1 =>
        obtain ⟨i0, hi, h0⟩ := ih i (by simpa using h)
        exact ⟨i0 + 1, by omega, by simpa using h0⟩

theorem esc_count_backslash (options : List Char) :
    (esc options).count '\\' = options.count '\\' + options.count ' ' := by
  induction options with
  | nil => rfl
  | cons c s ih =>
    by_cases hc : c = ' '
    · subst hc
      simp [esc, ih, List.count_cons]
      omega
    · have hne : ¬ (' ' = c) := fun e => hc e.symm
      by_cases hb : c = '\\'
      · subst hb
        simp [esc, ih, List.count_cons]
        omega
      · have hnb : ¬ ('\\' = c) := fun e => hb e.symm
        simp [esc, hc, ih, List.count_cons, hne, hnb]

/-- The option segment of the line that `exec` sends is the escaped option string. -/
theorem optionSegment_line (application options : List Char) :
    optionSegment application ("EXEC ".toList ++ application
        ++ (if options = [] then [] else " ".toList ++ esc options) ++ "\n".toList)
      = esc options := by
  by_cases hopt : options = []
  · subst hopt
    simp only [optionSegment, if_true, List.append_nil]
    rw [List.drop_eq_nil_of_le (by simp; omega)]
    rfl
  · simp only [hopt, if_false, optionSegment]
    have e : ("EXEC ".toList ++ application ++ (" ".toList ++ esc options) ++ "\n".toList)
        = ("EXEC ".toList ++ application ++ " ".toList) ++ (esc options ++ ['\n']) := by
      simp
    rw [e, List.drop_left']
    · exact List.dropLast_concat
    · simp
      omega

/-- C32. No unescaped space survives in the option segment: for a non-empty
application and any options, in the line that `exec` sends every space of the option
segment, the text after the separator that follows the application, comes right after
a backslash, and the option segment holds as many backslashes as `options` holds
backslashes and spaces together. -/
theorem no_unescaped_space (application options : List Char) (w : World)
    (happ : application ≠ []) :
    ∃ line,
      exec application options w = evaluate line (exec_note options w) ∧
      line = "EXEC ".toList ++ application
          ++ (if options = [] then [] else " ".toList ++ esc options) ++ "\n".toList ∧
      (∀ i, (optionSegment application line)[i]? = some ' ' →
        ∃ i0, i = i0 + 1 ∧ (optionSegment application line)[i0]? = some '\\') ∧
      (optionSegment application line).count '\\'
        = options.count '\\' + options.count ' ' := by
  refine ⟨_, exec_eq_evaluate application options w happ, rfl, ?_, ?_⟩
  · rw [optionSegment_line]
    exact esc_space_preceded options
  · rw [optionSegment_line]
    exact esc_count_backslash options

/-- Witness of C32: `exec` of `Dial` with the options `a\ b c`, which hold one
backslash and two spaces. -/
theorem no_unescaped_space_witness :
    ("Dial".toList ≠ [] ∧
      optionSegment "Dial".toList "EXEC Dial a\\\\ b\\ c\n".toList = "a\\\\ b\\ c".toList) ∧
    ∃ line,
      exec "Dial".toList "a\\ b c".toList ⟨[], []⟩
        = evaluate line (exec_note "a\\ b c".toList ⟨[], []⟩) ∧
      line = "EXEC ".toList ++ "Dial".toList
          ++ (if "a\\ b c".toList = [] then [] else " ".toList ++ esc "a\\ b c".toList)
          ++ "\n".toList ∧
      (∀ i, (optionSegment "Dial".toList line)[i]? = some ' ' →
        ∃ i0, i = i0 + 1 ∧ (optionSegment "Dial".toList line)[i0]? = some '\\') ∧
      (optionSegment "Dial".toList line).count '\\'
        = "a\\ b c".toList.count '\\' + "a\\ b c".toList.count ' ' :=
  ⟨by decide, no_unescaped_space "Dial".toList "a\\ b c".toList ⟨[], []⟩ (by decide)⟩

/-! ## Reading the startup block line by line -/

/-- C33. `readvars` drains exactly the startup block: on a stream that starts with at
most `20 + _MAX_ARGS` well-formed lines, none of which is blank, followed by the blank
line, `readvars` reads these lines and the blank line, one read each, and nothing
after it: it returns with the rest of the stream unread, so that a well-formed reply
line that follows is the one decoded by the first command. -/
theorem readvars_drains_block (ps : List (List Char × List Char)) (rest : List Char)
    (events : List Event) (hwf : ∀ p ∈ ps, WellFormedVar p)
    (hlen : ps.length ≤ 20 + _MAX_ARGS) :
    (∀ p ∈ ps, varLine p ≠ ['\n']) ∧
    ∃ vars,
      readvars ⟨blockText ps ++ '\n' :: rest, events⟩
        = Result.ret vars ⟨rest, events ++ blockReads ps ++ [Event.stdin_read ['\n']]⟩ ∧
      ∀ (command code label token : List Char) (data : Option (List Char))
        (rest1 : List Char),
        WellFormedReply code label token data →
        rest = replyLine code label token data ++ rest1 →
        evaluate command ⟨rest, events ++ blockReads ps ++ [Event.stdin_read ['\n']]⟩
          = Result.ret ⟨code, token, data.getD []⟩
              ⟨rest1, events ++ blockReads ps ++ [Event.stdin_read ['\n']]
                ++ [Event.stdout_write command,
                  Event.stdin_read (replyLine code label token data)]⟩ := by
  constructor
  · intro p hp e
    have hmem : ':' ∈ varLine p := by simp [varLine]
    rw [e] at hmem
    exact absurd hmem (by decide)
  · obtain ⟨vars1, hs, -, -⟩ := readvars_stores_fresh (ps.map fun p => storedValue p.2)
      (by rw [List.length_map]; exact hlen)
      (by
        intro v hv
        obtain ⟨p, hp, rfl⟩ := List.mem_map.mp hv
        exact storedValue_length p (hwf p hp))
    refine ⟨vars1, by rw [readvars_block ps rest events hwf, hs], ?_⟩
    intro command code label token data rest1 hreply hrest
    rw [hrest]
    exact evaluate_replyLine command code label token data rest1 _ hreply

/-- Witness of C33: the sample block followed by the reply `200 result=0`. -/
theorem readvars_drains_block_witness :
    ((∀ p ∈ sampleFields ++ sampleArgs, WellFormedVar p) ∧
      (sampleFields ++ sampleArgs).length ≤ 20 + _MAX_ARGS ∧
      WellFormedReply "200".toList "result".toList "0".toList none ∧
      "200 result=0\n".toList = replyLine "200".toList "result".toList "0".toList none ++ []) ∧
    (∀ p ∈ sampleFields ++ sampleArgs, varLine p ≠ ['\n']) ∧
    ∃ vars,
      readvars ⟨blockText (sampleFields ++ sampleArgs) ++ '\n' :: "200 result=0\n".toList, []⟩
        = Result.ret vars
            ⟨"200 result=0\n".toList,
              [] ++ blockReads (sampleFields ++ sampleArgs) ++ [Event.stdin_read ['\n']]⟩ ∧
      ∀ (command code label token : List Char) (data : Option (List Char))
        (rest1 : List Char),
        WellFormedReply code label token data →
        "200 result=0\n".toList = replyLine code label token data ++ rest1 →
        evaluate command
            ⟨"200 result=0\n".toList,
              [] ++ blockReads (sampleFields ++ sampleArgs) ++ [Event.stdin_read ['\n']]⟩
          = Result.ret ⟨code, token, data.getD []⟩
              ⟨rest1, [] ++ blockReads (sampleFields ++ sampleArgs)
                ++ [Event.stdin_read ['\n']]
                ++ [Event.stdout_write command,
                  Event.stdin_read (replyLine code label token data)]⟩ :=
  ⟨by decide,
    readvars_drains_block (sampleFields ++ sampleArgs) "200 result=0\n".toList []
      (by decide) (by decide)⟩

theorem readvars_next_read (body s : List Char) (hnl : '\n' ∉ body) (hnul : NUL ∉ body)
    (hfit : body.length + 1 < _BUFF_SIZE) (fuel i j : Nat) (prev : List Char)
    (vars : asterisk_vars) (events : List Event) :
    readvars_next fuel i j prev vars ⟨body ++ '\n' :: s, events⟩
      = readvars_loop fuel i j (body ++ ['\n']) vars
          ⟨s, events ++ [Event.stdin_read (body ++ ['\n'])]⟩ := by
  have hg := fgets_line _BUFF_SIZE body s hnl hfit
  have hc : cstr (body ++ ['\n']) = body ++ ['\n'] := by
    apply cstr_eq_self
    simp only [List.mem_append, List.mem_singleton, not_or]
    exact ⟨hnul, by decide⟩
  simp only [readvars_next, hg, hc]

/-- One pass of the loop of `readvars` over a line with any character after its first
colon and a value that is not empty. -/
theorem readvars_loop_value (name value : List Char) (sep : Char) (hname : ':' ∉ name)
    (hhead : name.head? ≠ some '\n') (hv : value ≠ []) (hnl : '\n' ∉ value)
    (fuel i j : Nat) (vars : asterisk_vars) (w : World) :
    readvars_loop (fuel + 1) i j (name ++ ':' :: sep :: (value ++ ['\n'])) vars w
      = match readvars_store i j value vars with
        | none => Result.undefined
        | some (vars1, j1) =>
          readvars_next fuel (i + 1) j1 (name ++ ':' :: sep :: value) vars1 w := by
  have hbuff : (name ++ ':' :: sep :: (value ++ ['\n'])).head? ≠ some '\n' := by
    cases name with
    | nil => simp
    | cons c name => simpa using hhead
  have hstr : strchr (name ++ ':' :: sep :: (value ++ ['\n'])) ':'
      = some (name, ':' :: sep :: (value ++ ['\n'])) :=
    strchr_append name (sep :: (value ++ ['\n'])) ':' hname
  have hvh : (value ++ ['\n']).head? ≠ some '\n' := by
    cases value with
    | nil => exact absurd rfl hv
    | cons c value =>
      have : c ≠ '\n' := fun e => hnl (by simp [e])
      simpa using this
  have hsv : strchr (value ++ ['\n']) '\n' = some (value, ['\n']) :=
    strchr_append value [] '\n' hnl
  rw [readvars_loop]
  simp only [hbuff, if_false, hstr, hvh, hsv]
  cases hs : readvars_store i j value vars with
  | none => rfl
  | some r =>
    obtain ⟨vars1, j1⟩ := r
    simp only []
    unfold readvars_next
    cases hg : fgets _BUFF_SIZE w.stdin with
    | none => rfl
    | some q => rfl

/-- One pass of the loop of `readvars` over a buffer whose value holds no newline:
`strchr` returns NULL, the test that follows is made on `value`, and the store through
`ptr` leaves the defined fragment of C. -/
theorem readvars_loop_unterminated (name value : List Char) (sep : Char)
    (hname : ':' ∉ name) (hhead : name.head? ≠ some '\n') (hnl : '\n' ∉ value)
    (fuel i j : Nat) (vars : asterisk_vars) (w : World) :
    readvars_loop (fuel + 1) i j (name ++ ':' :: sep :: value) vars w = Result.undefined := by
  have hbuff : (name ++ ':' :: sep :: value).head? ≠ some '\n' := by
    cases name with
    | nil => simp
    | cons c name => simpa using hhead
  have hstr : strchr (name ++ ':' :: sep :: value) ':' = some (name, ':' :: sep :: value) :=
    strchr_append name (sep :: value) ':' hname
  have hvh : value.head? ≠ some '\n' := by
    cases value with
    | nil => simp
    | cons c value =>
      have : c ≠ '\n' := fun e => hnl (by simp [e])
      simpa using this
  rw [readvars_loop]
  simp only [hbuff, if_false, hstr, hvh, strchr_not_mem value '\n' hnl]

/-- C35. A value without newline is not reported: when, after at most
`20 + _MAX_ARGS` well-formed lines, `fgets` delivers a line that holds a colon and
whose text from two characters after the first colon holds no newline, `readvars`
neither writes the diagnostic `ERROR! Variable has incorrect formatting. Exiting.` nor
exits with status 1: the test after `strchr` is made on `value`, which is not NULL, and
the execution goes on to store a terminator through the NULL pointer `ptr`. -/
theorem readvars_unterminated_value (ps : List (List Char × List Char))
    (tail bytes rest name value : List Char) (sep : Char) (events : List Event)
    (hwf : ∀ p ∈ ps, WellFormedVar p) (hcount : ps.length ≤ 20 + _MAX_ARGS)
    (hread : fgets _BUFF_SIZE tail = some (bytes, rest))
    (hline : cstr bytes = name ++ ':' :: sep :: value)
    (hname : ':' ∉ name) (hhead : name.head? ≠ some '\n') (hnl : '\n' ∉ value) :
    readvars ⟨blockText ps ++ tail, events⟩ = Result.undefined ∧
    (∀ status w1, readvars ⟨blockText ps ++ tail, events⟩ ≠ Result.exit status w1) := by
  have hrun : readvars ⟨blockText ps ++ tail, events⟩ = Result.undefined := by
    obtain ⟨vars1, hs, -, -⟩ := readvars_stores_fresh (ps.map fun p => storedValue p.2)
      (by rw [List.length_map]; exact hcount)
      (by
        intro v hv
        obtain ⟨p, hp, rfl⟩ := List.mem_map.mp hv
        exact storedValue_length p (hwf p hp))
    have htail : tail ≠ [] := by
      intro e
      rw [e] at hread
      simp [fgets] at hread
    rw [readvars_eq_next _ [] (by simp [htail])]
    have hfuel : 20 + _MAX_ARGS + 1 = (20 + _MAX_ARGS - ps.length + 1) + ps.length := by
      omega
    rw [hfuel, readvars_next_block _ hwf, hs]
    simp only [readvars_next, hread, hline]
    exact readvars_loop_unterminated name value sep hname hhead hnl _ _ _ _ _
  refine ⟨hrun, ?_⟩
  intro status w1 h
  rw [hrun] at h
  exact Result.noConfusion h

/-- Witness of C35: two lines of the sample block, then `agi_language: en` and the end
of the stream. -/
theorem readvars_unterminated_value_witness :
    ((∀ p ∈ sampleFields.take 2, WellFormedVar p) ∧
      (sampleFields.take 2).length ≤ 20 + _MAX_ARGS ∧
      fgets _BUFF_SIZE "agi_language: en".toList = some ("agi_language: en".toList, []) ∧
      cstr "agi_language: en".toList = "agi_language".toList ++ ':' :: ' ' :: "en".toList ∧
      ':' ∉ "agi_language".toList ∧ "agi_language".toList.head? ≠ some '\n' ∧
      '\n' ∉ "en".toList ∧
      blockText (sampleFields.take 2) ++ "agi_language: en".toList
        = "agi_request: myscript\nagi_channel: Zap/1-1\nagi_language: en".toList) ∧
    readvars ⟨blockText (sampleFields.take 2) ++ "agi_language: en".toList, []⟩
      = Result.undefined ∧
    (∀ status w1,
      readvars ⟨blockText (sampleFields.take 2) ++ "agi_language: en".toList, []⟩
        ≠ Result.exit status w1) :=
  ⟨by decide,
    readvars_unterminated_value (sampleFields.take 2) "agi_language: en".toList
      "agi_language: en".toList [] "agi_language".toList "en".toList ' ' []
      (by decide) (by decide) (by decide) (by decide) (by decide) (by decide) (by decide)⟩

/-! ## Lines of further commands -/

/-- C36. Default timeout substitution: with an empty timeout `receive_char` sends
`RECEIVE CHAR 2000`, `receive_text` sends `RECEIVE TEXT 2000` and `speech_recognize`,
for a non-empty prompt and an empty offset, sends `SPEECH RECOGNIZE`, the prompt and
`2000`; with a non-empty timeout each of them sends that timeout in the same place.
The line is sent by `evaluate`, which then decodes the reply. -/
theorem default_timeout_substitution (prompt timeout : List Char) (w : World)
    (hprompt : prompt ≠ []) :
    (timeout = [] →
      receive_char timeout w
        = (evaluate "RECEIVE CHAR 2000\n".toList
            (w.emit (Event.file_open "/tmp/wtf".toList))).bind
          (fun data w1 => Result.ret data
            { w1 with events := w1.events ++ (Command.receive_char timeout).after data }) ∧
      receive_text timeout w
        = (evaluate "RECEIVE TEXT 2000\n".toList w).bind
          (fun data w1 =>
            Result.ret (if data.result ≠ "-1".toList then data.result else []) w1) ∧
      speech_recognize prompt timeout [] w
        = evaluate ("SPEECH RECOGNIZE ".toList ++ prompt ++ " 2000\n".toList) w) ∧
    (timeout ≠ [] →
      receive_char timeout w
        = (evaluate ("RECEIVE CHAR ".toList ++ timeout ++ "\n".toList)
            (w.emit (Event.file_open "/tmp/wtf".toList))).bind
          (fun data w1 => Result.ret data
            { w1 with events := w1.events ++ (Command.receive_char timeout).after data }) ∧
      receive_text timeout w
        = (evaluate ("RECEIVE TEXT ".toList ++ timeout ++ "\n".toList) w).bind
          (fun data w1 =>
            Result.ret (if data.result ≠ "-1".toList then data.result else []) w1) ∧
      speech_recognize prompt timeout [] w
        = evaluate ("SPEECH RECOGNIZE ".toList ++ prompt ++ " ".toList ++ timeout
            ++ "\n".toList) w) := by
  constructor
  · intro ht
    subst ht
    refine ⟨?_, ?_, ?_⟩
    · simp [receive_char, evaluate_cmd, format_str_eq, _DEFAULT_TIMEOUT, Command.after,
        World.emit]
    · simp [receive_text, evaluate_cmd, format_str_eq, _DEFAULT_TIMEOUT, free_2d_array]
    · simp [speech_recognize, hprompt, evaluate_cmd, format_str_eq, _DEFAULT_TIMEOUT]
  · intro ht
    refine ⟨?_, ?_, ?_⟩
    · simp [receive_char, ht, evaluate_cmd, format_str_eq, Command.after, World.emit]
    · simp [receive_text, ht, evaluate_cmd, format_str_eq, free_2d_array]
    · simp [speech_recognize, hprompt, ht, evaluate_cmd, format_str_eq]

/-- Witness of C36: `speech_recognize` without and with a timeout, `receive_char`
without timeout, on the reply `200 result=1`. -/
theorem default_timeout_substitution_witness :
    "hello".toList ≠ [] ∧
    (speech_recognize "hello".toList [] [] ⟨"200 result=1\n".toList, []⟩
      = evaluate ("SPEECH RECOGNIZE ".toList ++ "hello".toList ++ " 2000\n".toList)
          ⟨"200 result=1\n".toList, []⟩) ∧
    speech_recognize "hello".toList [] [] ⟨"200 result=1\n".toList, []⟩
      = Result.ret ⟨"200".toList, "1".toList, []⟩
          ⟨[], [Event.stdout_write "SPEECH RECOGNIZE hello 2000\n".toList,
            Event.stdin_read "200 result=1\n".toList]⟩ ∧
    speech_recognize "hello".toList "750".toList [] ⟨"200 result=1\n".toList, []⟩
      = Result.ret ⟨"200".toList, "1".toList, []⟩
          ⟨[], [Event.stdout_write "SPEECH RECOGNIZE hello 750\n".toList,
            Event.stdin_read "200 result=1\n".toList]⟩ ∧
    receive_char [] ⟨"200 result=1\n".toList, []⟩
      = Result.ret ⟨"200".toList, "1".toList, []⟩
          ⟨[], [Event.file_open "/tmp/wtf".toList,
            Event.stdout_write "RECEIVE CHAR 2000\n".toList,
            Event.stdin_read "200 result=1\n".toList,
            Event.file_write "/tmp/wtf".toList "---\n".toList,
            Event.file_write "/tmp/wtf".toList "data[0]=200\n".toList,
            Event.file_write "/tmp/wtf".toList "data[1]=1\n".toList,
            Event.file_write "/tmp/wtf".toList "data[2]=\n".toList,
            Event.file_write "/tmp/wtf".toList "---\n".toList]⟩ :=
  ⟨by decide,
    ((default_timeout_substitution "hello".toList [] ⟨"200 result=1\n".toList, []⟩
      (by decide)).1 rfl).2.2,
    by decide, by decide, by decide⟩

/-- C38. The line of `gosub`: for non-empty context, extension, priority and arguments,
`gosub` sends `GOSUB`, the context, the extension and the priority separated by single
spaces, then a space, one double quote and the arguments, with no closing double quote
before the newline; with empty arguments it sends the line that ends after the
priority.  The result token of the reply then goes through `atoi`. -/
theorem gosub_unbalanced_quote (context extension priority arguments : List Char)
    (w : World) (hc : context ≠ []) (he : extension ≠ []) (hp : priority ≠ []) :
    (arguments ≠ [] →
      gosub context extension priority arguments w
        = (evaluate ("GOSUB ".toList ++ context ++ " ".toList ++ extension ++ " ".toList
            ++ priority ++ " \"".toList ++ arguments ++ "\n".toList) w).bind
          (fun data w1 =>
            match atoi data.result with
            | none => Result.undefined
            | some status => Result.ret status w1)) ∧
    (arguments = [] →
      gosub context extension priority arguments w
        = (evaluate ("GOSUB ".toList ++ context ++ " ".toList ++ extension ++ " ".toList
            ++ priority ++ "\n".toList) w).bind
          (fun data w1 =>
            match atoi data.result with
            | none => Result.undefined
            | some status => Result.ret status w1)) := by
  constructor
  · intro ha
    simp [gosub, hc, he, hp, ha, evaluate_cmd, format_str_eq, free_2d_array]
  · intro ha
    simp [gosub, hc, he, hp, ha, evaluate_cmd, format_str_eq, free_2d_array]

/-- Witness of C38: `gosub` to `subs`, `s`, `1` with the arguments `a,b`. -/
theorem gosub_unbalanced_quote_witness :
    ("subs".toList ≠ [] ∧ "s".toList ≠ [] ∧ "1".toList ≠ [] ∧ "a,b".toList ≠ []) ∧
    (gosub "subs".toList "s".toList "1".toList "a,b".toList ⟨"200 result=0\n".toList, []⟩
      = (evaluate ("GOSUB ".toList ++ "subs".toList ++ " ".toList ++ "s".toList ++ " ".toList
            ++ "1".toList ++ " \"".toList ++ "a,b".toList ++ "\n".toList)
          ⟨"200 result=0\n".toList, []⟩).bind
          (fun data w1 =>
            match atoi data.result with
            | none => Result.undefined
            | some status => Result.ret status w1)) ∧
    gosub "subs".toList "s".toList "1".toList "a,b".toList ⟨"200 result=0\n".toList, []⟩
      = Result.ret 0
          ⟨[], [Event.stdout_write "GOSUB subs s 1 \"a,b\n".toList,
            Event.stdin_read "200 result=0\n".toList]⟩ ∧
    gosub "subs".toList "s".toList "1".toList [] ⟨"200 result=0\n".toList, []⟩
      = Result.ret 0
          ⟨[], [Event.stdout_write "GOSUB subs s 1\n".toList,
            Event.stdin_read "200 result=0\n".toList]⟩ :=
  ⟨by decide,
    (gosub_unbalanced_quote "subs".toList "s".toList "1".toList "a,b".toList
      ⟨"200 result=0\n".toList, []⟩ (by decide) (by decide) (by decide)).1 (by decide),
    by decide, by decide⟩

/-- C39. Optional arguments of `record_file` are taken as an initial run: with
non-empty required arguments, the line sent ends after the timeout when
`offset_samples` is empty, whatever `beep` and `silence` are; it ends after
`offset_samples` when `beep` is empty, whatever `silence` is; it ends after `beep` when
`silence` is empty; and it carries all three otherwise.  A later optional argument is
sent only when every earlier one is not empty. -/
theorem record_file_optional_run
    (file format escape_digits timeout offset_samples beep silence : List Char) (w : World)
    (hfile : file ≠ []) (hformat : format ≠ []) (hdigits : escape_digits ≠ [])
    (htimeout : timeout ≠ []) :
    (offset_samples = [] →
      record_file file format escape_digits timeout offset_samples beep silence w
        = evaluate ("RECORD FILE ".toList ++ file ++ " ".toList ++ format ++ " ".toList
            ++ escape_digits ++ " ".toList ++ timeout ++ "\n".toList) w) ∧
    (offset_samples ≠ [] → beep = [] →
      record_file file format escape_digits timeout offset_samples beep silence w
        = evaluate ("RECORD FILE ".toList ++ file ++ " ".toList ++ format ++ " ".toList
            ++ escape_digits ++ " ".toList ++ timeout ++ " ".toList ++ offset_samples
            ++ "\n".toList) w) ∧
    (offset_samples ≠ [] → beep ≠ [] → silence = [] →
      record_file file format escape_digits timeout offset_samples beep silence w
        = evaluate ("RECORD FILE ".toList ++ file ++ " ".toList ++ format ++ " ".toList
            ++ escape_digits ++ " ".toList ++ timeout ++ " ".toList ++ offset_samples
            ++ " ".toList ++ beep ++ "\n".toList) w) ∧
    (offset_samples ≠ [] → beep ≠ [] → silence ≠ [] →
      record_file file format escape_digits timeout offset_samples beep silence w
        = evaluate ("RECORD FILE ".toList ++ file ++ " ".toList ++ format ++ " ".toList
            ++ escape_digits ++ " ".toList ++ timeout ++ " ".toList ++ offset_samples
            ++ " ".toList ++ beep ++ " ".toList ++ silence ++ "\n".toList) w) := by
  refine ⟨?_, ?_, ?_, ?_⟩
  · intro ho
    simp [record_file, hfile, hformat, hdigits, htimeout, ho, evaluate_cmd, format_str_eq]
  · intro ho hb
    simp [record_file, hfile, hformat, hdigits, htimeout, ho, hb, evaluate_cmd, format_str_eq]
  · intro ho hb hs
    simp [record_file, hfile, hformat, hdigits, htimeout, ho, hb, hs, evaluate_cmd,
      format_str_eq]
  · intro ho hb hs
    simp [record_file, hfile, hformat, hdigits, htimeout, ho, hb, hs, evaluate_cmd,
      format_str_eq]

/-- Witness of C39: without `offset_samples`, `BEEP` and `s=5` are not sent; without
`beep`, `s=5` is not sent. -/
theorem record_file_optional_run_witness :
    ("rec".toList ≠ [] ∧ "wav".toList ≠ [] ∧ "#".toList ≠ [] ∧ "5000".toList ≠ []) ∧
    (record_file "rec".toList "wav".toList "#".toList "5000".toList [] "BEEP".toList
        "s=5".toList ⟨"200 result=0 (timeout) endpos=100\n".toList, []⟩
      = evaluate ("RECORD FILE ".toList ++ "rec".toList ++ " ".toList ++ "wav".toList
            ++ " ".toList ++ "#".toList ++ " ".toList ++ "5000".toList ++ "\n".toList)
          ⟨"200 result=0 (timeout) endpos=100\n".toList, []⟩) ∧
    record_file "rec".toList "wav".toList "#".toList "5000".toList [] "BEEP".toList
        "s=5".toList ⟨"200 result=0 (timeout) endpos=100\n".toList, []⟩
      = Result.ret ⟨"200".toList, "0".toList, "(timeout) endpos=100".toList⟩
          ⟨[], [Event.stdout_write "RECORD FILE rec wav # 5000\n".toList,
            Event.stdin_read "200 result=0 (timeout) endpos=100\n".toList]⟩ ∧
    record_file "rec".toList "wav".toList "#".toList "5000".toList "800".toList []
        "s=5".toList ⟨"200 result=0 (timeout) endpos=100\n".toList, []⟩
      = Result.ret ⟨"200".toList, "0".toList, "(timeout) endpos=100".toList⟩
          ⟨[], [Event.stdout_write "RECORD FILE rec wav # 5000 800\n".toList,
            Event.stdin_read "200 result=0 (timeout) endpos=100\n".toList]⟩ ∧
    record_file "rec".toList "wav".toList "#".toList "5000".toList "800".toList
        "BEEP".toList "s=5".toList ⟨"200 result=0 (timeout) endpos=100\n".toList, []⟩
      = Result.ret ⟨"200".toList, "0".toList, "(timeout) endpos=100".toList⟩
          ⟨[], [Event.stdout_write "RECORD FILE rec wav # 5000 800 BEEP s=5\n".toList,
            Event.stdin_read "200 result=0 (timeout) endpos=100\n".toList]⟩ :=
  ⟨by decide,
    (record_file_optional_run "rec".toList "wav".toList "#".toList "5000".toList []
      "BEEP".toList "s=5".toList ⟨"200 result=0 (timeout) endpos=100\n".toList, []⟩
      (by decide) (by decide) (by decide) (by decide)).1 rfl,
    by decide, by decide, by decide⟩

/-! ## The fields of a decoded reply -/

theorem strncpy_some (src dst : List Char) (n : Nat) (h : strncpy src n = some dst) :
    dst = src ∧ src.length < n := by
  unfold strncpy at h
  split_ifs at h with hl
  exact ⟨(Option.some.inj h).symm, hl⟩

theorem strrchr_some_cons (s : List Char) (c : Char) (a b : List Char)
    (h : strrchr s c = some (a, b)) : ∃ t, b = c :: t ∧ s = a ++ c :: t := by
  induction s generalizing a b with
  | nil => simp [strrchr] at h
  | cons x s ih =>
    rw [strrchr] at h
    cases hs : strrchr s c with
    | some r =>
      obtain ⟨before, found⟩ := r
      simp only [hs, Option.some.injEq, Prod.mk.injEq] at h
      obtain ⟨rfl, rfl⟩ := h
      obtain ⟨t, ht, hst⟩ := ih before found hs
      exact ⟨t, ht, by rw [hst]; rfl⟩
    | none =>
      simp only [hs] at h
      split_ifs at h with hx
      simp only [Option.some.injEq, Prod.mk.injEq] at h
      obtain ⟨rfl, rfl⟩ := h
      exact ⟨s, by rw [hx], by rw [hx]; rfl⟩

/-- In a text whose only newline, if any, is its last character, a part that is
followed by something holds no newline. -/
theorem no_inner_newline (s p m q : List Char)
    (hlast : ∀ a b, s = a ++ '\n' :: b → b = []) (hs : s = p ++ (m ++ q)) (hq : q ≠ []) :
    '\n' ∉ m := by
  intro hm
  obtain ⟨m1, m2, rfl⟩ := List.append_of_mem hm
  have := hlast (p ++ m1) (m2 ++ q) (by rw [hs]; simp)
  exact hq (List.append_eq_nil.mp this).2

/-- C37. Decoded fields carry no separators: whenever `evaluate` returns a triple, on
a line delivered by one `fgets`, the status code holds no space, the result token
holds neither a space nor a newline, the data field holds no newline, and each of the
three fields is shorter than the buffer of `_BUFF_SIZE` bytes that holds it. -/
theorem decoded_fields_carry_no_separators (command : List Char) (w w1 : World)
    (t : ReturnElements) (h : evaluate command w = Result.ret t w1) :
    ' ' ∉ t.code ∧ ' ' ∉ t.result ∧ '\n' ∉ t.result ∧ '\n' ∉ t.data ∧
      t.code.length < _BUFF_SIZE ∧ t.result.length < _BUFF_SIZE ∧
      t.data.length < _BUFF_SIZE := by
  unfold evaluate at h
  simp only [World.emit] at h
  cases hg : fgets _BUFF_SIZE w.stdin with
  | none => simp [hg] at h
  | some r =>
    obtain ⟨bytes, rest⟩ := r
    obtain ⟨-, hlast⟩ := fgets_bytes _ _ _ _ hg
    simp only [hg] at h
    cases h0 : strchr (cstr bytes) ' ' with
    | none => simp [h0] at h
    | some q0 =>
      obtain ⟨begin0, end0⟩ := q0
      obtain ⟨t0, rfl, hbuff, hsp0⟩ := strchr_some _ _ _ _ h0
      simp only [h0, List.tail_cons] at h
      cases hc0 : strncpy begin0 (_BUFF_SIZE - 1) with
      | none => simp [hc0] at h
      | some data0 =>
        obtain ⟨rfl, hl0⟩ := strncpy_some _ _ _ hc0
        simp only [hc0] at h
        cases h1 : strchr t0 '=' with
        | none => simp [h1] at h
        | some q1 =>
          obtain ⟨label, begin1⟩ := q1
          obtain ⟨t1, rfl, ht0, -⟩ := strchr_some _ _ _ _ h1
          simp only [h1, List.tail_cons] at h
          cases h2 : strchr t1 ' ' with
          | none =>
            have hsp1 : ' ' ∉ t1 := (strchr_eq_none_iff t1 ' ').mp h2
            simp only [h2] at h
            cases h3 : strrchr t1 '\n' with
            | none => simp [h3] at h
            | some q3 =>
              obtain ⟨result, found⟩ := q3
              obtain ⟨t3, rfl, ht1⟩ := strrchr_some_cons _ _ _ _ h3
              simp only [h3] at h
              cases hc1 : strncpy result (_BUFF_SIZE - 1) with
              | none => simp [hc1] at h
              | some data1 =>
                obtain ⟨rfl, hl1⟩ := strncpy_some _ _ _ hc1
                simp only [hc1, Result.ret.injEq] at h
                obtain ⟨rfl, -⟩ := h
                have hnl : '\n' ∉ data1 :=
                  no_inner_newline (cstr bytes) (data0 ++ ' ' :: (label ++ ['='])) data1
                    ('\n' :: t3) hlast (by rw [hbuff, ht0, ht1]; simp) (by simp)
                refine ⟨hsp0, ?_, hnl, by simp, ?_, ?_, by simp [_BUFF_SIZE]⟩
                · intro hm
                  exact hsp1 (by rw [ht1]; simp [hm])
                · simp only [_BUFF_SIZE] at hl0 ⊢
                  omega
                · simp only [_BUFF_SIZE] at hl1 ⊢
                  omega
          | some q2 =>
            obtain ⟨result, end1⟩ := q2
            obtain ⟨t2, rfl, ht1, hsp1⟩ := strchr_some _ _ _ _ h2
            simp only [h2, List.tail_cons] at h
            cases hc1 : strncpy result (_BUFF_SIZE - 1) with
            | none => simp [hc1] at h
            | some data1 =>
              obtain ⟨rfl, hl1⟩ := strncpy_some _ _ _ hc1
              simp only [hc1] at h
              cases h3 : strrchr t2 '\n' with
              | none => simp [h3] at h
              | some q3 =>
                obtain ⟨data, found⟩ := q3
                obtain ⟨t3, rfl, ht2⟩ := strrchr_some_cons _ _ _ _ h3
                simp only [h3] at h
                cases hc2 : strncpy data (_BUFF_SIZE - 1) with
                | none => simp [hc2] at h
                | some data2 =>
                  obtain ⟨rfl, hl2⟩ := strncpy_some _ _ _ hc2
                  simp only [hc2, Result.ret.injEq] at h
                  obtain ⟨rfl, -⟩ := h
                  have hnl1 : '\n' ∉ data1 :=
                    no_inner_newline (cstr bytes) (data0 ++ ' ' :: (label ++ ['='])) data1
                      (' ' :: t2) hlast (by rw [hbuff, ht0, ht1]; simp) (by simp)
                  have hnl2 : '\n' ∉ data2 :=
                    no_inner_newline (cstr bytes)
                      (data0 ++ ' ' :: (label ++ '=' :: (data1 ++ [' ']))) data2
                      ('\n' :: t3) hlast (by rw [hbuff, ht0, ht1, ht2]; simp) (by simp)
                  refine ⟨hsp0, hsp1, hnl1, hnl2, ?_, ?_, ?_⟩
                  · simp only [_BUFF_SIZE] at hl0 ⊢
                    omega
                  · simp only [_BUFF_SIZE] at hl1 ⊢
                    omega
                  · simp only [_BUFF_SIZE] at hl2 ⊢
                    omega

/-- Witness of C37: the reply `200 result=49 endpos=160`. -/
theorem decoded_fields_carry_no_separators_witness :
    evaluate "GET OPTION beep 12\n".toList ⟨"200 result=49 endpos=160\nX".toList, []⟩
      = Result.ret ⟨"200".toList, "49".toList, "endpos=160".toList⟩
          ⟨"X".toList, [Event.stdout_write "GET OPTION beep 12\n".toList,
            Event.stdin_read "200 result=49 endpos=160\n".toList]⟩ ∧
    ' ' ∉ "200".toList ∧ ' ' ∉ "49".toList ∧ '\n' ∉ "49".toList ∧
      '\n' ∉ "endpos=160".toList ∧
      "200".toList.length < _BUFF_SIZE ∧ "49".toList.length < _BUFF_SIZE ∧
      "endpos=160".toList.length < _BUFF_SIZE :=
  ⟨by decide,
    decoded_fields_carry_no_separators "GET OPTION beep 12\n".toList
      ⟨"200 result=49 endpos=160\nX".toList, []⟩
      ⟨"X".toList, [Event.stdout_write "GET OPTION beep 12\n".toList,
        Event.stdin_read "200 result=49 endpos=160\n".toList]⟩
      ⟨"200".toList, "49".toList, "endpos=160".toList⟩ (by decide)⟩

/-! ## One command line, one reply line -/

/-- What one `fgets` delivers: at least one byte, fewer than `size`, and no byte after a
newline. -/
theorem fgets_delivery (size : Nat) (stdin bytes rest : List Char) (hsize : 2 ≤ size)
    (h : fgets size stdin = some (bytes, rest)) :
    bytes ≠ [] ∧ bytes.length < size ∧ ∀ a b, bytes = a ++ '\n' :: b → b = [] := by
  cases stdin with
  | nil => simp [fgets] at h
  | cons c s =>
    simp only [fgets, Option.some.injEq] at h
    have h1 : (fgets_take (size - 1) (c :: s)).1 = bytes := by rw [h]
    refine ⟨?_, ?_, ?_⟩
    · obtain ⟨r, hr⟩ : ∃ r, size - 1 = r + 1 := ⟨size - 2, by omega⟩
      rw [← h1, hr]
      by_cases hc : c = '\n'
      · simp [fgets_take, hc]
      · simp [fgets_take, hc]
    · have := fgets_take_length (size - 1) (c :: s)
      rw [h1] at this
      omega
    · intro a b hab
      exact fgets_take_newline_last (size - 1) (c :: s) a b (by rw [h1, hab])

/-- A line delivered by `fgets` whose C string ends in a newline holds no NUL: the
buffer is the line. -/
theorem cstr_line (size : Nat) (stdin bytes rest body : List Char)
    (hg : fgets size stdin = some (bytes, rest)) (hsize : 2 ≤ size)
    (hc : cstr bytes = body ++ ['\n']) : bytes = body ++ ['\n'] ∧ '\n' ∉ body := by
  obtain ⟨-, -, hlastb⟩ := fgets_delivery size stdin bytes rest hsize hg
  obtain ⟨d, hsplit⟩ : ∃ d, bytes = cstr bytes ++ d :=
    ⟨bytes.dropWhile (fun c => c ≠ NUL), by
      unfold cstr
      exact (List.takeWhile_append_dropWhile _ bytes).symm⟩
  rw [hc] at hsplit
  have hd := hlastb body d (by rw [hsplit]; simp)
  subst hd
  rw [List.append_nil] at hsplit
  refine ⟨hsplit, ?_⟩
  intro hm
  obtain ⟨a, b, rfl⟩ := List.append_of_mem hm
  have := hlastb a (b ++ ['\n']) (by rw [hsplit]; simp)
  simp at this

theorem mem_afterFirst (c x : Char) (s : List Char) (h : x ∈ afterFirst c s) : x ∈ s := by
  unfold afterFirst at h
  exact (List.dropWhile_suffix _).subset (List.mem_of_mem_tail h)

/-- The read of `evaluate`: on an outcome other than the undefined one it has written
the command once and then taken from the input what one `fgets` delivers. -/
theorem evaluate_read (command : List Char) (w w1 : World)
    (h : (∃ t, evaluate command w = Result.ret t w1) ∨
      (∃ status, evaluate command w = Result.exit status w1)) :
    ∃ bytes diag, w1.events = w.events ++ [Event.stdout_write command]
        ++ [Event.stdin_read bytes] ++ diag ∧
      transport diag = [] ∧ fgets _BUFF_SIZE w.stdin = some (bytes, w1.stdin) ∧
      ((∃ t, evaluate command w = Result.ret t w1) →
        ∃ body, bytes = body ++ ['\n'] ∧ '\n' ∉ body) := by
  cases hg : fgets _BUFF_SIZE w.stdin with
  | none =>
    have : evaluate command w = Result.undefined := by
      simp [evaluate, World.emit, hg]
    rw [this] at h
    rcases h with ⟨t, ht⟩ | ⟨s, hs⟩
    · exact Result.noConfusion ht
    · exact Result.noConfusion hs
  | some p =>
    obtain ⟨bytes, rest⟩ := p
    obtain ⟨hbad, hgood⟩ := evaluate_outcome command w bytes rest hg
    by_cases hm : Malformed (cstr bytes)
    · rw [hbad hm] at h
      rcases h with ⟨t, ht⟩ | ⟨s, hs⟩
      · exact Result.noConfusion ht
      · injection hs with _ hw
        subst hw
        refine ⟨bytes, _, rfl, rfl, rfl, ?_⟩
        rintro ⟨t, ht⟩
        rw [hbad hm] at ht
        exact Result.noConfusion ht
    · obtain ⟨t0, ht0⟩ := hgood hm
      rw [ht0] at h
      rcases h with ⟨t, ht⟩ | ⟨s, hs⟩
      · injection ht with _ hw
        subst hw
        refine ⟨bytes, [], by simp, rfl, rfl, fun _ => ?_⟩
        have hnl : '\n' ∈ cstr bytes := by
          unfold Malformed at hm
          simp only [not_or, not_not] at hm
          exact mem_afterFirst _ _ _ (mem_afterFirst _ _ _ hm.2.2)
        obtain ⟨a, b, hab⟩ := List.append_of_mem hnl
        obtain ⟨-, hlast⟩ := fgets_bytes _ _ _ _ hg
        have hb : b = [] := hlast a b hab
        subst hb
        exact ⟨a, cstr_line _ _ _ _ _ hg (by decide) hab⟩
      · exact Result.noConfusion hs

/-- The read of a round trip that returns or exits. -/
theorem roundTrip_read (cmd : Command) (w w1 : World)
    (h : (∃ v, cmd.roundTrip w = Result.ret v w1) ∨
      (∃ status, cmd.roundTrip w = Result.exit status w1)) :
    ∃ pre bytes post, w1.events = w.events ++ pre ++ [Event.stdout_write cmd.line]
        ++ [Event.stdin_read bytes] ++ post ∧
      transport pre = [] ∧ transport post = [] ∧
      fgets _BUFF_SIZE w.stdin = some (bytes, w1.stdin) ∧
      ((∃ v, cmd.roundTrip w = Result.ret v w1) →
        ∃ body, bytes = body ++ ['\n'] ∧ '\n' ∉ body) := by
  obtain ⟨pre, hpre, htp⟩ := before_trace cmd w
  unfold Command.roundTrip at h ⊢
  cases he : evaluate cmd.line (cmd.before w) with
  | undefined =>
    rw [he] at h
    rcases h with ⟨v, hv⟩ | ⟨s, hs⟩
    · exact Result.noConfusion hv
    · exact Result.noConfusion hs
  | exit s0 w0 =>
    obtain ⟨bytes, diag, hev, htd, hst, -⟩ := evaluate_read cmd.line (cmd.before w) w0
      (Or.inr ⟨s0, he⟩)
    rw [he] at h
    rcases h with ⟨v, hv⟩ | ⟨s, hs⟩
    · exact Result.noConfusion hv
    · injection hs with _ hw
      subst hw
      rw [hpre] at hev hst
      refine ⟨pre, bytes, diag, hev, htp, htd, hst, ?_⟩
      rintro ⟨v, hv⟩
      exact Result.noConfusion hv
  | ret d w0 =>
    obtain ⟨bytes, diag, hev, htd, hst, hline⟩ := evaluate_read cmd.line (cmd.before w) w0
      (Or.inl ⟨d, he⟩)
    rw [he] at h
    rw [hpre] at hev hst
    cases hf : cmd.finish d with
    | none =>
      simp only [hf] at h
      rcases h with ⟨v, hv⟩ | ⟨s, hs⟩
      · exact Result.noConfusion hv
      · exact Result.noConfusion hs
    | some v0 =>
      simp only [hf] at h
      rcases h with ⟨v, hv⟩ | ⟨s, hs⟩
      · injection hv with _ hw
        subst hw
        refine ⟨pre, bytes, diag ++ cmd.after d, ?_, htp, ?_, hst, fun _ => hline ⟨d, he⟩⟩
        · simp only [hev, List.append_assoc]
        · rw [transport_append, htd, after_transport]
          rfl
      · exact Result.noConfusion hs

/-- C14. Strict request/response alternation, for arguments without newline: a call of
the catalog none of whose arguments holds a newline, and that returns or exits, has
performed either no transport operation at all, leaving the input untouched, or
exactly one write of one command line (a text without newline followed by one newline)
followed by exactly one read, which took from the input what one `fgets` delivers: at
least one byte and at most one line, nothing standing after its newline; when the call
returns, the bytes read are exactly one line, closed by its newline.  Nothing else is
written to or read from the transport.  A run that leaves defined C (end of input
before the reply, a result beyond `int`) has no outcome to speak of. -/
theorem strict_alternation (cmd : Command) (w w1 : World)
    (hargs : ∀ a ∈ cmd.args, '\n' ∉ a)
    (h : (∃ v, cmd.run w = Result.ret v w1) ∨ (∃ status, cmd.run w = Result.exit status w1)) :
    ∃ extra, w1.events = w.events ++ extra ∧
      ((transport extra = [] ∧ w1.stdin = w.stdin) ∨
        ∃ bytes, transport extra = [Event.stdout_write cmd.line, Event.stdin_read bytes] ∧
          (∃ body, cmd.line = body ++ ['\n'] ∧ '\n' ∉ body) ∧
          fgets _BUFF_SIZE w.stdin = some (bytes, w1.stdin) ∧
          w.stdin = bytes ++ w1.stdin ∧ bytes ≠ [] ∧
          (∀ a b, bytes = a ++ '\n' :: b → b = []) ∧
          ((∃ v, cmd.run w = Result.ret v w1) →
            ∃ body, bytes = body ++ ['\n'] ∧ '\n' ∉ body)) := by
  by_cases hreq : [] ∈ cmd.required
  · obtain ⟨v, msg, hrun⟩ := run_local cmd w hreq
    rw [hrun] at h
    rcases h with ⟨v1, hv⟩ | ⟨s, hs⟩
    · injection hv with _ hw
      subst hw
      exact ⟨[Event.stderr_write msg], rfl, Or.inl ⟨rfl, rfl⟩⟩
    · exact Result.noConfusion hs
  · rw [run_eq cmd w hreq] at h ⊢
    obtain ⟨pre, bytes, post, hev, htp, htq, hread, hline⟩ := roundTrip_read cmd w w1 h
    obtain ⟨hne, -, hlast⟩ := fgets_delivery _ _ _ _ (by decide) hread
    refine ⟨pre ++ [Event.stdout_write cmd.line] ++ [Event.stdin_read bytes] ++ post,
      by simp only [hev, List.append_assoc],
      Or.inr ⟨bytes, ?_, line_body cmd hargs, hread, fgets_consumes _ _ _ _ hread, hne,
        hlast, hline⟩⟩
    simp only [transport_append, htp, htq, List.nil_append, List.append_nil]
    rfl

/-- Witness of C14: `database_del` on the reply `200 result=1`, a second line being
left unread. -/
theorem strict_alternation_witness :
    ((∀ a ∈ (Command.database_del "f".toList "k".toList).args, '\n' ∉ a) ∧
      ((∃ v, (Command.database_del "f".toList "k".toList).run ⟨"200 result=1\nX".toList, []⟩
        = Result.ret v ⟨"X".toList, [Event.stdout_write "DATABASE DEL f k\n".toList,
            Event.stdin_read "200 result=1\n".toList]⟩) ∨
      (∃ status,
        (Command.database_del "f".toList "k".toList).run ⟨"200 result=1\nX".toList, []⟩
        = Result.exit status ⟨"X".toList, [Event.stdout_write "DATABASE DEL f k\n".toList,
            Event.stdin_read "200 result=1\n".toList]⟩))) ∧
    ∃ extra, [Event.stdout_write "DATABASE DEL f k\n".toList,
          Event.stdin_read "200 result=1\n".toList] = [] ++ extra ∧
      ((transport extra = [] ∧ "X".toList = "200 result=1\nX".toList) ∨
        ∃ bytes, transport extra
            = [Event.stdout_write (Command.database_del "f".toList "k".toList).line,
                Event.stdin_read bytes] ∧
          (∃ body, (Command.database_del "f".toList "k".toList).line = body ++ ['\n'] ∧
            '\n' ∉ body) ∧
          fgets _BUFF_SIZE "200 result=1\nX".toList = some (bytes, "X".toList) ∧
          "200 result=1\nX".toList = bytes ++ "X".toList ∧ bytes ≠ [] ∧
          (∀ a b, bytes = a ++ '\n' :: b → b = []) ∧
          ((∃ v, (Command.database_del "f".toList "k".toList).run
              ⟨"200 result=1\nX".toList, []⟩
            = Result.ret v ⟨"X".toList, [Event.stdout_write "DATABASE DEL f k\n".toList,
                Event.stdin_read "200 result=1\n".toList]⟩) →
            ∃ body, bytes = body ++ ['\n'] ∧ '\n' ∉ body)) :=
  ⟨⟨by decide, Or.inl ⟨Value.int 1, by decide⟩⟩,
    strict_alternation (Command.database_del "f".toList "k".toList)
      ⟨"200 result=1\nX".toList, []⟩
      ⟨"X".toList, [Event.stdout_write "DATABASE DEL f k\n".toList,
        Event.stdin_read "200 result=1\n".toList]⟩ (by decide)
      (Or.inl ⟨Value.int 1, by decide⟩)⟩

/-- Counterexample to C14 as stated: `noop` with the argument `x`, newline, `HANGUP`
returns after one write and one read, and the text of that write is not one command
line: it carries the two lines `NOOP x` and `HANGUP`, of which only the first is
answered by the reply that has been read.  And `answer` on a reply that the end of
input cuts before its newline exits after one write and one read of bytes that are
not a line. -/
theorem noop_writes_two_lines :
    ((Command.noop "x\nHANGUP".toList).run ⟨"200 result=0\n200 result=1\n".toList, []⟩
      = Result.ret (Value.int 0)
          ⟨"200 result=1\n".toList,
            [Event.stdout_write "NOOP x\nHANGUP\n".toList,
              Event.stdin_read "200 result=0\n".toList]⟩ ∧
      ¬ ∃ body, "NOOP x\nHANGUP\n".toList = body ++ ['\n'] ∧ '\n' ∉ body) ∧
    (Command.answer.run ⟨"200 result=0".toList, []⟩
      = Result.exit 1
          ⟨[], [Event.stdout_write "ANSWER\n".toList, Event.stdin_read "200 result=0".toList,
            Event.stderr_write "ERROR! Problem parsing input.\n".toList]⟩ ∧
      ¬ ∃ body, "200 result=0".toList = body ++ ['\n']) := by
  refine ⟨⟨by decide, ?_⟩, by decide, ?_⟩
  · rintro ⟨body, hb, hn⟩
    have hc := congrArg (List.count '\n') hb
    rw [List.count_append, List.count_eq_zero_of_not_mem hn] at hc
    exact absurd hc (by decide)
  · rintro ⟨body, hb⟩
    have hc := congrArg (List.count '\n') hb
    rw [List.count_append] at hc
    have h0 : List.count '\n' "200 result=0".toList = 0 := by decide
    have h1 : List.count '\n' ['\n'] = 1 := by decide
    omega

/-! ## Blocks with any character after the colon -/

theorem wellFormedSep_parts (t : List Char × Char × List Char) (h : WellFormedSep t) :
    ':' ∉ t.1 ∧ t.1.head? ≠ some '\n' ∧ '\n' ∉ t.2.2 ∧
      '\n' ∉ t.1 ++ ':' :: t.2.1 :: t.2.2 ∧ NUL ∉ t.1 ++ ':' :: t.2.1 :: t.2.2 ∧
      (t.1 ++ ':' :: t.2.1 :: t.2.2).length + 1 < _BUFF_SIZE ∧ t.2.2.length < 497 := by
  obtain ⟨hc, ⟨hnl, hnul⟩, hfit⟩ := h
  have hn1 : '\n' ∉ t.1 := fun hm => hnl (by simp [hm])
  have hn2 : '\n' ∉ t.2.2 := fun hm => hnl (by simp [hm])
  refine ⟨hc, ?_, hn2, hnl, hnul, ?_, ?_⟩
  · cases hname : t.1 with
    | nil => simp
    | cons c name =>
      have : c ≠ '\n' := fun e => hn1 (by simp [hname, e])
      simpa using this
  · simpa [sepLine, Nat.add_assoc] using hfit
  · simp only [sepLine, List.length_append, List.length_cons, List.length_nil,
      _BUFF_SIZE] at hfit
    omega

/-- One pass of the loop of `readvars` over a line whose value is empty, with any
character after its colon. -/
theorem readvars_loop_novalue (name : List Char) (sep : Char) (hname : ':' ∉ name)
    (hhead : name.head? ≠ some '\n') (fuel i j : Nat) (vars : asterisk_vars) (w : World) :
    readvars_loop (fuel + 1) i j (name ++ ':' :: sep :: ['\n']) vars w
      = match readvars_store i j [' '] vars with
        | none => Result.undefined
        | some (vars1, j1) =>
          readvars_next fuel (i + 1) j1 (name ++ ':' :: sep :: ['\n']) vars1 w := by
  have hbuff : (name ++ ':' :: sep :: ['\n']).head? ≠ some '\n' := by
    cases name with
    | nil => simp
    | cons c name => simpa using hhead
  have hstr : strchr (name ++ ':' :: sep :: ['\n']) ':'
      = some (name, ':' :: sep :: ['\n']) :=
    strchr_append name (sep :: ['\n']) ':' hname
  have hsp : " ".toList = [' '] := rfl
  rw [readvars_loop]
  simp only [hbuff, if_false, hstr, hsp, List.head?_cons, if_true]
  cases hs : readvars_store i j [' '] vars with
  | none => rfl
  | some r =>
    obtain ⟨vars1, j1⟩ := r
    simp only []
    unfold readvars_next
    cases hg : fgets _BUFF_SIZE w.stdin with
    | none => rfl
    | some q => rfl

/-- One pass of the loop of `readvars` over a line with any character after its colon:
the value goes through the `switch`, one space standing for an empty value. -/
theorem readvars_loop_sepline (name value : List Char) (sep : Char) (hname : ':' ∉ name)
    (hhead : name.head? ≠ some '\n') (hnl : '\n' ∉ value)
    (fuel i j : Nat) (vars : asterisk_vars) (w : World) :
    readvars_loop (fuel + 1) i j (name ++ ':' :: sep :: (value ++ ['\n'])) vars w
      = match readvars_store i j (storedValue value) vars with
        | none => Result.undefined
        | some (vars1, j1) =>
          readvars_next fuel (i + 1) j1
            (if value = [] then name ++ ':' :: sep :: ['\n'] else name ++ ':' :: sep :: value)
            vars1 w := by
  by_cases hv : value = []
  · subst hv
    rw [List.nil_append, readvars_loop_novalue name sep hname hhead]
    rfl
  · have hst : storedValue value = value := by simp [storedValue, hv]
    rw [hst, if_neg hv]
    exact readvars_loop_value name value sep hname hhead hv hnl fuel i j vars w

/-- The loop of `readvars` over a run of well-formed lines with any character after
the colon. -/
theorem readvars_next_sepblock (qs : List (List Char × Char × List Char))
    (h : ∀ q ∈ qs, WellFormedSep q) (fuel i j : Nat) (prev : List Char)
    (vars : asterisk_vars) (tail : List Char) (events : List Event) :
    ∃ last,
      readvars_next (fuel + qs.length) i j prev vars ⟨sepText qs ++ tail, events⟩
        = match readvars_stores i j (qs.map fun q => storedValue q.2.2) vars with
          | none => Result.undefined
          | some (vars1, j1) =>
            readvars_next fuel (i + qs.length) j1 last vars1
              ⟨tail, events ++ sepReads qs⟩ := by
  induction qs generalizing i j prev vars events with
  | nil => exact ⟨prev, by simp [sepText, sepReads, readvars_stores]⟩
  | cons q qs ih =>
    have hq := h q (by simp)
    have hqs : ∀ r ∈ qs, WellFormedSep r := fun r hr => h r (by simp [hr])
    obtain ⟨hc, hhead, hn2, hnl, hnul, hfit, -⟩ := wellFormedSep_parts q hq
    obtain ⟨name, sep, value⟩ := q
    simp only at hc hhead hn2 hnl hnul hfit
    have e : sepText ((name, sep, value) :: qs) ++ tail
        = (name ++ ':' :: sep :: value) ++ '\n' :: (sepText qs ++ tail) := by
      simp [sepText, sepLine]
    have hbody : (name ++ ':' :: sep :: value) ++ ['\n']
        = name ++ ':' :: sep :: (value ++ ['\n']) := by simp
    have hreads : ∀ ev : List Event,
        ev ++ [Event.stdin_read (name ++ ':' :: sep :: (value ++ ['\n']))] ++ sepReads qs
          = ev ++ sepReads ((name, sep, value) :: qs) := by
      intro ev
      simp [sepReads, sepLine]
    have hidx : i + 1 + qs.length = i + (qs.length + 1) := by omega
    rw [e, List.length_cons, ← Nat.add_assoc, readvars_next_read _ _ hnl hnul hfit, hbody]
    simp only [List.map_cons, readvars_stores]
    rw [readvars_loop_sepline name value sep hc hhead hn2]
    cases hs : readvars_store i j (storedValue value) vars with
    | none => exact ⟨prev, rfl⟩
    | some r =>
      obtain ⟨vars1, j1⟩ := r
      simp only []
      obtain ⟨last, hl⟩ := ih hqs (i + 1) j1
        (if value = [] then name ++ ':' :: sep :: ['\n'] else name ++ ':' :: sep :: value) vars1
        (events ++ [Event.stdin_read (name ++ ':' :: sep :: (value ++ ['\n']))])
      refine ⟨last, ?_⟩
      rw [hl, hreads, hidx]

theorem sepText_append (ps qs : List (List Char × Char × List Char)) :
    sepText (ps ++ qs) = sepText ps ++ sepText qs := by
  simp [sepText]

/-- The outcome of `readvars` on a block of well-formed lines with any character after
the colon, closed by the blank line. -/
theorem readvars_sepblock (ps : List (List Char × Char × List Char)) (rest : List Char)
    (events : List Event) (hwf : ∀ p ∈ ps, WellFormedSep p) :
    readvars ⟨sepText ps ++ '\n' :: rest, events⟩
      = match readvars_stores 0 0 (ps.map fun p => storedValue p.2.2)
          asterisk_vars.fresh with
        | none => Result.undefined
        | some (vars, _) =>
          Result.ret vars ⟨rest, events ++ sepReads ps ++ [Event.stdin_read ['\n']]⟩ := by
  have hvals : ∀ qs : List (List Char × Char × List Char), (∀ q ∈ qs, WellFormedSep q) →
      ∀ v ∈ qs.map (fun p => storedValue p.2.2), v.length < 499 := by
    intro qs hqs v hv
    obtain ⟨p, hp, rfl⟩ := List.mem_map.mp hv
    obtain ⟨-, -, -, -, -, -, hl⟩ := wellFormedSep_parts p (hqs p hp)
    unfold storedValue
    split_ifs
    · simp
    · omega
  rw [readvars_eq_next _ [] (by simp)]
  by_cases hlen : ps.length ≤ 20 + _MAX_ARGS
  · have hfuel : 20 + _MAX_ARGS + 1 = (20 + _MAX_ARGS - ps.length + 1) + ps.length := by
      omega
    obtain ⟨last, hl⟩ := readvars_next_sepblock ps hwf (20 + _MAX_ARGS - ps.length + 1) 0 0 []
      asterisk_vars.fresh ('\n' :: rest) events
    rw [hfuel, hl]
    cases hs : readvars_stores 0 0 (ps.map fun p => storedValue p.2.2)
        asterisk_vars.fresh with
    | none => rfl
    | some r =>
      obtain ⟨vars1, j1⟩ := r
      exact readvars_next_blank _ _ _ _ _ _ _
  · have hlong : 20 + _MAX_ARGS < ps.length := by omega
    have h2 := readvars_stores_overflow (ps.map fun p => storedValue p.2.2)
      (by rw [List.length_map]; exact hlong) (hvals _ hwf)
    rw [h2]
    obtain ⟨a, b, hab, hl⟩ : ∃ a b, ps = a ++ b ∧ a.length = 20 + _MAX_ARGS + 1 :=
      ⟨ps.take (20 + _MAX_ARGS + 1), ps.drop (20 + _MAX_ARGS + 1),
        (List.take_append_drop _ ps).symm, by rw [List.length_take]; omega⟩
    subst hab
    have hwf1 : ∀ q ∈ a, WellFormedSep q := fun q hq => hwf q (by simp [hq])
    have h1 := readvars_stores_overflow (a.map fun p => storedValue p.2.2)
      (by rw [List.length_map, hl]; omega) (hvals _ hwf1)
    have hfuel : 20 + _MAX_ARGS + 1 = 0 + a.length := by
      rw [hl]
      omega
    obtain ⟨last, hlast⟩ := readvars_next_sepblock a hwf1 0 0 0 []
      asterisk_vars.fresh (sepText b ++ '\n' :: rest) events
    rw [sepText_append, List.append_assoc, hfuel, hlast, h1]

/-! ## Lines longer than the buffer -/

theorem fgets_take_full (room : Nat) (a b : List Char) (ha : '\n' ∉ a)
    (hl : a.length = room) : fgets_take room (a ++ b) = (a, b) := by
  subst hl
  induction a with
  | nil => simp [fgets_take]
  | cons c a ih =>
    have hc : c ≠ '\n' := fun e => ha (by simp [e])
    have hs : '\n' ∉ a := fun e => ha (by simp [e])
    simp [fgets_take, hc, ih hs]

/-- A line too long for the buffer: `fgets` delivers its first `size - 1` bytes. -/
theorem fgets_full (size : Nat) (a b : List Char) (hne : a ≠ []) (ha : '\n' ∉ a)
    (hl : a.length + 1 = size) : fgets size (a ++ b) = some (a, b) := by
  obtain ⟨c, t, rfl⟩ := List.exists_cons_of_ne_nil hne
  have hroom : (c :: t).length = size - 1 := by omega
  have := fgets_take_full (size - 1) (c :: t) b ha hroom
  simp only [List.cons_append] at this ⊢
  simp only [fgets, this]

/-- On a line cut by `fgets` before its newline, `readvars` stores through the NULL
pointer that `strchr` has returned. -/
theorem readvars_long_line (name value b : List Char) (sep : Char) (events : List Event)
    (hname : ':' ∉ name) (hnl : '\n' ∉ name ++ ':' :: sep :: value)
    (hnul : NUL ∉ name ++ ':' :: sep :: value)
    (hlen : (name ++ ':' :: sep :: value).length + 1 = _BUFF_SIZE) :
    readvars ⟨(name ++ ':' :: sep :: value) ++ b, events⟩ = Result.undefined := by
  have hread := fgets_full _BUFF_SIZE (name ++ ':' :: sep :: value) b (by simp) hnl hlen
  have hhead : name.head? ≠ some '\n' := by
    cases name with
    | nil => simp
    | cons c name =>
      have : c ≠ '\n' := fun e => hnl (by simp [e])
      simpa using this
  have hv : '\n' ∉ value := fun h => hnl (by simp [h])
  simp only [readvars, hread, cstr_eq_self _ hnul]
  exact readvars_loop_unterminated name value sep hname hhead hv _ _ _ _ _

/-- Counterexample to C27 as stated: two blocks of one line each, with the same text
from two characters after the colon, a value of 495 characters and the newline.  With
the name `a` the line fits the buffer of `_BUFF_SIZE` bytes and `readvars` returns a
structure; with the name `aaaaaaaaaa` the line has 508 bytes, `fgets` delivers the
first 499 of them, without newline, and `readvars` returns nothing: it stores through
the NULL pointer that `strchr` has returned. -/
theorem long_name_changes_outcome :
    (∃ vars w1,
      readvars ⟨sepLine ("a".toList, ' ', List.replicate 495 'x') ++ ['\n'], []⟩
        = Result.ret vars w1) ∧
    readvars ⟨sepLine ("aaaaaaaaaa".toList, ' ', List.replicate 495 'x') ++ ['\n'], []⟩
      = Result.undefined := by
  have hx : ∀ n : Nat, '\n' ∉ List.replicate n 'x' ∧ NUL ∉ List.replicate n 'x' :=
    fun n => ⟨fun h => absurd (List.eq_of_mem_replicate h) (by decide),
      fun h => absurd (List.eq_of_mem_replicate h) (by decide)⟩
  have short : ∀ v : List Char, '\n' ∉ v → NUL ∉ v → v.length = 495 →
      ∃ vars w1, readvars ⟨sepLine ("a".toList, ' ', v) ++ ['\n'], []⟩
        = Result.ret vars w1 := by
    intro v hnl hnul hl
    have hwf : ∀ p ∈ [("a".toList, ' ', v)], WellFormedSep p := by
      intro p hp
      rw [List.mem_singleton.mp hp]
      refine ⟨(by decide : ':' ∉ "a".toList), ⟨?_, ?_⟩, ?_⟩
      · simp only [List.mem_append, List.mem_cons, not_or]
        exact ⟨by decide, by decide, by decide, hnl⟩
      · simp only [List.mem_append, List.mem_cons, not_or]
        exact ⟨by decide, by decide, by decide, hnul⟩
      · simp [sepLine, _BUFF_SIZE, hl]
    have hrun := readvars_sepblock [("a".toList, ' ', v)] [] [] hwf
    have e : sepText [("a".toList, ' ', v)] ++ ['\n'] = sepLine ("a".toList, ' ', v) ++ ['\n'] := by
      simp [sepText]
    rw [e] at hrun
    obtain ⟨vars1, hs, -, -⟩ := readvars_stores_fresh
      ([("a".toList, ' ', v)].map fun p => storedValue p.2.2)
      (by simp [_MAX_ARGS])
      (by
        intro u hu
        simp only [List.map_cons, List.map_nil, List.mem_singleton] at hu
        rw [hu]
        unfold storedValue
        split_ifs
        · simp
        · omega)
    rw [hs] at hrun
    exact ⟨vars1, _, hrun⟩
  have long : ∀ v1 v2 : List Char, '\n' ∉ v1 → NUL ∉ v1 → v1.length = 487 →
      readvars ⟨sepLine ("aaaaaaaaaa".toList, ' ', v1 ++ v2) ++ ['\n'], []⟩
        = Result.undefined := by
    intro v1 v2 hnl hnul hl
    have e : sepLine ("aaaaaaaaaa".toList, ' ', v1 ++ v2) ++ ['\n']
        = ("aaaaaaaaaa".toList ++ ':' :: ' ' :: v1) ++ (v2 ++ "\n\n".toList) := by
      simp [sepLine]
    rw [e]
    apply readvars_long_line
    · decide
    · simp only [List.mem_append, List.mem_cons, not_or]
      exact ⟨by decide, by decide, by decide, hnl⟩
    · simp only [List.mem_append, List.mem_cons, not_or]
      exact ⟨by decide, by decide, by decide, hnul⟩
    · simp [_BUFF_SIZE, hl]
  have hsplit : List.replicate 495 'x' = List.replicate 487 'x' ++ List.replicate 8 'x' :=
    List.replicate_add 487 8 'x'
  refine ⟨short _ (hx 495).1 (hx 495).2 (List.length_replicate 495 'x'), ?_⟩
  rw [hsplit]
  exact long _ _ (hx 487).1 (hx 487).2 (List.length_replicate 487 'x')

/-! ## The named fields after any run of `readvars` -/

theorem storedValue_ne_nil (text : List Char) : storedValue text ≠ [] := by
  unfold storedValue
  split_ifs with h
  · simp
  · exact h

theorem storedValue_no_newline (text : List Char) (h : '\n' ∉ text) :
    '\n' ∉ storedValue text := by
  unfold storedValue
  split_ifs
  · decide
  · exact h

/-- The named fields after one value has gone through the `switch` of `readvars`. -/
theorem readvars_store_field (i j : Nat) (v : List Char) (vars vars1 : asterisk_vars)
    (j1 : Nat) (h : readvars_store i j v vars = some (vars1, j1)) (k : Nat) (hk : k < 20) :
    vars1.named[k]? = if k = i then some (some v) else vars.named[k]? := by
  by_cases hi : i < 20
  · have hl : v.length < 499 := by
      by_contra hge
      have hs : strncpy v (_BUFF_SIZE - 1) = none := by simp [strncpy, _BUFF_SIZE, hge]
      interval_cases i <;> simp [readvars_store, hs] at h
    obtain ⟨vars2, h2, hn2, -⟩ := readvars_store_named i j v vars hi hl
    rw [h] at h2
    simp only [Option.some.injEq, Prod.mk.injEq] at h2
    rw [h2.1, hn2, List.getElem?_set]
    by_cases hki : k = i
    · subst hki
      simp [named_length, hk]
    · have : ¬ i = k := fun e => hki e.symm
      simp [hki, this]
  · have hki : k ≠ i := by omega
    rw [if_neg hki]
    unfold readvars_store at h
    split at h
    all_goals first
      | omega
      | (split_ifs at h
         simp only [Option.map_eq_some', Prod.mk.injEq] at h
         obtain ⟨_, _, rfl, _⟩ := h
         rfl)

/-- With the input exhausted and a buffer that is not the blank line, the loop of
`readvars` never returns a structure. -/
theorem readvars_loop_eof (fuel : Nat) :
    ∀ (i j : Nat) (buff : List Char) (vars vars' : asterisk_vars) (w w' : World),
      w.stdin = [] → buff.head? ≠ some '\n' →
      readvars_loop fuel i j buff vars w ≠ Result.ret vars' w' := by
  induction fuel with
  | zero =>
    intro i j buff vars vars' w w' _ _ h
    simp [readvars_loop] at h
  | succ fuel ih =>
    intro i j buff vars vars' w w' hin hh h
    rw [readvars_loop] at h
    simp only [hh, if_false] at h
    cases hs : strchr buff ':' with
    | none => simp [hs] at h
    | some r =>
      obtain ⟨name, colon⟩ := r
      obtain ⟨t0, rfl, hbuff, -⟩ := strchr_some _ _ _ _ hs
      simp only [hs] at h
      have hhead : ∀ x : List Char, (name ++ ':' :: x).head? ≠ some '\n' := by
        intro x
        rw [hbuff] at hh
        cases name with
        | nil => simp
        | cons c name => simpa using hh
      have hg : fgets _BUFF_SIZE w.stdin = none := by simp [fgets, hin]
      match t0, h with
      | [], h => simp at h
      | sep :: value, h =>
        simp only [hg] at h
        by_cases hv : value.head? = some '\n'
        · simp only [hv, if_true] at h
          generalize readvars_store _ _ _ _ = st at h
          cases st with
          | none => simp at h
          | some q =>
            obtain ⟨vars1, j1⟩ := q
            simp only at h
            exact ih _ _ _ _ _ _ _ (show (w.emit _).stdin = [] from hin) hh h
        · simp only [hv, if_false] at h
          cases hc : strchr value '\n' with
          | none => simp [hc] at h
          | some q =>
            obtain ⟨text, found⟩ := q
            simp only [hc] at h
            generalize readvars_store _ _ _ _ = st at h
            cases st with
            | none => simp at h
            | some q1 =>
              obtain ⟨vars1, j1⟩ := q1
              simp only at h
              exact ih _ _ _ _ _ _ _ (show (w.emit _).stdin = [] from hin) (hhead (sep :: text)) h

/-- On a buffer without newline the loop of `readvars` never returns a structure: it
exits for want of a colon, or stores through the NULL pointer of `strchr`. -/
theorem readvars_loop_no_newline (fuel i j : Nat) (buff : List Char)
    (vars vars' : asterisk_vars) (w w' : World) (hnl : '\n' ∉ buff) :
    readvars_loop fuel i j buff vars w ≠ Result.ret vars' w' := by
  intro h
  cases fuel with
  | zero => simp [readvars_loop] at h
  | succ fuel =>
    have hh : buff.head? ≠ some '\n' := by
      cases buff with
      | nil => simp
      | cons c t =>
        have : c ≠ '\n' := fun e => hnl (by simp [e])
        simpa using this
    cases hs : strchr buff ':' with
    | none =>
      rw [readvars_loop] at h
      simp [hh, hs] at h
    | some r =>
      obtain ⟨name, colon⟩ := r
      obtain ⟨t0, rfl, hbuff, hname⟩ := strchr_some _ _ _ _ hs
      have hhead : name.head? ≠ some '\n' := by
        rw [hbuff] at hh
        cases name with
        | nil => simp
        | cons c name => simpa using hh
      cases t0 with
      | nil =>
        rw [readvars_loop] at h
        simp [hh, hs] at h
      | cons sep value =>
        have hv : '\n' ∉ value := fun e => hnl (by rw [hbuff]; simp [e])
        rw [hbuff, readvars_loop_unterminated name value sep hname hhead hv] at h
        cases h

/-- What a run of the loop of `readvars` that returns has read and stored: lines of the
form name, colon, one character, text, newline, then the blank line; the named field of
each line read holds the text of that line, or one space for an empty text, and the
other named fields are as they were. -/
theorem readvars_next_fields (fuel : Nat) :
    ∀ (i j : Nat) (prev : List Char) (vars vars' : asterisk_vars) (w w' : World),
      prev.head? ≠ some '\n' →
      readvars_next fuel i j prev vars w = Result.ret vars' w' →
      ∃ lines : List (List Char),
        w'.events = w.events ++ lines.map Event.stdin_read ++ [Event.stdin_read ['\n']] ∧
        w.stdin = lines.flatten ++ '\n' :: w'.stdin ∧
        (∀ line ∈ lines, ∃ body, line = body ++ ['\n'] ∧ body ≠ [] ∧ '\n' ∉ body) ∧
        ∀ k, k < 20 →
          (k < i ∨ i + lines.length ≤ k → vars'.named[k]? = vars.named[k]?) ∧
          (∀ line, i ≤ k → lines[k - i]? = some line →
            ∃ name sep text, line = name ++ ':' :: sep :: (text ++ ['\n']) ∧
              ':' ∉ name ∧ '\n' ∉ text ∧
              vars'.named[k]? = some (some (storedValue text))) := by
  induction fuel with
  | zero =>
    intro i j prev vars vars' w w' _ h
    unfold readvars_next at h
    cases hg : fgets _BUFF_SIZE w.stdin <;> simp [hg, readvars_loop] at h
  | succ fuel ih =>
    intro i j prev vars vars' w w' hprev h
    unfold readvars_next at h
    cases hg : fgets _BUFF_SIZE w.stdin with
    | none =>
      simp only [hg] at h
      have hin : w.stdin = [] := by
        cases hs : w.stdin with
        | nil => rfl
        | cons c s => simp [fgets, hs] at hg
      exact absurd h
        (readvars_loop_eof _ _ _ _ _ _ _ _ (show (w.emit _).stdin = [] from hin) hprev)
    | some q =>
      obtain ⟨bytes, rest⟩ := q
      simp only [hg] at h
      obtain ⟨hne, -, hlastb⟩ := fgets_delivery _ _ _ _ (by decide) hg
      obtain ⟨-, hlast⟩ := fgets_bytes _ _ _ _ hg
      have hcons := fgets_consumes _ _ _ _ hg
      by_cases hh : (cstr bytes).head? = some '\n'
      · have hb : bytes = ['\n'] := by
          cases bytes with
          | nil => exact absurd rfl hne
          | cons c t =>
            have hc : c = '\n' := by
              by_cases hn : c = NUL
              · subst hn
                simp [cstr, List.takeWhile] at hh
              · simpa [cstr, List.takeWhile, hn] using hh
            subst hc
            rw [hlastb [] t rfl]
        rw [readvars_loop, if_pos hh] at h
        simp only [Result.ret.injEq] at h
        obtain ⟨rfl, rfl⟩ := h
        refine ⟨[], ?_, ?_, ?_, ?_⟩
        · simp [hb]
        · simpa [hb] using hcons
        · intro line hl
          simp at hl
        · intro k _
          exact ⟨fun _ => rfl, fun line _ hl => by simp at hl⟩
      · cases hs : strchr (cstr bytes) ':' with
        | none =>
          rw [readvars_loop] at h
          simp [hh, hs] at h
        | some r =>
          obtain ⟨name, colon⟩ := r
          obtain ⟨t0, rfl, hbuff, hname⟩ := strchr_some _ _ _ _ hs
          have hhead : name.head? ≠ some '\n' := by
            rw [hbuff] at hh
            cases name with
            | nil => simp
            | cons c name => simpa using hh
          cases t0 with
          | nil =>
            rw [readvars_loop] at h
            simp [hh, hs] at h
          | cons sep value =>
            by_cases hv : '\n' ∈ value
            · have hsome : ∃ q, strchr value '\n' = some q := by
                cases hq : strchr value '\n' with
                | none => exact absurd hv ((strchr_eq_none_iff value '\n').mp hq)
                | some q => exact ⟨q, rfl⟩
              obtain ⟨⟨text, found⟩, hc⟩ := hsome
              obtain ⟨t1, -, hval, htext⟩ := strchr_some _ _ _ _ hc
              have ht1 : t1 = [] :=
                hlast (name ++ ':' :: sep :: text) t1 (by rw [hbuff, hval]; simp)
              subst ht1
              have hline : cstr bytes = (name ++ ':' :: sep :: text) ++ ['\n'] := by
                rw [hbuff, hval]
                simp
              obtain ⟨hbytes, hbody⟩ := cstr_line _ _ _ _ _ hg (by decide) hline
              rw [hbuff, hval, readvars_loop_sepline name text sep hname hhead htext] at h
              cases hst : readvars_store i j (storedValue text) vars with
              | none =>
                rw [hst] at h
                cases h
              | some q1 =>
                obtain ⟨vars1, j1⟩ := q1
                rw [hst] at h
                have hfield := readvars_store_field i j _ vars vars1 j1 hst
                have hprev1 : (if text = [] then name ++ ':' :: sep :: ['\n']
                    else name ++ ':' :: sep :: text).head? ≠ some '\n' := by
                  split_ifs <;> cases name with
                  | nil => simp
                  | cons c name => simpa using hhead
                obtain ⟨lines, hev, hin, hall, hf⟩ := ih _ _ _ _ _ _ _ hprev1 h
                refine ⟨bytes :: lines, ?_, ?_, ?_, ?_⟩
                · rw [hev]
                  simp
                · rw [hcons]
                  simp only at hin
                  rw [hin]
                  simp
                · intro line hl
                  rcases List.mem_cons.mp hl with rfl | hl
                  · exact ⟨_, hbytes, by simp, hbody⟩
                  · exact hall line hl
                · intro k hk
                  obtain ⟨ha, hb⟩ := hf k hk
                  constructor
                  · intro hcase
                    have hki : k ≠ i := by
                      simp only [List.length_cons] at hcase
                      omega
                    have h1 : vars'.named[k]? = vars1.named[k]? :=
                      ha (by
                        simp only [List.length_cons] at hcase
                        omega)
                    rw [h1, hfield k hk, if_neg hki]
                  · intro line hik hl
                    by_cases hki : k = i
                    · subst hki
                      simp only [Nat.sub_self, List.getElem?_cons_zero,
                        Option.some.injEq] at hl
                      subst hl
                      refine ⟨name, sep, text, ?_, hname, htext, ?_⟩
                      · rw [hbytes]
                        simp
                      · rw [ha (Or.inl (Nat.lt_succ_self k)), hfield k hk, if_pos rfl]
                    · have hidx : k - i = (k - (i + 1)) + 1 := by omega
                      rw [hidx, List.getElem?_cons_succ] at hl
                      exact hb line (by omega) hl
            · rw [hbuff, readvars_loop_unterminated name value sep hname hhead hv] at h
              cases h

/-- C26. Named fields of the lines present: on every input on which `readvars` returns
a structure, the input read is a run of lines followed by the blank line, and each named
field whose line is present (the field at the position of the line, among the first
twenty) holds a non-empty string without newline: the text of its line from two
characters after the first colon, or exactly one space when that text is empty. A named
field whose line is missing has not been written and holds no string. -/
theorem named_fields_of_present_lines (w w1 : World) (vars : asterisk_vars)
    (h : readvars w = Result.ret vars w1) :
    ∃ lines : List (List Char),
      w.stdin = lines.flatten ++ '\n' :: w1.stdin ∧
      w1.events = w.events ++ lines.map Event.stdin_read ++ [Event.stdin_read ['\n']] ∧
      (∀ line ∈ lines, ∃ body, line = body ++ ['\n'] ∧ body ≠ [] ∧ '\n' ∉ body) ∧
      ∀ k, k < 20 →
        (∀ line, lines[k]? = some line →
          ∃ name sep text s, line = name ++ ':' :: sep :: (text ++ ['\n']) ∧
            ':' ∉ name ∧ '\n' ∉ text ∧
            vars.named[k]? = some (some s) ∧ s ≠ [] ∧ '\n' ∉ s ∧
            (text = [] → s = " ".toList) ∧ (text ≠ [] → s = text)) ∧
        (lines[k]? = none → vars.named[k]? = some none) := by
  have hne : w.stdin ≠ [] := by
    intro hin
    simp [readvars, fgets, hin] at h
  rw [readvars_eq_next w [] hne] at h
  obtain ⟨lines, hev, hin, hall, hf⟩ :=
    readvars_next_fields _ 0 0 [] asterisk_vars.fresh vars w w1 (by simp) h
  refine ⟨lines, hin, hev, hall, ?_⟩
  intro k hk
  obtain ⟨ha, hb⟩ := hf k hk
  constructor
  · intro line hl
    obtain ⟨name, sep, text, hline, hname, htext, hs⟩ :=
      hb line (Nat.zero_le k) (by simpa using hl)
    refine ⟨name, sep, text, storedValue text, hline, hname, htext, hs,
      storedValue_ne_nil text, storedValue_no_newline text htext, ?_, ?_⟩
    · intro hv
      simp [storedValue, hv]
    · intro hv
      simp [storedValue, hv]
  · intro hnone
    have hge : lines.length ≤ k := List.getElem?_eq_none_iff.mp hnone
    rw [ha (Or.inr (by omega))]
    interval_cases k <;> rfl

/-- Witness of C26: a block of one line, with `X` after the colon, and the blank line. -/
theorem named_fields_of_present_lines_witness :
    readvars ⟨"a:Xvalue\n\n".toList, []⟩
        = Result.ret { asterisk_vars.fresh with agi_request := some "value".toList }
            ⟨[], [Event.stdin_read "a:Xvalue\n".toList, Event.stdin_read ['\n']]⟩ ∧
    ∃ lines : List (List Char),
      "a:Xvalue\n\n".toList = lines.flatten ++ '\n' :: [] ∧
      [Event.stdin_read "a:Xvalue\n".toList, Event.stdin_read ['\n']]
        = [] ++ lines.map Event.stdin_read ++ [Event.stdin_read ['\n']] ∧
      (∀ line ∈ lines, ∃ body, line = body ++ ['\n'] ∧ body ≠ [] ∧ '\n' ∉ body) ∧
      ∀ k, k < 20 →
        (∀ line, lines[k]? = some line →
          ∃ name sep text s, line = name ++ ':' :: sep :: (text ++ ['\n']) ∧
            ':' ∉ name ∧ '\n' ∉ text ∧
            ({ asterisk_vars.fresh with agi_request := some "value".toList }
              : asterisk_vars).named[k]? = some (some s) ∧ s ≠ [] ∧ '\n' ∉ s ∧
            (text = [] → s = " ".toList) ∧ (text ≠ [] → s = text)) ∧
        (lines[k]? = none →
          ({ asterisk_vars.fresh with agi_request := some "value".toList }
            : asterisk_vars).named[k]? = some none) :=
  ⟨by decide,
    named_fields_of_present_lines ⟨"a:Xvalue\n\n".toList, []⟩
      ⟨[], [Event.stdin_read "a:Xvalue\n".toList, Event.stdin_read ['\n']]⟩
      { asterisk_vars.fresh with agi_request := some "value".toList } (by decide)⟩

/-! ## Blocks whose lines need not fit the buffer -/

/-- The C string of a line that holds a NUL stops before the newline. -/
theorem cstr_cut (body : List Char) (hnul : NUL ∈ body) (hnl : '\n' ∉ body) :
    '\n' ∉ cstr (body ++ ['\n']) := by
  induction body with
  | nil => simp at hnul
  | cons c body ih =>
    by_cases hc : c = NUL
    · simp [cstr, List.takeWhile, hc]
    · have hb : NUL ∈ body := by
        rcases List.mem_cons.mp hnul with e | e
        · exact absurd e.symm hc
        · exact e
      have hcn : c ≠ '\n' := fun e => hnl (by simp [e])
      have hbn : '\n' ∉ body := fun e => hnl (by simp [e])
      have := ih hb hbn
      simp only [cstr] at this ⊢
      simp only [List.cons_append, List.takeWhile, ne_eq, hc, not_false_eq_true,
        decide_True, List.mem_cons, not_or]
      exact ⟨fun e => hcn e.symm, this⟩

/-- A run of `readvars` that returns has met only lines that hold no NUL and fit the
buffer: on a line that holds a NUL, or that `fgets` cuts before its newline, the buffer
holds no newline and nothing is returned. -/
theorem readvars_next_returns (ps : List (List Char × Char × List Char)) :
    ∀ (fuel i j : Nat) (prev : List Char) (vars vars' : asterisk_vars) (tail : List Char)
      (events : List Event) (w' : World),
      (∀ p ∈ ps, IsSepLine p) →
      readvars_next fuel i j prev vars ⟨sepText ps ++ '\n' :: tail, events⟩
        = Result.ret vars' w' →
      ∀ p ∈ ps, WellFormedSep p := by
  induction ps with
  | nil =>
    intro _ _ _ _ _ _ _ _ _ _ _ p hp
    simp at hp
  | cons p ps ih =>
    intro fuel i j prev vars vars' tail events w' hps h
    obtain ⟨name, sep, value⟩ := p
    obtain ⟨hname, hnl⟩ := hps (name, sep, value) (List.mem_cons_self _ _)
    simp only at hname hnl
    have hps1 : ∀ p ∈ ps, IsSepLine p := fun p hp => hps p (List.mem_cons_of_mem _ hp)
    have e : sepText ((name, sep, value) :: ps) ++ '\n' :: tail
        = (name ++ ':' :: sep :: value) ++ '\n' :: (sepText ps ++ '\n' :: tail) := by
      simp [sepText, sepLine]
    have hhead : name.head? ≠ some '\n' := by
      cases name with
      | nil => simp
      | cons c name =>
        have : c ≠ '\n' := fun e => hnl (by simp [e])
        simpa using this
    have hv : '\n' ∉ value := fun e => hnl (by simp [e])
    rw [e] at h
    cases fuel with
    | zero =>
      simp only [readvars_next, readvars_loop] at h
      split at h <;> cases h
    | succ fuel =>
      by_cases hfit : (name ++ ':' :: sep :: value).length + 1 < _BUFF_SIZE
      · by_cases hnul : NUL ∈ name ++ ':' :: sep :: value
        · exfalso
          have hg := fgets_line _BUFF_SIZE (name ++ ':' :: sep :: value)
            (sepText ps ++ '\n' :: tail) hnl hfit
          unfold readvars_next at h
          simp only [hg] at h
          exact readvars_loop_no_newline _ _ _ _ _ _ _ _ (cstr_cut _ hnul hnl) h
        · have hwf : WellFormedSep (name, sep, value) :=
            ⟨hname, ⟨hnl, hnul⟩, by simpa [sepLine] using hfit⟩
          rw [readvars_next_read _ _ hnl hnul hfit, List.append_assoc, List.cons_append,
            List.cons_append, readvars_loop_sepline name value sep hname hhead hv] at h
          cases hst : readvars_store i j (storedValue value) vars with
          | none =>
            rw [hst] at h
            cases h
          | some q =>
            obtain ⟨vars1, j1⟩ := q
            rw [hst] at h
            have hrest := ih _ _ _ _ _ _ _ _ _ hps1 h
            intro p hp
            rcases List.mem_cons.mp hp with rfl | hp
            · exact hwf
            · exact hrest p hp
      · exfalso
        obtain ⟨a, b, hab, hl⟩ : ∃ a b, name ++ ':' :: sep :: value = a ++ b ∧
            a.length + 1 = _BUFF_SIZE :=
          ⟨(name ++ ':' :: sep :: value).take (_BUFF_SIZE - 1),
            (name ++ ':' :: sep :: value).drop (_BUFF_SIZE - 1),
            (List.take_append_drop _ _).symm, by
              rw [List.length_take]
              simp only [_BUFF_SIZE] at hfit ⊢
              omega⟩
        have han : '\n' ∉ a := fun m => hnl (by rw [hab]; simp [m])
        have hane : a ≠ [] := by
          intro ea
          simp [ea, _BUFF_SIZE] at hl
        have hg := fgets_full _BUFF_SIZE a (b ++ '\n' :: (sepText ps ++ '\n' :: tail))
          hane han hl
        rw [hab, List.append_assoc] at h
        unfold readvars_next at h
        simp only [hg] at h
        have hc : '\n' ∉ cstr a := fun m => han ((List.takeWhile_sublist _).subset m)
        exact readvars_loop_no_newline _ _ _ _ _ _ _ _ hc h

/-- C27. Position, not name, decides the field: take two startup blocks whose lines are
made of a name without colon, a colon, any one character, a text and the newline, and
that carry the same texts line by line. They have the same number of lines. Whenever
`readvars` returns a structure on both, the two structures are the same, whatever the
names and the characters after the colons. When every line of both blocks holds no
NUL and fits the buffer of `_BUFF_SIZE` bytes, `readvars` does return on both, with
the same structure, for at most `20 + _MAX_ARGS` lines, and leaves the array of
arguments on both for more lines. -/
theorem position_decides_field (ps qs : List (List Char × Char × List Char))
    (rest1 rest2 : List Char) (events1 events2 : List Event)
    (hps : ∀ p ∈ ps, IsSepLine p) (hqs : ∀ q ∈ qs, IsSepLine q)
    (hval : (ps.map fun p => p.2.2) = qs.map fun q => q.2.2) :
    ps.length = qs.length ∧
    (∀ vars1 w1 vars2 w2,
      readvars ⟨sepText ps ++ '\n' :: rest1, events1⟩ = Result.ret vars1 w1 →
      readvars ⟨sepText qs ++ '\n' :: rest2, events2⟩ = Result.ret vars2 w2 →
      vars1 = vars2) ∧
    ((∀ p ∈ ps, WellFormedSep p) → (∀ q ∈ qs, WellFormedSep q) →
      (ps.length ≤ 20 + _MAX_ARGS →
        ∃ vars,
          readvars ⟨sepText ps ++ '\n' :: rest1, events1⟩
            = Result.ret vars
                ⟨rest1, events1 ++ sepReads ps ++ [Event.stdin_read ['\n']]⟩ ∧
          readvars ⟨sepText qs ++ '\n' :: rest2, events2⟩
            = Result.ret vars
                ⟨rest2, events2 ++ sepReads qs ++ [Event.stdin_read ['\n']]⟩) ∧
      (20 + _MAX_ARGS < ps.length →
        readvars ⟨sepText ps ++ '\n' :: rest1, events1⟩ = Result.undefined ∧
        readvars ⟨sepText qs ++ '\n' :: rest2, events2⟩ = Result.undefined)) := by
  have hlen : ps.length = qs.length := by
    have := congrArg List.length hval
    simpa using this
  have hvs : (ps.map fun p => storedValue p.2.2) = qs.map fun q => storedValue q.2.2 := by
    have := congrArg (List.map storedValue) hval
    simpa [List.map_map, Function.comp_def] using this
  refine ⟨hlen, ?_, ?_⟩
  · intro vars1 w1 vars2 w2 h1 h2
    have wf1 : ∀ p ∈ ps, WellFormedSep p :=
      readvars_next_returns ps _ 0 0 [] asterisk_vars.fresh vars1 rest1 events1 w1 hps
        (by rw [← readvars_eq_next _ [] (by simp)]; exact h1)
    have wf2 : ∀ q ∈ qs, WellFormedSep q :=
      readvars_next_returns qs _ 0 0 [] asterisk_vars.fresh vars2 rest2 events2 w2 hqs
        (by rw [← readvars_eq_next _ [] (by simp)]; exact h2)
    rw [readvars_sepblock ps rest1 events1 wf1] at h1
    rw [readvars_sepblock qs rest2 events2 wf2, ← hvs] at h2
    cases hs : readvars_stores 0 0 (ps.map fun p => storedValue p.2.2)
        asterisk_vars.fresh with
    | none =>
      rw [hs] at h1
      cases h1
    | some r =>
      obtain ⟨vars, j⟩ := r
      rw [hs] at h1 h2
      simp only [Result.ret.injEq] at h1 h2
      rw [← h1.1, ← h2.1]
  · intro wf1 wf2
    have hvals : ∀ v ∈ ps.map (fun p => storedValue p.2.2), v.length < 499 := by
      intro v hv
      obtain ⟨p, hp, rfl⟩ := List.mem_map.mp hv
      obtain ⟨-, -, -, -, -, -, hl⟩ := wellFormedSep_parts p (wf1 p hp)
      unfold storedValue
      split_ifs
      · simp
      · omega
    have h1 := readvars_sepblock ps rest1 events1 wf1
    have h2 := readvars_sepblock qs rest2 events2 wf2
    rw [← hvs] at h2
    constructor
    · intro hle
      obtain ⟨vars1, hs, -, -⟩ := readvars_stores_fresh (ps.map fun p => storedValue p.2.2)
        (by rw [List.length_map]; exact hle) hvals
      rw [hs] at h1 h2
      exact ⟨vars1, h1, h2⟩
    · intro hgt
      have hs := readvars_stores_overflow (ps.map fun p => storedValue p.2.2)
        (by rw [List.length_map]; exact hgt) hvals
      rw [hs] at h1 h2
      exact ⟨h1, h2⟩

/-- Witness of C27: three lines of the sample block against three lines named `a`, `b`
and `c` with the same texts, the second with `X` after its colon. -/
theorem position_decides_field_witness :
    ((∀ p ∈ sampleLines, IsSepLine p) ∧ (∀ q ∈ renamedLines, IsSepLine q) ∧
      (sampleLines.map fun p => p.2.2) = renamedLines.map fun q => q.2.2) ∧
    (sampleLines.length = renamedLines.length ∧
    (∀ vars1 w1 vars2 w2,
      readvars ⟨sepText sampleLines ++ '\n' :: [], []⟩ = Result.ret vars1 w1 →
      readvars ⟨sepText renamedLines ++ '\n' :: [], []⟩ = Result.ret vars2 w2 →
      vars1 = vars2) ∧
    ((∀ p ∈ sampleLines, WellFormedSep p) → (∀ q ∈ renamedLines, WellFormedSep q) →
      (sampleLines.length ≤ 20 + _MAX_ARGS →
        ∃ vars,
          readvars ⟨sepText sampleLines ++ '\n' :: [], []⟩
            = Result.ret vars
                ⟨[], [] ++ sepReads sampleLines ++ [Event.stdin_read ['\n']]⟩ ∧
          readvars ⟨sepText renamedLines ++ '\n' :: [], []⟩
            = Result.ret vars
                ⟨[], [] ++ sepReads renamedLines ++ [Event.stdin_read ['\n']]⟩) ∧
      (20 + _MAX_ARGS < sampleLines.length →
        readvars ⟨sepText sampleLines ++ '\n' :: [], []⟩ = Result.undefined ∧
        readvars ⟨sepText renamedLines ++ '\n' :: [], []⟩ = Result.undefined))) :=
  ⟨by decide,
    position_decides_field sampleLines renamedLines [] [] [] []
      (by decide) (by decide) (by decide)⟩

end Cagi
